import Mathlib

/-!
# SIMP toolchain: assembler (`asm.c`) and simulator (`sim.c`)

A shallow embedding of the two C programs.  C strings are lists of characters
(one `Char` per byte, never containing NUL), C `int` values are integers kept in
the signed 32-bit range by `toInt32`, `uint32_t` values are naturals reduced
modulo `2^32`.  Calls to `exit(1)` and executions whose behaviour the C standard
leaves undefined are results of type `Err`.
-/

namespace SIMP

/-! ## The C library functions the two programs call -/

/-- A NUL-terminated C string, without its terminator. -/
abbrev CStr := List Char

/-- Ways in which a pass can stop without finishing. -/
inductive Err where
  /-- Diagnostic `Error: Invalid opcode`, then `exit(1)`. -/
  | invalid_opcode
  /-- Diagnostic `Error: Invalid register`, then `exit(1)`. -/
  | invalid_register
  /-- Diagnostic `Error: Undefined label`, then `exit(1)`. -/
  | undefined_label
  /-- The C standard gives the execution no meaning (out-of-bounds access,
  NULL argument, unterminated buffer, signed overflow). -/
  | undefined_behaviour
  deriving DecidableEq, Repr

/-- The `isspace` classification of the C locale. -/
def isspace (c : Char) : Bool :=
  c = ' ' || c = '\t' || c = '\n' || c = '\x0b' || c = '\x0c' || c = '\r'

/-- The `isdigit` classification. -/
def isdigit (c : Char) : Bool :=
  decide (48 ≤ c.toNat) && decide (c.toNat ≤ 57)

/-- The `isxdigit` classification. -/
def isxdigit (c : Char) : Bool :=
  isdigit c || (decide (97 ≤ c.toNat) && decide (c.toNat ≤ 102))
    || (decide (65 ≤ c.toNat) && decide (c.toNat ≤ 70))

/-- Value of a character as a digit (letters count from 10), 36 when it is none. -/
def digitVal (c : Char) : Nat :=
  if isdigit c then c.toNat - 48
  else if 97 ≤ c.toNat ∧ c.toNat ≤ 122 then c.toNat - 87
  else if 65 ≤ c.toNat ∧ c.toNat ≤ 90 then c.toNat - 55
  else 36

/-- Conversion of a C `long` (or any integer) to `int`: reduction modulo `2^32`
into the signed range. -/
def toInt32 (x : Int) : Int :=
  if x % 4294967296 < 2147483648 then x % 4294967296 else x % 4294967296 - 4294967296

/-- Conversion of an `int` to `unsigned int` / `uint32_t`. -/
def toU32 (x : Int) : Nat := (x % 4294967296).toNat

/-- The operator `x & m` on an `int` x and a non-negative constant m (two's
complement). -/
def int_and (x : Int) (m : Nat) : Int := ((toU32 x &&& m : Nat) : Int)

/-- Bytes that a buffer holds up to its first NUL. -/
def cstr (buf : List Char) : CStr := buf.takeWhile (fun c => c ≠ Char.ofNat 0)

/-- The successive buffers `fgets(line, size, f)` returns on a stream holding
`input`: each call reads up to `size - 1` bytes and stops after a newline.
`cur` is the part of the current line read so far (reversed), `n` its length. -/
def fgetsAux (size : Nat) : List Char → List Char → Nat → List (List Char)
  | [], cur, _ => if cur = [] then [] else [cur.reverse]
  | c :: rest, cur, n =>
    if c = '\n' ∨ n + 2 = size then (c :: cur).reverse :: fgetsAux size rest [] 0
    else fgetsAux size rest (c :: cur) (n + 1)

/-- All lines that a `while (fgets(line, size, input))` loop sees. -/
def fgets_lines (size : Nat) (input : List Char) : List (List Char) :=
  fgetsAux size input [] 0

/-- The function `strstr(hay, needle) != NULL`. -/
def strstr (hay needle : CStr) : Bool :=
  match hay with
  | [] => needle.isEmpty
  | c :: rest => needle.isPrefixOf (c :: rest) || strstr rest needle

/-- Successive tokens returned by `strtok(s, delims)`, `strtok(NULL, delims)`, ...
`cur` is the token being read (reversed). -/
def strtokAux (delims : List Char) : List Char → List Char → List CStr
  | [], cur => if cur = [] then [] else [cur.reverse]
  | c :: rest, cur =>
    if c ∈ delims then
      (if cur = [] then strtokAux delims rest [] else cur.reverse :: strtokAux delims rest [])
    else strtokAux delims rest (c :: cur)

/-- All tokens of `s` for the delimiter set `delims`. -/
def strtok_all (delims : List Char) (s : CStr) : List CStr := strtokAux delims s []

/-- Digits of `strtol`: the value of the longest prefix of digits valid in `base`. -/
def strtol_digits (base : Nat) : List Char → Nat → Nat
  | [], acc => acc
  | c :: rest, acc =>
    if digitVal c < base then strtol_digits base rest (acc * base + digitVal c) else acc

/-- The function `strtol(s, NULL, base)` for `base` 0, 10 or 16, on a platform
whose `long` has `lb` bits: blanks, an optional sign, an optional `0x` prefix
(bases 0 and 16), a leading `0` meaning octal (base 0), then the digits; a value
outside the range of `long` is clamped to it. -/
def strtol (lb : Nat) (base : Nat) (s : CStr) : Int :=
  let s1 := s.dropWhile isspace
  let neg := s1.head? = some '-'
  let s2 := if s1.head? = some '-' ∨ s1.head? = some '+' then s1.tail else s1
  let hex := s2.head? = some '0' ∧ (s2.tail.head? = some 'x' ∨ s2.tail.head? = some 'X')
  let mag : Nat :=
    if (base = 0 ∨ base = 16) ∧ hex then strtol_digits 16 (s2.drop 2) 0
    else if base = 0 ∧ s2.head? = some '0' then strtol_digits 8 s2 0
    else if base = 0 then strtol_digits 10 s2 0
    else strtol_digits base s2 0
  let v : Int := if neg then -(mag : Int) else (mag : Int)
  if v < -(2 ^ (lb - 1) : Int) then -(2 ^ (lb - 1) : Int)
  else if v > (2 ^ (lb - 1) : Int) - 1 then (2 ^ (lb - 1) : Int) - 1
  else v

/-- The function `atoi(s)`, which is `(int) strtol(s, NULL, 10)`. -/
def atoi (lb : Nat) (s : CStr) : Int := toInt32 (strtol lb 10 s)

/-- Upper-case hexadecimal digit of a value below 16. -/
def hexDigit (d : Nat) : Char :=
  if d < 10 then Char.ofNat (48 + d) else Char.ofNat (55 + d)

/-- The `w` low hexadecimal digits of `n`, most significant first. -/
def hexFixed : Nat → Nat → List Char
  | 0, _ => []
  | w + 1, n => hexFixed w (n / 16) ++ [hexDigit (n % 16)]

/-- Output of `printf("%0wX", n)` for an unsigned `n` and `w ≥ 1`: at least
`w` digits, zero padded. -/
def fmtX (w n : Nat) : List Char :=
  if n < 16 ^ w then hexFixed w n else hexFixed (Nat.log 16 n + 1) n

/-! ## Assembler: utility functions -/

def MAX_LINE_LENGTH : Nat := 500
def MAX_LABEL_LENGTH : Nat := 50
def MEMORY_SIZE : Nat := 4096

/-- The function `trim`: the string without leading and trailing white space. -/
def trim (str : CStr) : CStr :=
  ((str.dropWhile isspace).reverse.dropWhile isspace).reverse

/-- The function `is_number`. -/
def is_number (str : CStr) : Bool :=
  if str = [] then false
  else
    let s := if str.head? = some '-' then str.tail else str
    if s.head? = some '0' ∧ (s.tail.head? = some 'x' ∨ s.tail.head? = some 'X') then
      (s.drop 2).all isxdigit
    else s.all isdigit

/-! ## Assembler: label management -/

/-- One node of the linked list of labels. -/
structure Label where
  name : CStr
  address : Int
  deriving DecidableEq, Repr

/-- The function `create_label`: the name is cut to `MAX_LABEL_LENGTH - 1` bytes. -/
def create_label (name : CStr) (address : Int) : Label :=
  { name := name.take (MAX_LABEL_LENGTH - 1), address := address }

/-- The function `add_label`: the new node becomes the head of the list. -/
def add_label (head : List Label) (name : CStr) (address : Int) : List Label :=
  create_label name address :: head

/-- The function `find_label`: address of the first node with that name, else -1. -/
def find_label : List Label → CStr → Int
  | [], _ => -1
  | l :: rest, name => if l.name = name then l.address else find_label rest name

/-! ## Assembler: instruction processing -/

/-- The table `registers` of `get_register_number`. -/
def registers : List CStr :=
  ["$zero".toList, "$imm1".toList, "$imm2".toList, "$v0".toList,
   "$a0".toList, "$a1".toList, "$a2".toList, "$t0".toList,
   "$t1".toList, "$t2".toList, "$s0".toList, "$s1".toList,
   "$s2".toList, "$gp".toList, "$sp".toList, "$ra".toList]

/-- The function `get_register_number`. -/
def get_register_number (lb : Nat) (reg : CStr) : Int :=
  if reg = [] then -1
  else if registers.indexOf reg < 16 then (registers.indexOf reg : Int)
  else if reg.head? = some '$' ∧ is_number reg.tail = true then
    (if 0 ≤ atoi lb reg.tail ∧ atoi lb reg.tail ≤ 15 then atoi lb reg.tail else -1)
  else -1

/-- The table `opcodes` of `get_opcode_number`. -/
def opcodes : List (CStr × Int) :=
  [("add".toList, 0), ("sub".toList, 1), ("mac".toList, 2), ("and".toList, 3),
   ("or".toList, 4), ("xor".toList, 5), ("sll".toList, 6), ("sra".toList, 7),
   ("srl".toList, 8), ("beq".toList, 9), ("bne".toList, 10), ("blt".toList, 11),
   ("bgt".toList, 12), ("ble".toList, 13), ("bge".toList, 14), ("jal".toList, 15),
   ("lw".toList, 16), ("sw".toList, 17), ("reti".toList, 18), ("in".toList, 19),
   ("out".toList, 20), ("halt".toList, 21)]

/-- Search of `get_opcode_number` through a table. -/
def opcode_lookup : List (CStr × Int) → CStr → Int
  | [], _ => -1
  | e :: rest, opcode => if opcode = e.1 then e.2 else opcode_lookup rest opcode

/-- The function `get_opcode_number`. -/
def get_opcode_number (opcode : CStr) : Int :=
  if opcode = [] then -1 else opcode_lookup opcodes opcode

/-! ## Assembler: first pass -/

/-- Largest value of a C `int`. -/
def INT_MAX : Int := 2147483647

/-- State of the loop of `first_pass`. -/
structure Pass1 where
  current_address : Int
  label_list : List Label

/-- Effect of `char* comment = strchr(line, '#'); if (comment) *comment = 0`. -/
def strip_comment (line : CStr) : CStr := line.takeWhile (fun c => c ≠ '#')

/-- The statement `current_address++` on an `int`; overflow is undefined. -/
def incr_address (a : Int) : Except Err Int :=
  if a = INT_MAX then .error .undefined_behaviour else .ok (a + 1)

/-- Last statement of the loop body of `first_pass`: the address advances when
the remaining text is a non-empty line without `.word`. -/
def count_instruction (st : Pass1) (line : CStr) : Except Err Pass1 :=
  if line ≠ [] ∧ strstr line ".word".toList = false then
    match incr_address st.current_address with
    | .error e => .error e
    | .ok a => .ok { st with current_address := a }
  else .ok st

/-- One iteration of the `while (fgets(...))` loop of `first_pass` on the buffer
`buf` that `fgets` filled.  A text of `MAX_LABEL_LENGTH - 1` or more bytes before
the colon leaves `label_name` without terminator, which is undefined.  The call
`strcpy(line, instruction)` copies the `n + 1` bytes of the trimmed instruction,
which start one byte after the colon, to the start of `line`; with `k` bytes
before the colon the two areas overlap exactly when `k < n`, and copying between
overlapping objects is undefined. -/
def first_pass_line (st : Pass1) (buf : List Char) : Except Err Pass1 :=
  let line := trim (strip_comment (cstr buf))
  if line = [] then .ok st
  else if strstr line ".word".toList then .ok st
  else if ':' ∈ line then
    if MAX_LABEL_LENGTH - 1 ≤ (line.takeWhile (fun c => c ≠ ':')).length then
      .error .undefined_behaviour
    else
      let label_name := trim (line.takeWhile (fun c => c ≠ ':'))
      let st1 : Pass1 :=
        { st with label_list := add_label st.label_list label_name st.current_address }
      let instruction := trim (line.dropWhile (fun c => c ≠ ':')).tail
      if instruction = [] then .ok st1
      else if (line.takeWhile (fun c => c ≠ ':')).length < instruction.length then
        .error .undefined_behaviour
      else count_instruction st1 instruction
  else count_instruction st line

/-- The loop of `first_pass` over the buffers read. -/
def first_pass_loop : Pass1 → List (List Char) → Except Err Pass1
  | st, [] => .ok st
  | st, buf :: rest =>
    match first_pass_line st buf with
    | .error e => .error e
    | .ok st1 => first_pass_loop st1 rest

/-- The function `first_pass` on a file holding `input`: the list of labels. -/
def first_pass (input : List Char) : Except Err (List Label) :=
  match first_pass_loop { current_address := 0, label_list := [] }
      (fgets_lines MAX_LINE_LENGTH input) with
  | .error e => .error e
  | .ok st => .ok st.label_list

/-! ## Assembler: second pass -/

/-- State of the loop of `second_pass`; `imemin` holds the lines written to the
instruction image so far. -/
structure Pass2 where
  current_address : Int
  dmem : Nat → Int
  max_dmem_address : Int
  imemin : List CStr

/-- The seven operand buffers of `second_pass`. -/
structure Operands where
  opcode : CStr
  rd : CStr
  rs : CStr
  rt : CStr
  rm : CStr
  imm1 : CStr
  imm2 : CStr
  deriving DecidableEq, Repr

/-- Lines 350-396 of `second_pass`: the buffers start as `""`, `"$zero"` (four
times) and `"0"` (twice); the tokens of the line, split at blanks, tabs and
commas, are copied over them in order, cut to 5 (49 for immediates) bytes. -/
def parse_operands (line : CStr) : Operands :=
  let toks := strtok_all " \t,".toList line
  { opcode := (toks[0]?.map (List.take 5)).getD []
    rd := (toks[1]?.map (List.take 5)).getD "$zero".toList
    rs := (toks[2]?.map (List.take 5)).getD "$zero".toList
    rt := (toks[3]?.map (List.take 5)).getD "$zero".toList
    rm := (toks[4]?.map (List.take 5)).getD "$zero".toList
    imm1 := (toks[5]?.map (List.take 49)).getD "0".toList
    imm2 := (toks[6]?.map (List.take 49)).getD "0".toList }

/-- The code `second_pass` runs for each of `imm1` and `imm2` (lines 415-435 and
437-457): a register number, a numeric literal made non-negative by adding
`1 << 12`, or the address of a label. -/
def imm_value (lb : Nat) (labels : List Label) (imm : CStr) : Except Err Int :=
  if imm.head? = some '$' then
    (if get_register_number lb imm = -1 then .error .invalid_register
     else .ok (get_register_number lb imm))
  else if is_number imm = true then
    (if toInt32 (strtol lb 0 imm) < 0 then .ok (4096 + toInt32 (strtol lb 0 imm))
     else .ok (toInt32 (strtol lb 0 imm)))
  else
    (if find_label labels imm = -1 then .error .undefined_label
     else .ok (find_label labels imm))

/-- The `fprintf(imemin, "%02X%01X%01X%01X%01X%03X%03X\n", ...)` of `second_pass`
(without the newline), after the seven masks of lines 460-466. -/
def format_instruction (opcode_num rd_num rs_num rt_num rm_num imm1_value imm2_value : Int) :
    CStr :=
  fmtX 2 (toU32 (int_and opcode_num 0xFF)) ++ fmtX 1 (toU32 (int_and rd_num 0xF))
    ++ fmtX 1 (toU32 (int_and rs_num 0xF)) ++ fmtX 1 (toU32 (int_and rt_num 0xF))
    ++ fmtX 1 (toU32 (int_and rm_num 0xF)) ++ fmtX 3 (toU32 (int_and imm1_value 0xFFF))
    ++ fmtX 3 (toU32 (int_and imm2_value 0xFFF))

/-- Lines 398-479 of `second_pass`: the line written to the instruction image
for the operand buffers, `none` when the opcode buffer is empty. -/
def process_instruction (lb : Nat) (labels : List Label) (ops : Operands) :
    Except Err (Option CStr) :=
  if ops.opcode = [] then .ok none
  else if get_opcode_number ops.opcode = -1 then .error .invalid_opcode
  else
    match imm_value lb labels ops.imm1 with
    | .error e => .error e
    | .ok imm1_value =>
      match imm_value lb labels ops.imm2 with
      | .error e => .error e
      | .ok imm2_value =>
        .ok (some (format_instruction (get_opcode_number ops.opcode)
          (get_register_number lb ops.rd) (get_register_number lb ops.rs)
          (get_register_number lb ops.rt) (get_register_number lb ops.rm)
          imm1_value imm2_value))

/-- Lines 324-339 of `second_pass`: a line containing `.word`.  A missing address
token reaches `strtol(NULL, ...)` and an address outside `dmem` is written out of
bounds; both are undefined. -/
def word_directive (lb : Nat) (st : Pass2) (line : CStr) : Except Err Pass2 :=
  match (strtok_all " \t".toList line)[1]? with
  | none => .error .undefined_behaviour
  | some t1 =>
    match (strtok_all " \t".toList line)[2]? with
    | none => .ok st
    | some t2 =>
      if 0 ≤ toInt32 (strtol lb 0 t1) ∧ toInt32 (strtol lb 0 t1) < MEMORY_SIZE then
        .ok { st with
          dmem := fun i =>
            if i = (toInt32 (strtol lb 0 t1)).toNat then toInt32 (strtol lb 0 (trim t2))
            else st.dmem i
          max_dmem_address :=
            if toInt32 (strtol lb 0 t1) > st.max_dmem_address then toInt32 (strtol lb 0 t1)
            else st.max_dmem_address }
      else .error .undefined_behaviour

/-- Lines 350-479 of `second_pass`: an instruction text is split into operands,
encoded and written, and the address advances. -/
def assemble_instruction (lb : Nat) (labels : List Label) (st : Pass2) (line : CStr) :
    Except Err Pass2 :=
  match process_instruction lb labels (parse_operands line) with
  | .error e => .error e
  | .ok none => .ok st
  | .ok (some out) =>
    match incr_address st.current_address with
    | .error e => .error e
    | .ok a => .ok { st with imemin := st.imemin ++ [out], current_address := a }

/-- One iteration of the `while (fgets(...))` loop of `second_pass`.  As in
`first_pass`, the `strcpy(line, instruction)` after a label copies between
overlapping areas, which is undefined, exactly when the trimmed instruction is
longer than the text before the colon. -/
def second_pass_line (lb : Nat) (labels : List Label) (st : Pass2) (buf : List Char) :
    Except Err Pass2 :=
  let line := trim (strip_comment (cstr buf))
  if line = [] then .ok st
  else if strstr line ".word".toList then word_directive lb st line
  else if ':' ∈ line then
    (if trim (line.dropWhile (fun c => c ≠ ':')).tail = [] then .ok st
     else if (line.takeWhile (fun c => c ≠ ':')).length
         < (trim (line.dropWhile (fun c => c ≠ ':')).tail).length then
       .error .undefined_behaviour
     else assemble_instruction lb labels st (trim (line.dropWhile (fun c => c ≠ ':')).tail))
  else assemble_instruction lb labels st line

/-- The loop of `second_pass` over the buffers read. -/
def second_pass_loop (lb : Nat) (labels : List Label) :
    Pass2 → List (List Char) → Except Err Pass2
  | st, [] => .ok st
  | st, buf :: rest =>
    match second_pass_line lb labels st buf with
    | .error e => .error e
    | .ok st1 => second_pass_loop lb labels st1 rest

/-- State of `second_pass` before its loop. -/
def pass2_init : Pass2 :=
  { current_address := 0, dmem := fun _ => 0, max_dmem_address := 64, imemin := [] }

/-- Lines 482-485 of `second_pass`: the data image, one line per address from 0
through `max_dmem_address`. -/
def data_image (st : Pass2) : List CStr :=
  (List.range (st.max_dmem_address + 1).toNat).map (fun i => fmtX 8 (toU32 (st.dmem i)))

/-- The function `second_pass` on a file holding `input`: the lines of the
instruction image and of the data image. -/
def second_pass (lb : Nat) (input : List Char) (labels : List Label) :
    Except Err (List CStr × List CStr) :=
  match second_pass_loop lb labels pass2_init (fgets_lines MAX_LINE_LENGTH input) with
  | .error e => .error e
  | .ok st => .ok (st.imemin, data_image st)

/-- The two passes as `main` runs them. -/
def assemble (lb : Nat) (input : List Char) : Except Err (List CStr × List CStr) :=
  match first_pass input with
  | .error e => .error e
  | .ok labels => second_pass lb input labels

/-! ## Simulator: data structures -/

def DISK_SIZE : Nat := 16384
def MONITOR_SIZE : Nat := 256
def DISK_BUSY_CYCLES : Nat := 1024

/-- The struct `Processor`.  Arrays are functions of the index (every access is
checked against the array bound where the source can leave it), `uint32_t`
fields are naturals below `2^32`, the two `int` flags are booleans. -/
structure Processor where
  registers : Nat → Nat
  pc : Nat
  imem : Nat → Nat
  dmem : Nat → Nat
  disk : Nat → Nat
  irq0enable : Nat
  irq1enable : Nat
  irq2enable : Nat
  irq0status : Nat
  irq1status : Nat
  irq2status : Nat
  irqhandler : Nat
  irqreturn : Nat
  in_interrupt : Bool
  timerenable : Nat
  timercurrent : Nat
  timermax : Nat
  diskcmd : Nat
  disksector : Nat
  diskbuffer : Nat
  diskstatus : Nat
  disk_busy_cycles : Nat
  monitoraddr : Nat
  monitordata : Nat
  monitorcmd : Nat
  monitor_buffer : Nat → Nat → Nat
  leds : Nat
  display7seg : Nat
  cycle_counter : Nat
  halt : Bool

/-- The struct `Instruction`. -/
structure Instruction where
  opcode : Nat
  rd : Nat
  rs : Nat
  rt : Nat
  rm : Nat
  immediate1 : Nat
  immediate2 : Nat
  deriving DecidableEq, Repr

/-- The array `io_register_names`. -/
def io_register_names : List String :=
  ["irq0enable", "irq1enable", "irq2enable", "irq0status", "irq1status", "irq2status",
   "irqhandler", "irqreturn", "clks", "leds", "display7seg", "timerenable",
   "timercurrent", "timermax", "diskcmd", "disksector", "diskbuffer", "diskstatus",
   "reserved0", "reserved1", "monitoraddr", "monitordata", "monitorcmd"]

/-- Assignment `a[i] = v` to an array held as a function. -/
def upd (a : Nat → Nat) (i v : Nat) : Nat → Nat := fun j => if j = i then v else a j

/-- Reduction of an unsigned result to `uint32_t`. -/
def u32 (x : Nat) : Nat := x % 4294967296

/-- The function `init_processor`: every byte of the struct is zero. -/
def init_processor : Processor :=
  { registers := fun _ => 0, pc := 0, imem := fun _ => 0, dmem := fun _ => 0,
    disk := fun _ => 0, irq0enable := 0, irq1enable := 0, irq2enable := 0,
    irq0status := 0, irq1status := 0, irq2status := 0, irqhandler := 0, irqreturn := 0,
    in_interrupt := false, timerenable := 0, timercurrent := 0, timermax := 0,
    diskcmd := 0, disksector := 0, diskbuffer := 0, diskstatus := 0,
    disk_busy_cycles := 0, monitoraddr := 0, monitordata := 0, monitorcmd := 0,
    monitor_buffer := fun _ _ => 0, leds := 0, display7seg := 0, cycle_counter := 0,
    halt := false }

/-! ## Simulator: instruction handling -/

/-- Sign extension applied by `decode_instruction` to a 12-bit field. -/
def sign_extend (imm : Nat) : Nat :=
  if imm &&& 0x800 ≠ 0 then imm ||| 0xFFFFF000 else imm

/-- The function `decode_instruction` on a `uint64_t` word. -/
def decode_instruction (word : Nat) : Instruction :=
  { opcode := (word >>> 40) &&& 0x3F
    rd := (word >>> 36) &&& 0xF
    rs := (word >>> 32) &&& 0xF
    rt := (word >>> 28) &&& 0xF
    rm := (word >>> 24) &&& 0xF
    immediate1 := sign_extend ((word >>> 12) &&& 0xFFF)
    immediate2 := sign_extend (word &&& 0xFFF) }

/-- The function `handle_io_read`: the value stored through the pointer. -/
def handle_io_read (proc : Processor) (address : Nat) : Nat :=
  match address with
  | 0 => proc.irq0enable
  | 1 => proc.irq1enable
  | 2 => proc.irq2enable
  | 3 => proc.irq0status
  | 4 => proc.irq1status
  | 5 => proc.irq2status
  | 6 => proc.irqhandler
  | 7 => proc.irqreturn
  | 8 => proc.cycle_counter
  | 9 => proc.leds
  | 10 => proc.display7seg
  | 11 => proc.timerenable
  | 12 => proc.timercurrent
  | 13 => proc.timermax
  | 14 => proc.diskcmd
  | 15 => proc.disksector
  | 16 => proc.diskbuffer
  | 17 => proc.diskstatus
  | 20 => proc.monitoraddr
  | 21 => proc.monitordata
  | 22 => proc.monitorcmd
  | _ => 0

/-- The function `handle_io_write`. -/
def handle_io_write (proc : Processor) (address value : Nat) : Processor :=
  match address with
  | 0 => { proc with irq0enable := value &&& 1 }
  | 1 => { proc with irq1enable := value &&& 1 }
  | 2 => { proc with irq2enable := value &&& 1 }
  | 3 => { proc with irq0status := value &&& 1 }
  | 4 => { proc with irq1status := value &&& 1 }
  | 5 => { proc with irq2status := value &&& 1 }
  | 6 => { proc with irqhandler := value }
  | 7 => { proc with irqreturn := value }
  | 9 => { proc with leds := value }
  | 10 => { proc with display7seg := value }
  | 11 => { proc with timerenable := value &&& 1 }
  | 12 => { proc with timercurrent := value }
  | 13 => { proc with timermax := value }
  | 14 =>
    if value = 1 ∨ value = 2 then
      { proc with diskcmd := value, diskstatus := 1, disk_busy_cycles := 0 }
    else { proc with diskcmd := value }
  | 15 => { proc with disksector := value }
  | 16 => { proc with diskbuffer := value }
  | 20 => { proc with monitoraddr := value }
  | 21 => { proc with monitordata := value &&& 0xFF }
  | 22 =>
    if value = 1 then
      (if proc.monitoraddr % MONITOR_SIZE < MONITOR_SIZE
          ∧ proc.monitoraddr / MONITOR_SIZE < MONITOR_SIZE then
        { proc with monitor_buffer := fun y x =>
            if y = proc.monitoraddr / MONITOR_SIZE ∧ x = proc.monitoraddr % MONITOR_SIZE then
              proc.monitordata % 256
            else proc.monitor_buffer y x }
       else proc)
    else proc
  | _ => proc

/-- Assignment `regs[i] = v` in a processor state. -/
def set_reg (proc : Processor) (i v : Nat) : Processor :=
  { proc with registers := upd proc.registers i v }

/-- Assignment `dmem[i] = v` in a processor state. -/
def set_dmem (proc : Processor) (i v : Nat) : Processor :=
  { proc with dmem := upd proc.dmem i v }

/-- The `switch` of `execute_instruction` on a state whose registers 1 and 2
already hold the immediates: the new state and the flag `pc_modified`.  A shift
by 32 or more is undefined in C. -/
def execute_opcode (proc : Processor) (inst : Instruction) : Except Err (Processor × Bool) :=
  let regs := proc.registers
  match inst.opcode with
  | 0 => .ok (set_reg proc inst.rd (u32 (regs inst.rs + regs inst.rt + regs inst.rm)), false)
  | 1 => .ok (set_reg proc inst.rd
      (toU32 ((regs inst.rs : Int) - regs inst.rt - regs inst.rm)), false)
  | 2 => .ok (set_reg proc inst.rd (u32 (regs inst.rs * regs inst.rt + regs inst.rm)), false)
  | 3 => .ok (set_reg proc inst.rd (regs inst.rs &&& regs inst.rt &&& regs inst.rm), false)
  | 4 => .ok (set_reg proc inst.rd (regs inst.rs ||| regs inst.rt ||| regs inst.rm), false)
  | 5 => .ok (set_reg proc inst.rd (regs inst.rs ^^^ regs inst.rt ^^^ regs inst.rm), false)
  | 6 =>
    if 32 ≤ regs inst.rt then .error .undefined_behaviour
    else .ok (set_reg proc inst.rd (u32 (regs inst.rs <<< regs inst.rt)), false)
  | 7 =>
    if 32 ≤ regs inst.rt then .error .undefined_behaviour
    else .ok (set_reg proc inst.rd
      (toU32 (toInt32 (regs inst.rs) / 2 ^ regs inst.rt)), false)
  | 8 =>
    if 32 ≤ regs inst.rt then .error .undefined_behaviour
    else .ok (set_reg proc inst.rd (regs inst.rs >>> regs inst.rt), false)
  | 9 =>
    if regs inst.rs = regs inst.rt then .ok ({ proc with pc := regs inst.rm }, true)
    else .ok (proc, false)
  | 10 =>
    if regs inst.rs ≠ regs inst.rt then .ok ({ proc with pc := regs inst.rm }, true)
    else .ok (proc, false)
  | 11 =>
    if toInt32 (regs inst.rs) < toInt32 (regs inst.rt) then
      .ok ({ proc with pc := regs inst.rm }, true)
    else .ok (proc, false)
  | 12 =>
    if toInt32 (regs inst.rs) > toInt32 (regs inst.rt) then
      .ok ({ proc with pc := regs inst.rm }, true)
    else .ok (proc, false)
  | 13 =>
    if toInt32 (regs inst.rs) ≤ toInt32 (regs inst.rt) then
      .ok ({ proc with pc := regs inst.rm }, true)
    else .ok (proc, false)
  | 14 =>
    if toInt32 (regs inst.rs) ≥ toInt32 (regs inst.rt) then
      .ok ({ proc with pc := regs inst.rm }, true)
    else .ok (proc, false)
  | 15 =>
    .ok ({ set_reg proc inst.rd (u32 (proc.pc + 1)) with
      pc := (set_reg proc inst.rd (u32 (proc.pc + 1))).registers inst.rm }, true)
  | 16 =>
    if u32 (regs inst.rs + regs inst.rt) < MEMORY_SIZE then
      .ok (set_reg proc inst.rd
        (u32 (proc.dmem (u32 (regs inst.rs + regs inst.rt)) + regs inst.rm)), false)
    else .ok (proc, false)
  | 17 =>
    if u32 (regs inst.rs + regs inst.rt) < MEMORY_SIZE then
      .ok (set_dmem proc (u32 (regs inst.rs + regs inst.rt))
        (u32 (regs inst.rd + regs inst.rm)), false)
    else .ok (proc, false)
  | 18 => .ok ({ proc with pc := proc.irqreturn, in_interrupt := false }, true)
  | 19 =>
    .ok (set_reg proc inst.rd (handle_io_read proc (u32 (regs inst.rs + regs inst.rt))), false)
  | 20 =>
    .ok (handle_io_write proc (u32 (regs inst.rs + regs inst.rt)) (regs inst.rm), false)
  | 21 => .ok ({ proc with halt := true }, false)
  | _ => .ok (proc, false)

/-- The function `execute_instruction`.  Register fields of 16 or more, which
`decode_instruction` never produces, index outside `registers` and are
undefined. -/
def execute_instruction (proc : Processor) (inst : Instruction) : Except Err Processor :=
  if 16 ≤ inst.rd ∨ 16 ≤ inst.rs ∨ 16 ≤ inst.rt ∨ 16 ≤ inst.rm then
    .error .undefined_behaviour
  else
    match execute_opcode (set_reg (set_reg proc 1 inst.immediate1) 2 inst.immediate2) inst with
    | .error e => .error e
    | .ok (p, pc_modified) =>
      if !pc_modified && !p.halt then
        .ok { set_reg p 0 0 with pc := u32 (p.pc + 1) }
      else .ok (set_reg p 0 0)

/-! ## Simulator: interrupts and devices -/

/-- The function `check_interrupts`. -/
def check_interrupts (proc : Processor) : Processor :=
  if !proc.in_interrupt then
    (if (proc.irq0enable &&& proc.irq0status) ||| (proc.irq1enable &&& proc.irq1status)
        ||| (proc.irq2enable &&& proc.irq2status) ≠ 0 then
      { proc with irqreturn := proc.pc, pc := proc.irqhandler, in_interrupt := true }
     else proc)
  else proc

/-- The function `handle_timer`. -/
def handle_timer (proc : Processor) : Processor :=
  if proc.timerenable ≠ 0 then
    (if u32 (proc.timercurrent + 1) ≥ proc.timermax then
      { proc with irq0status := 1, timercurrent := 0 }
     else { proc with timercurrent := u32 (proc.timercurrent + 1) })
  else proc

/-- Data memory after the first `n` iterations of the read loop of `handle_disk`
(`dmem[diskbuffer + i] = disk[disksector * 128 + i]`); an index outside either
array is undefined. -/
def disk_read_loop (proc : Processor) : Nat → Except Err (Nat → Nat)
  | 0 => .ok proc.dmem
  | i + 1 =>
    match disk_read_loop proc i with
    | .error e => .error e
    | .ok dmem =>
      if u32 (proc.diskbuffer + i) < MEMORY_SIZE ∧ u32 (proc.disksector * 128 + i) < DISK_SIZE then
        .ok (upd dmem (u32 (proc.diskbuffer + i)) (proc.disk (u32 (proc.disksector * 128 + i))))
      else .error .undefined_behaviour

/-- Disk contents after the first `n` iterations of the write loop of
`handle_disk` (`disk[disksector * 128 + i] = dmem[diskbuffer + i]`). -/
def disk_write_loop (proc : Processor) : Nat → Except Err (Nat → Nat)
  | 0 => .ok proc.disk
  | i + 1 =>
    match disk_write_loop proc i with
    | .error e => .error e
    | .ok disk =>
      if u32 (proc.diskbuffer + i) < MEMORY_SIZE ∧ u32 (proc.disksector * 128 + i) < DISK_SIZE then
        .ok (upd disk (u32 (proc.disksector * 128 + i)) (proc.dmem (u32 (proc.diskbuffer + i))))
      else .error .undefined_behaviour

/-- The four assignments that end a disk operation in `handle_disk`. -/
def disk_done (proc : Processor) : Processor :=
  { proc with diskstatus := 0, diskcmd := 0, irq1status := 1, disk_busy_cycles := 0 }

/-- The function `handle_disk`. -/
def handle_disk (proc : Processor) : Except Err Processor :=
  if proc.diskstatus ≠ 0 then
    (if u32 (proc.disk_busy_cycles + 1) ≥ DISK_BUSY_CYCLES then
      (if proc.diskcmd = 1 then
        match disk_read_loop proc 128 with
        | .error e => .error e
        | .ok dmem => .ok (disk_done { proc with dmem := dmem })
       else if proc.diskcmd = 2 then
        match disk_write_loop proc 128 with
        | .error e => .error e
        | .ok disk => .ok (disk_done { proc with disk := disk })
       else .ok (disk_done proc))
     else .ok { proc with disk_busy_cycles := u32 (proc.disk_busy_cycles + 1) })
  else .ok proc

/-- The function `check_irq2` for the schedule read from `irq2in`. -/
def check_irq2 (proc : Processor) (irq2_timing : List Nat) : Processor :=
  if proc.cycle_counter ∈ irq2_timing then { proc with irq2status := 1 } else proc

/-- The function `update_devices`. -/
def update_devices (proc : Processor) : Except Err Processor :=
  match handle_disk (handle_timer proc) with
  | .error e => .error e
  | .ok p => .ok (check_interrupts p)

/-! ## Simulator: main loop -/

/-- One line of the instruction trace: the fields `write_trace` prints. -/
structure TraceLine where
  pc : Nat
  inst : Nat
  registers : List Nat
  deriving DecidableEq, Repr

/-- One line of the hardware-register trace: the arguments of `write_hwregtrace`. -/
structure HwRegLine where
  cycle : Nat
  name : String
  action : String
  value : Nat
  deriving DecidableEq, Repr

/-- The function `write_trace`: PC, the low 48 bits of the word, R0-R15. -/
def write_trace (proc : Processor) (inst : Nat) : TraceLine :=
  { pc := proc.pc, inst := inst &&& 0xFFFFFFFFFFFF,
    registers := (List.range 16).map proc.registers }

/-- State of the loop of `simulate`: the processor, the files written so far
and the two variables `prev_leds`, `prev_display`. -/
structure Sim where
  proc : Processor
  trace : List TraceLine
  hwregtrace : List HwRegLine
  leds : List (Nat × Nat)
  display7seg : List (Nat × Nat)
  prev_leds : Nat
  prev_display : Nat

/-- First half of the loop body of `simulate` (lines 619-632): device update,
IRQ2 check, fetch, decode and the write of the two immediates.  The result is
the state that `write_trace` prints and the word fetched; a fetch at a PC of
`MEMORY_SIZE` or more is out of bounds. -/
def fetch_stage (irq2_timing : List Nat) (proc : Processor) : Except Err (Processor × Nat) :=
  match update_devices proc with
  | .error e => .error e
  | .ok p1 =>
    if (check_irq2 p1 irq2_timing).pc < MEMORY_SIZE then
      .ok (set_reg (set_reg (check_irq2 p1 irq2_timing) 1
            (decode_instruction ((check_irq2 p1 irq2_timing).imem
              (check_irq2 p1 irq2_timing).pc)).immediate1) 2
            (decode_instruction ((check_irq2 p1 irq2_timing).imem
              (check_irq2 p1 irq2_timing).pc)).immediate2,
          (check_irq2 p1 irq2_timing).imem (check_irq2 p1 irq2_timing).pc)
    else .error .undefined_behaviour

/-- Lines 640-654 of `simulate`: the hardware-register trace line of an `in` or
`out`, computed from the registers after execution; a port address of 23 or
more indexes outside `io_register_names`. -/
def hw_trace (proc : Processor) (inst : Instruction) : Except Err (Option HwRegLine) :=
  if inst.opcode = 19 then
    match io_register_names[u32 (proc.registers inst.rs + proc.registers inst.rt)]? with
    | none => .error .undefined_behaviour
    | some name => .ok (some { cycle := proc.cycle_counter, name := name, action := "READ",
                               value := proc.registers inst.rd })
  else if inst.opcode = 20 then
    match io_register_names[u32 (proc.registers inst.rs + proc.registers inst.rt)]? with
    | none => .error .undefined_behaviour
    | some name => .ok (some { cycle := proc.cycle_counter, name := name, action := "WRITE",
                               value := proc.registers inst.rm })
  else .ok none

/-- Lines 656-668 of `simulate`: the change-only LED and display logs and the
increment of the cycle counter. -/
def end_of_cycle (s : Sim) (p : Processor) (tl : TraceLine) (hw : Option HwRegLine) : Sim :=
  { proc := { p with cycle_counter := u32 (p.cycle_counter + 1) }
    trace := s.trace ++ [tl]
    hwregtrace := s.hwregtrace ++ hw.toList
    leds := if p.leds ≠ s.prev_leds then s.leds ++ [(p.cycle_counter, p.leds)] else s.leds
    display7seg :=
      if p.display7seg ≠ s.prev_display then s.display7seg ++ [(p.cycle_counter, p.display7seg)]
      else s.display7seg
    prev_leds := if p.leds ≠ s.prev_leds then p.leds else s.prev_leds
    prev_display := if p.display7seg ≠ s.prev_display then p.display7seg else s.prev_display }

/-- One iteration of the main loop of `simulate`. -/
def simulate_cycle (irq2_timing : List Nat) (s : Sim) : Except Err Sim :=
  match fetch_stage irq2_timing s.proc with
  | .error e => .error e
  | .ok (p, inst) =>
    match execute_instruction p (decode_instruction inst) with
    | .error e => .error e
    | .ok p1 =>
      match hw_trace p1 (decode_instruction inst) with
      | .error e => .error e
      | .ok hw => .ok (end_of_cycle s p1 (write_trace p inst) hw)

/-- The loop `while (!proc->halt)` of `simulate`, cut after `n` iterations. -/
def simulate_loop (irq2_timing : List Nat) : Nat → Sim → Except Err Sim
  | 0, s => .ok s
  | n + 1, s =>
    if s.proc.halt then .ok s
    else
      match simulate_cycle irq2_timing s with
      | .error e => .error e
      | .ok s1 => simulate_loop irq2_timing n s1

/-- State of `simulate` when its loop starts: the zero-initialised processor
with the three memories loaded. -/
def sim_init (imem dmem disk : Nat → Nat) : Sim :=
  { proc := { init_processor with imem := imem, dmem := dmem, disk := disk }
    trace := [], hwregtrace := [], leds := [], display7seg := []
    prev_leds := 0, prev_display := 0 }

/-! ## Assembler: what the loops of the two passes compute on a buffer

Compositions of the functions above, used in the proofs. -/

/-- The contents of `line` after the first statements of both loops: the buffer up
to its NUL, cut at the first `#` and passed through `trim`. -/
def clean_line (buf : List Char) : CStr := trim (strip_comment (cstr buf))

/-- The string `instruction` of both passes, the text after the first colon passed
through `trim`; the line itself when it has no colon. -/
def after_label (line : CStr) : CStr :=
  if ':' ∈ line then trim (line.dropWhile (fun c => c ≠ ':')).tail else line

/-- Whether `first_pass` increments `current_address` on a buffer, when the
iteration is defined. -/
def is_instruction_line (buf : List Char) : Bool :=
  decide (clean_line buf ≠ []) && !strstr (clean_line buf) ".word".toList
    && decide (after_label (clean_line buf) ≠ [])

/-- The name `first_pass` passes to `add_label` on a buffer, when it reaches that
call. -/
def label_of_line (buf : List Char) : Option CStr :=
  if clean_line buf ≠ [] ∧ strstr (clean_line buf) ".word".toList = false
      ∧ ':' ∈ clean_line buf then
    some (trim ((clean_line buf).takeWhile (fun c => c ≠ ':')))
  else none

/-- The nodes `first_pass` adds on a list of buffers, in the order of the buffers;
`pre` holds the buffers already passed. -/
def pass_labels (pre : List (List Char)) : List (List Char) → List Label
  | [] => []
  | buf :: rest =>
    match label_of_line buf with
    | some name =>
      { name := name, address := pre.countP is_instruction_line }
        :: pass_labels (pre ++ [buf]) rest
    | none => pass_labels (pre ++ [buf]) rest

/-- The index of `dmem` that `second_pass` writes on a buffer: `strtol` of the second
token of a line that contains `.word`. -/
def word_address (lb : Nat) (buf : List Char) : Option Int :=
  if strstr (clean_line buf) ".word".toList = true then
    ((strtok_all " \t".toList (clean_line buf))[1]?).map (fun t => toInt32 (strtol lb 0 t))
  else none

/-! ## Notions used to state the properties -/

/-- Value of a string of decimal digits read in base ten. -/
def decimal_value (ds : CStr) : Nat :=
  ds.foldl (fun acc c => acc * 10 + (c.toNat - 48)) 0

/-! ### Notions for the assembler

They are written from the words of the specification and call none of the functions of
the assembler. -/

/-- The lines of a source text, each with its newline: the text is cut after every
newline character, and a last line without newline counts when it is not empty.
`cur` holds the part of the current line passed so far, reversed. -/
def source_lines_from : List Char → List Char → List (List Char)
  | [], cur => if cur = [] then [] else [cur.reverse]
  | c :: rest, cur =>
    if c = '\n' then (c :: cur).reverse :: source_lines_from rest []
    else source_lines_from rest (c :: cur)

/-- The lines of a source text. -/
def source_lines (text : List Char) : List (List Char) := source_lines_from text []

/-- The part of a line before its comment: the characters before the first `#`. -/
def without_comment : List Char → List Char
  | [] => []
  | c :: rest => if c = '#' then [] else c :: without_comment rest

/-- White space: the blank (code 32) and the characters with codes 9 to 13 (tab, newline,
vertical tab, form feed, carriage return). -/
def is_blank (c : Char) : Bool :=
  decide (c.toNat = 32) || (decide (9 ≤ c.toNat) && decide (c.toNat ≤ 13))

/-- A text without its leading white space. -/
def drop_blanks : List Char → List Char
  | [] => []
  | c :: rest => if is_blank c then drop_blanks rest else c :: rest

/-- A text without the white space at its two ends. -/
def stripped (t : List Char) : List Char := (drop_blanks (drop_blanks t).reverse).reverse

/-- What a line says: its text without the comment and without the white space around. -/
def line_text (l : List Char) : List Char := stripped (without_comment l)

/-- The part of a text before its first colon. -/
def before_colon : List Char → List Char
  | [] => []
  | c :: rest => if c = ':' then [] else c :: before_colon rest

/-- The part of a text after its first colon, when it has one. -/
def after_colon : List Char → Option (List Char)
  | [] => none
  | c :: rest => if c = ':' then some rest else after_colon rest

/-- Whether a text contains `.word`. -/
def has_word (t : List Char) : Bool := decide (".word".toList <:+: t)

/-- An instruction line: after removing the comment and trimming, it is non-empty,
contains no `.word`, and has non-empty text after any `LABEL:` prefix. -/
def instruction_line (l : List Char) : Bool :=
  decide (line_text l ≠ []) && !has_word (line_text l)
    && (match after_colon (line_text l) with
        | some r => decide (stripped r ≠ [])
        | none => true)

/-- The label a line defines: the line says something, contains no `.word` and has a
colon; the label is the text before the first colon, without white space around. -/
def line_label (l : List Char) : Option (List Char) :=
  if line_text l ≠ [] ∧ has_word (line_text l) = false ∧ ':' ∈ line_text l then
    some (stripped (before_colon (line_text l)))
  else none

/-- The instruction of a line: what the line says after any `LABEL:` prefix, without
white space around. -/
def instruction_text (l : List Char) : List Char :=
  match after_colon (line_text l) with
  | some r => stripped r
  | none => line_text l

/-- The fields of a text: its non-empty pieces between the separator characters. -/
def fields (seps : List Char) (t : List Char) : List (List Char) :=
  (t.splitOnP (fun c => decide (c ∈ seps))).filter (fun f => decide (f ≠ []))

/-- The mnemonics in the order of their opcode numbers. -/
def mnemonics : List (List Char) :=
  ["add".toList, "sub".toList, "mac".toList, "and".toList, "or".toList, "xor".toList,
   "sll".toList, "sra".toList, "srl".toList, "beq".toList, "bne".toList, "blt".toList,
   "bgt".toList, "ble".toList, "bge".toList, "jal".toList, "lw".toList, "sw".toList,
   "reti".toList, "in".toList, "out".toList, "halt".toList]

/-- The opcode number of a mnemonic. -/
def mnemonic_number (tok : List Char) : Option Nat :=
  if tok ∈ mnemonics then some (mnemonics.indexOf tok) else none

/-- The register names in the order of their numbers. -/
def register_names : List (List Char) :=
  ["$zero".toList, "$imm1".toList, "$imm2".toList, "$v0".toList, "$a0".toList,
   "$a1".toList, "$a2".toList, "$t0".toList, "$t1".toList, "$t2".toList, "$s0".toList,
   "$s1".toList, "$s2".toList, "$gp".toList, "$sp".toList, "$ra".toList]

/-- A decimal digit. -/
def is_decimal_digit (c : Char) : Bool := decide ('0' ≤ c) && decide (c ≤ '9')

/-- The number of a register token: the position of a name, or N for `$N` with N a
decimal number from 0 to 15. -/
def register_number (tok : List Char) : Option Nat :=
  if tok ∈ register_names then some (register_names.indexOf tok)
  else if tok.head? = some '$' ∧ tok.tail ≠ [] ∧ tok.tail.all is_decimal_digit = true
      ∧ decimal_value tok.tail ≤ 15 then
    some (decimal_value tok.tail)
  else none

/-- Value of a hexadecimal digit: its place among `0123456789ABCDEF`, a small letter
counting as its capital. -/
def hex_digit (c : Char) : Option Nat :=
  if c ∈ "0123456789ABCDEF".toList then some ("0123456789ABCDEF".toList.indexOf c)
  else if c ∈ "abcdef".toList then some ("abcdef".toList.indexOf c + 10)
  else none

/-- Value of a string of hexadecimal digits read after the value `acc`; none when a
character is no hexadecimal digit. -/
def hex_value : List Char → Nat → Option Nat
  | [], acc => some acc
  | c :: rest, acc =>
    match hex_digit c with
    | some d => hex_value rest (acc * 16 + d)
    | none => none

/-- Value of a numeric literal without sign: `0x` or `0X` followed by at least one
hexadecimal digit, or the digit 0, or decimal digits the first of which is not 0. -/
def natural_literal (t : List Char) : Option Nat :=
  if t.take 2 = "0x".toList ∨ t.take 2 = "0X".toList then
    (if t.drop 2 = [] then none else hex_value (t.drop 2) 0)
  else if t = "0".toList then some 0
  else if t ≠ [] ∧ t.head? ≠ some '0' ∧ t.all is_decimal_digit = true then
    some (decimal_value t)
  else none

/-- Value of a numeric literal: a literal without sign, or `-` followed by one. -/
def literal_value (t : List Char) : Option Int :=
  if t.head? = some '-' then (natural_literal t.tail).map (fun n => -(n : Int))
  else (natural_literal t).map (fun n => (n : Int))

/-- Operand `i` (1 to 6) of the fields of an instruction line; an operand omitted at
the end of the line counts as `$zero` (positions 1 to 4) or `0` (positions 5 and 6). -/
def operand (fs : List (List Char)) (i : Nat) : List Char :=
  fs.getD i (if i ≤ 4 then "$zero".toList else "0".toList)

/-- A source text of two lines: a comment of 601 characters, then the label line `K:`. -/
def long_comment_source : List Char :=
  '#' :: List.replicate 600 'x' ++ "\nK:\n".toList

/-! ### Notions for the simulator -/

/-- The state a run returned, `fallback` when it did not return one. -/
def run_result (r : Except Err Sim) (fallback : Sim) : Sim :=
  match r with
  | .ok s => s
  | .error _ => fallback

/-- A two-instruction program: `add $t0, $imm1, $zero, $zero, 5, 0` at address 0 and
`halt` everywhere else. -/
def demo_imem : Nat → Nat := fun a => if a = 0 then 0x007100005000 else 0x150000000000

/-- Register fields as `decode_instruction` produces them: all four below 16. -/
def valid_fields (inst : Instruction) : Prop :=
  inst.rd < 16 ∧ inst.rs < 16 ∧ inst.rt < 16 ∧ inst.rm < 16

/-- The register file after `regs[1] = inst.immediate1; regs[2] = inst.immediate2`,
the first two statements of `execute_instruction`. -/
def imm_regs (proc : Processor) (inst : Instruction) : Nat → Nat :=
  upd (upd proc.registers 1 inst.immediate1) 2 inst.immediate2

/-- Successive calls of `execute_instruction` on a list of instructions. -/
def run_instructions : Processor → List Instruction → Except Err Processor
  | proc, [] => .ok proc
  | proc, inst :: rest =>
    match execute_instruction proc inst with
    | .error e => .error e
    | .ok p => run_instructions p rest

/-- Whether `inst`, executed in `proc`, is an `out` whose port address
`R[rs] + R[rt]` is `port`. -/
def writes_port (proc : Processor) (inst : Instruction) (port : Nat) : Bool :=
  decide (inst.opcode = 20)
    && decide (u32 (imm_regs proc inst inst.rs + imm_regs proc inst inst.rt) = port)

/-- Whether none of the instructions of a list, executed in turn from `proc`,
writes `port`. -/
def never_writes_port (port : Nat) : Processor → List Instruction → Bool
  | _, [] => true
  | proc, inst :: rest =>
    !writes_port proc inst port
      && (match execute_instruction proc inst with
          | .error _ => true
          | .ok p => never_writes_port port p rest)

/-- The value `(irq0enable & irq0status) | (irq1enable & irq1status) |
(irq2enable & irq2status)` that `check_interrupts` computes. -/
def irq_pending (proc : Processor) : Nat :=
  (proc.irq0enable &&& proc.irq0status) ||| (proc.irq1enable &&& proc.irq1status)
    ||| (proc.irq2enable &&& proc.irq2status)

/-- The state of the signed-branch scenario: R3 = 0xFFFFFFFF, R4 = 1, R7 = 0x020, every
other register and field zero. -/
def branch_scenario : Processor :=
  { init_processor with
    registers := fun i => if i = 3 then 0xFFFFFFFF else if i = 4 then 1
      else if i = 7 then 0x020 else 0 }

/-- The state a sequence of instructions returned, `fallback` when it did not return
one. -/
def state_after (r : Except Err Processor) (fallback : Processor) : Processor :=
  match r with
  | .ok p => p
  | .error _ => fallback

/-- A state outside any handler with PC = 5, irqhandler = 0x100 and interrupt line 0
enabled and asserted. -/
def irq_scenario : Processor :=
  { init_processor with pc := 5, irqhandler := 0x100, irq0enable := 1, irq0status := 1 }

/-- A state inside a handler (in_interrupt set) with PC = 9, irqreturn = 3 and interrupt
line 1 enabled and asserted. -/
def handler_scenario : Processor :=
  { init_processor with
    pc := 9, irqhandler := 0x100, irqreturn := 3, irq1enable := 1, irq1status := 1,
    in_interrupt := true }

/-- The state after `n` successive calls of `handle_disk`. -/
def disk_ticks : Nat → Processor → Except Err Processor
  | 0, proc => .ok proc
  | n + 1, proc =>
    match disk_ticks n proc with
    | .error e => .error e
    | .ok p => handle_disk p

/-- The zero-initialised processor with a disk whose word `i` holds `i + 1`. -/
def disk_scenario : Processor := { init_processor with disk := fun i => i + 1 }

/-- The text part of `write_monitor`: the values printed to `monitor.txt`, one per
line, rows `y` in order and within a row the columns `x` in order. -/
def write_monitor (proc : Processor) : List Nat :=
  (List.range MONITOR_SIZE).flatMap
    (fun y => (List.range MONITOR_SIZE).map (fun x => proc.monitor_buffer y x))

/-- The program `beq $zero, $zero, $zero, $imm1, -1, 0` at address 0 and `halt`
everywhere else. -/
def jump_imem : Nat → Nat := fun a => if a = 0 then 0x090001FFF000 else 0x150000000000

/-- The program `out $zero, $imm1, $zero, $imm2, 100, 5` at address 0 and `halt`
everywhere else. -/
def port_imem : Nat → Nat := fun a => if a = 0 then 0x140102064005 else 0x150000000000

/-- The program `out $zero, $imm1, $zero, $imm2, 15, 128` (disksector := 128),
`out $zero, $imm1, $zero, $imm2, 14, 1` (read command), then
`beq $zero, $zero, $zero, $imm1, 2, 0` (a jump to itself) at address 2 and `halt`
everywhere else. -/
def sector_imem : Nat → Nat := fun a =>
  if a = 0 then 0x14010200F080 else if a = 1 then 0x14010200E001
  else if a = 2 then 0x090001002000 else 0x150000000000

/-- The program `out $zero, $imm1, $zero, $imm2, 14, 1` (read command),
`out $zero, $imm1, $zero, $imm2, 14, 0` and `halt` everywhere else. -/
def disk_cmd_imem : Nat → Nat := fun a =>
  if a = 0 then 0x14010200E001 else if a = 1 then 0x14010200E000 else 0x150000000000

/-- The program `out $zero, $imm1, $zero, $imm2, 9, 5` (leds := 5),
`add $t0, $imm1, $zero, $zero, 9, 0` (R7 := 9), `in $t0, $t0, $zero, $zero, 0, 0`
(a read of port R7 + R0 into R7) and `halt` everywhere else. -/
def in_alias_imem : Nat → Nat := fun a =>
  if a = 0 then 0x140102009005 else if a = 1 then 0x007100009000
  else if a = 2 then 0x137700000000 else 0x150000000000

/-- The state of `simulate` after the first two cycles of `sector_imem`. -/
def sector_run : Sim :=
  run_result (simulate_loop [] 2 (sim_init sector_imem (fun _ => 0) (fun _ => 0)))
    (sim_init sector_imem (fun _ => 0) (fun _ => 0))

/-- The disk-busy invariant: when diskstatus = 1 the command is a read or a write. -/
def disk_invariant (p : Processor) : Prop :=
  p.diskstatus = 1 → p.diskcmd = 1 ∨ p.diskcmd = 2

/-- Whether `inst`, executed in `p`, is an `out` to port 14 of a value other than 1 and 2
while diskstatus = 1. -/
def overwrites_diskcmd (p : Processor) (inst : Instruction) : Bool :=
  decide (inst.opcode = 20)
    && decide (u32 (imm_regs p inst inst.rs + imm_regs p inst inst.rt) = 14)
    && decide (p.diskstatus = 1)
    && !(decide (imm_regs p inst inst.rm = 1) || decide (imm_regs p inst inst.rm = 2))

/-- Whether none of the first `n` cycles of the loop of `simulate` executes such an
`out`. -/
def never_overwrites_diskcmd (irq2_timing : List Nat) : Nat → Sim → Bool
  | 0, _ => true
  | n + 1, s =>
    if s.proc.halt then true
    else
      match fetch_stage irq2_timing s.proc with
      | .error _ => true
      | .ok (p, w) =>
        !overwrites_diskcmd p (decode_instruction w)
          && (match simulate_cycle irq2_timing s with
              | .error _ => true
              | .ok s1 => never_overwrites_diskcmd irq2_timing n s1)

/-- The program `out $zero, $imm1, $zero, $imm2, 2, 1` (irq2enable := 1),
`out $zero, $imm1, $zero, $imm2, 6, 0x100` (irqhandler := 0x100), then
`add $t0, $imm1, $zero, $zero, 5, 0` up to address 0xFF and `halt` from address 0x100
on. -/
def irq2_imem : Nat → Nat := fun a =>
  if a = 0 then 0x140102002001 else if a = 1 then 0x140102006100
  else if a < 0x100 then 0x007100005000 else 0x150000000000

/-- A state outside any handler with PC = 5, irqhandler = 0x100, line 0 enabled, the
timer enabled with timermax = 10 and timercurrent = 9, and `imem[a] = a`. -/
def timer_scenario : Processor :=
  { init_processor with
    pc := 5, irqhandler := 0x100, irq0enable := 1, timerenable := 1, timermax := 10,
    timercurrent := 9, imem := fun a => a }

/-- A source text of three lines: a line holding only a comma, the label line `L:`,
then `beq $zero, $zero, $zero, $imm1, L, 0`. -/
def separator_source : List Char :=
  ",\nL:\nbeq $zero, $zero, $zero, $imm1, L, 0\n".toList

/-- The value of monitordata fits a byte, as after every write to port 21. -/
def monitor_byte (p : Processor) : Prop := p.monitordata < 256

/-! ## Lemmas on formatting, masking and the tables -/

theorem hexFixed_append (w1 : Nat) : ∀ (w2 a b : Nat), b < 16 ^ w2 →
    hexFixed (w1 + w2) (a * 16 ^ w2 + b) = hexFixed w1 a ++ hexFixed w2 b := by
  intro w2
  induction w2 with
  | zero =>
    intro a b hb
    have : b = 0 := by simpa using hb
    subst this
    simp [hexFixed]
  | succ k ih =>
    intro a b hb
    have hb' : b / 16 < 16 ^ k := by
      rw [Nat.div_lt_iff_lt_mul (by norm_num)]
      rw [pow_succ] at hb
      exact hb
    have h0 : a * 16 ^ (k + 1) + b = 16 * (a * 16 ^ k) + b := by
      rw [pow_succ]; ring
    have h1 : (a * 16 ^ (k + 1) + b) / 16 = a * 16 ^ k + b / 16 := by
      rw [h0, Nat.mul_add_div (by norm_num)]
    have h2 : (a * 16 ^ (k + 1) + b) % 16 = b % 16 := by
      rw [h0, Nat.mul_add_mod]
    show hexFixed (w1 + k + 1) _ = _
    simp only [hexFixed]
    rw [h1, h2, ih a (b / 16) hb', List.append_assoc]

theorem fmtX_of_lt {w n : Nat} (h : n < 16 ^ w) : fmtX w n = hexFixed w n := by
  simp [fmtX, h]

theorem toU32_int_and (x : Int) (k : Nat) (hk : k ≤ 32) :
    toU32 (int_and x (2 ^ k - 1)) = (x % 2 ^ k).toNat := by
  unfold int_and toU32
  rw [Nat.and_pow_two_sub_one_eq_mod]
  have h1 : (0 : Int) ≤ x % 4294967296 := Int.emod_nonneg _ (by norm_num)
  have h2 : ((x % 4294967296).toNat : Int) = x % 4294967296 := Int.toNat_of_nonneg h1
  have h3 : (2 : Int) ^ k ∣ 4294967296 := by
    have : (4294967296 : Int) = 2 ^ 32 := by norm_num
    rw [this]
    exact pow_dvd_pow 2 hk
  have h4 : (((x % 4294967296).toNat % 2 ^ k : Nat) : Int) = x % 2 ^ k := by
    push_cast
    rw [h2, Int.emod_emod_of_dvd _ h3]
  have h5 : (x % 4294967296).toNat % 2 ^ k < 4294967296 :=
    lt_of_le_of_lt (Nat.mod_le _ _) (by omega)
  have h6 : (((x % 4294967296).toNat % 2 ^ k : Nat) : Int) % 4294967296
      = (((x % 4294967296).toNat % 2 ^ k : Nat) : Int) := by
    apply Int.emod_eq_of_lt <;> omega
  rw [h6, ← h4]

theorem hex_concat (O D S T M I1 I2 : Nat) (hD : D < 16) (hS : S < 16)
    (hT : T < 16) (hM : M < 16) (hI1 : I1 < 4096) (hI2 : I2 < 4096) :
    hexFixed 2 O ++ hexFixed 1 D ++ hexFixed 1 S ++ hexFixed 1 T ++ hexFixed 1 M
      ++ hexFixed 3 I1 ++ hexFixed 3 I2
    = hexFixed 12 (O * 2 ^ 40 + D * 2 ^ 36 + S * 2 ^ 32 + T * 2 ^ 28 + M * 2 ^ 24
        + I1 * 2 ^ 12 + I2) := by
  have e1 := hexFixed_append 2 1 O D (by norm_num; exact hD)
  have e2 := hexFixed_append 3 1 (O * 16 ^ 1 + D) S (by norm_num; exact hS)
  have e3 := hexFixed_append 4 1 ((O * 16 ^ 1 + D) * 16 ^ 1 + S) T (by norm_num; exact hT)
  have e4 := hexFixed_append 5 1 (((O * 16 ^ 1 + D) * 16 ^ 1 + S) * 16 ^ 1 + T) M
    (by norm_num; exact hM)
  have e5 := hexFixed_append 6 3 ((((O * 16 ^ 1 + D) * 16 ^ 1 + S) * 16 ^ 1 + T) * 16 ^ 1 + M)
    I1 (by norm_num; exact hI1)
  have e6 := hexFixed_append 9 3
    (((((O * 16 ^ 1 + D) * 16 ^ 1 + S) * 16 ^ 1 + T) * 16 ^ 1 + M) * 16 ^ 3 + I1)
    I2 (by norm_num; exact hI2)
  have hN : O * 2 ^ 40 + D * 2 ^ 36 + S * 2 ^ 32 + T * 2 ^ 28 + M * 2 ^ 24 + I1 * 2 ^ 12 + I2
      = (((((O * 16 ^ 1 + D) * 16 ^ 1 + S) * 16 ^ 1 + T) * 16 ^ 1 + M) * 16 ^ 3 + I1) * 16 ^ 3
        + I2 := by ring
  rw [hN]
  simp only [Nat.reduceAdd] at e1 e2 e3 e4 e5 e6
  rw [e6, e5, e4, e3, e2, e1]

theorem emod_toNat_lt (x : Int) (k : Nat) (hk : 0 < k) : (x % (k : Int)).toNat < k := by
  have h1 : (0 : Int) ≤ x % k := Int.emod_nonneg _ (by omega)
  have h2 : x % (k : Int) < k := Int.emod_lt_of_pos _ (by omega)
  omega

theorem format_instruction_eq (o d s t m i1 i2 : Int) :
    format_instruction o d s t m i1 i2
    = hexFixed 12 ((o % 256).toNat * 2 ^ 40 + (d % 16).toNat * 2 ^ 36 + (s % 16).toNat * 2 ^ 32
        + (t % 16).toNat * 2 ^ 28 + (m % 16).toNat * 2 ^ 24 + (i1 % 4096).toNat * 2 ^ 12
        + (i2 % 4096).toNat) := by
  have m8 : (0xFF : Nat) = 2 ^ 8 - 1 := by norm_num
  have m4 : (0xF : Nat) = 2 ^ 4 - 1 := by norm_num
  have m12 : (0xFFF : Nat) = 2 ^ 12 - 1 := by norm_num
  unfold format_instruction
  rw [m8, m4, m12]
  simp only [toU32_int_and _ 8 (by norm_num), toU32_int_and _ 4 (by norm_num),
    toU32_int_and _ 12 (by norm_num)]
  have hO := emod_toNat_lt o 256 (by norm_num)
  have hD := emod_toNat_lt d 16 (by norm_num)
  have hS := emod_toNat_lt s 16 (by norm_num)
  have hT := emod_toNat_lt t 16 (by norm_num)
  have hM := emod_toNat_lt m 16 (by norm_num)
  have hI1 := emod_toNat_lt i1 4096 (by norm_num)
  have hI2 := emod_toNat_lt i2 4096 (by norm_num)
  norm_num at hO hD hS hT hM hI1 hI2 ⊢
  rw [fmtX_of_lt (w := 2) (by norm_num; exact hO), fmtX_of_lt (w := 1) (by norm_num; exact hD),
    fmtX_of_lt (w := 1) (by norm_num; exact hS), fmtX_of_lt (w := 1) (by norm_num; exact hT),
    fmtX_of_lt (w := 1) (by norm_num; exact hM), fmtX_of_lt (w := 3) (by norm_num; exact hI1),
    fmtX_of_lt (w := 3) (by norm_num; exact hI2)]
  have := hex_concat (o % 256).toNat _ _ _ _ _ _ hD hS hT hM hI1 hI2
  norm_num at this
  simpa [List.append_assoc] using this

theorem opcode_lookup_range (table : List (CStr × Int))
    (h : ∀ e ∈ table, 0 ≤ e.2 ∧ e.2 ≤ 21) (x : CStr) :
    opcode_lookup table x = -1 ∨ (0 ≤ opcode_lookup table x ∧ opcode_lookup table x ≤ 21) := by
  induction table with
  | nil => left; rfl
  | cons e rest ih =>
    unfold opcode_lookup
    split_ifs
    · right; exact h e (List.mem_cons_self _ _)
    · exact ih (fun e' he' => h e' (List.mem_cons_of_mem _ he'))

theorem opcodes_range : ∀ e ∈ opcodes, 0 ≤ e.2 ∧ e.2 ≤ 21 := by
  decide

theorem get_opcode_number_range (x : CStr) :
    get_opcode_number x = -1 ∨ (0 ≤ get_opcode_number x ∧ get_opcode_number x ≤ 21) := by
  unfold get_opcode_number
  split
  · left; rfl
  · exact opcode_lookup_range opcodes opcodes_range x

theorem get_register_number_range (lb : Nat) (x : CStr) :
    get_register_number lb x = -1
      ∨ (0 ≤ get_register_number lb x ∧ get_register_number lb x ≤ 15) := by
  unfold get_register_number
  split_ifs with h1 h2 h3 h4
  · left; rfl
  · right; omega
  · right; exact h4
  · left; rfl
  · left; rfl

theorem is_number_head (x : CStr) (h : is_number x = true) : x.head? ≠ some '$' := by
  cases x with
  | nil => simp
  | cons c rest =>
    intro hc
    have hc' : c = '$' := by simpa using hc
    subst hc'
    revert h
    simp [is_number, isdigit]

theorem imm_value_numeric (lb : Nat) (labels : List Label) (imm : CStr)
    (h : is_number imm = true) :
    ∃ v : Int, imm_value lb labels imm = .ok v ∧ v % 4096 = strtol lb 0 imm % 4096 := by
  have hh := is_number_head imm h
  unfold imm_value
  rw [if_neg hh, if_pos h]
  have key : toInt32 (strtol lb 0 imm) % 4096 = strtol lb 0 imm % 4096 := by
    unfold toInt32
    split_ifs <;> omega
  split_ifs
  · exact ⟨_, rfl, by omega⟩
  · exact ⟨_, rfl, key⟩

theorem process_instruction_numeric (lb : Nat) (labels : List Label) (ops : Operands)
    (ho : get_opcode_number ops.opcode ≠ -1)
    (ha : is_number ops.imm1 = true) (hb : is_number ops.imm2 = true) :
    process_instruction lb labels ops = .ok (some (hexFixed 12
      ((get_opcode_number ops.opcode % 256).toNat * 2 ^ 40
        + (get_register_number lb ops.rd % 16).toNat * 2 ^ 36
        + (get_register_number lb ops.rs % 16).toNat * 2 ^ 32
        + (get_register_number lb ops.rt % 16).toNat * 2 ^ 28
        + (get_register_number lb ops.rm % 16).toNat * 2 ^ 24
        + (strtol lb 0 ops.imm1 % 4096).toNat * 2 ^ 12
        + (strtol lb 0 ops.imm2 % 4096).toNat))) := by
  obtain ⟨v1, e1, k1⟩ := imm_value_numeric lb labels ops.imm1 ha
  obtain ⟨v2, e2, k2⟩ := imm_value_numeric lb labels ops.imm2 hb
  have hne : ops.opcode ≠ [] := by
    intro h
    apply ho
    simp [get_opcode_number, h]
  unfold process_instruction
  rw [if_neg hne, if_neg ho, e1, e2]
  simp only []
  rw [format_instruction_eq, k1, k2]

theorem and_2048 (f : Nat) (hf : f < 4096) :
    f &&& 0x800 = if f < 2048 then 0 else 2048 := by
  have h1 : f &&& 2 ^ 11 = (f.testBit 11).toNat * 2 ^ 11 := Nat.and_two_pow f 11
  have h2 : f.testBit 11 = decide (f / 2 ^ 11 % 2 = 1) := Nat.testBit_to_div_mod
  norm_num at h1 h2
  rw [h1, h2]
  by_cases h : f < 2048
  · have : f / 2048 = 0 := by omega
    simp [h, this]
  · have : f / 2048 = 1 := by omega
    simp [h, this]

theorem or_high (f : Nat) (hf : f < 4096) : f ||| 0xFFFFF000 = f + 4294963200 := by
  have h := Nat.mul_add_lt_is_or (i := 12) (b := f) (by norm_num; exact hf) 1048575
  norm_num at h
  rw [Nat.or_comm, ← h]; omega

theorem sign_extend_eq (f : Nat) (hf : f < 4096) :
    sign_extend f = if f < 2048 then f else f + 4294963200 := by
  unfold sign_extend
  rw [and_2048 f hf, or_high f hf]
  by_cases h : f < 2048 <;> simp [h]

theorem field_eq (w s k : Nat) : (w >>> s) &&& (2 ^ k - 1) = w / 2 ^ s % 2 ^ k := by
  rw [Nat.and_pow_two_sub_one_eq_mod, Nat.shiftRight_eq_div_pow]

theorem decode_word (O D S T M I1 I2 : Nat) (hO : O < 64) (hD : D < 16) (hS : S < 16)
    (hT : T < 16) (hM : M < 16) (hI1 : I1 < 4096) (hI2 : I2 < 4096) :
    decode_instruction (O * 2 ^ 40 + D * 2 ^ 36 + S * 2 ^ 32 + T * 2 ^ 28 + M * 2 ^ 24
        + I1 * 2 ^ 12 + I2)
    = { opcode := O, rd := D, rs := S, rt := T, rm := M,
        immediate1 := sign_extend I1, immediate2 := sign_extend I2 } := by
  have f6 := fun w s => field_eq w s 6
  have f4 := fun w s => field_eq w s 4
  have f12 := fun w s => field_eq w s 12
  have f12' := fun w => field_eq w 0 12
  norm_num at f6 f4 f12 f12'
  unfold decode_instruction
  rw [f6, f4, f4, f4, f4, f12, f12']
  norm_num
  refine ⟨?_, ?_, ?_, ?_, ?_, ?_, ?_⟩
  · omega
  · omega
  · omega
  · omega
  · omega
  · congr 1; omega
  · congr 1; omega

theorem sign_extend_signed (f : Nat) (hf : f < 4096) :
    toInt32 (sign_extend f) = (if f < 2048 then (f : Int) else (f : Int) - 4096)
      ∧ sign_extend f % 4096 = f := by
  rw [sign_extend_eq f hf]
  unfold toInt32
  by_cases h : f < 2048
  · simp only [h, if_true]
    constructor
    · split_ifs <;> omega
    · omega
  · simp only [h, if_false]
    constructor
    · push_cast
      split_ifs <;> omega
    · omega

theorem word_lt (O D S T M I1 I2 : Nat) (hO : O < 64) (hD : D < 16) (hS : S < 16)
    (hT : T < 16) (hM : M < 16) (hI1 : I1 < 4096) (hI2 : I2 < 4096) :
    O * 2 ^ 40 + D * 2 ^ 36 + S * 2 ^ 32 + T * 2 ^ 28 + M * 2 ^ 24 + I1 * 2 ^ 12 + I2
      < 2 ^ 48 := by
  norm_num
  omega

theorem small_emod_cast (x : Int) (k : Nat) (h0 : 0 ≤ x) (h1 : x < k) :
    (((x % (k : Int)).toNat : Nat) : Int) = x := by
  rw [Int.emod_eq_of_lt h0 h1]
  exact Int.toNat_of_nonneg h0

theorem signed_field (a : Int) (h0 : -2048 ≤ a) (h1 : a ≤ 2047) :
    (if (a % 4096).toNat < 2048 then (((a % 4096).toNat : Nat) : Int)
      else (((a % 4096).toNat : Nat) : Int) - 4096) = a := by
  split_ifs <;> omega

theorem in_range_of (x k : Int) (h : x = -1 ∨ (0 ≤ x ∧ x ≤ k)) (h1 : x ≠ -1) :
    0 ≤ x ∧ x ≤ k := by
  rcases h with h | h
  · exact absurd h h1
  · exact h

theorem isdigit_facts (c : Char) (h : isdigit c = true) :
    isspace c = false ∧ c ≠ '-' ∧ c ≠ '+' ∧ digitVal c = c.toNat - 48 ∧ digitVal c < 10 := by
  have h' : 48 ≤ c.toNat ∧ c.toNat ≤ 57 := by
    simpa [isdigit] using h
  refine ⟨?_, ?_, ?_, ?_, ?_⟩
  · unfold isspace
    have e : ∀ d : Char, d.toNat < 48 → c ≠ d := by
      intro d hd hcd
      rw [hcd] at h'
      omega
    simp [e ' ' (by decide), e '\t' (by decide), e '\n' (by decide), e '\x0b' (by decide),
      e '\x0c' (by decide), e '\r' (by decide)]
  · intro hc; rw [hc] at h'; revert h'; decide
  · intro hc; rw [hc] at h'; revert h'; decide
  · unfold digitVal; rw [if_pos h]
  · unfold digitVal; rw [if_pos h]; omega

theorem strtol_digits_decimal : ∀ (ds : CStr) (acc : Nat), ds.all isdigit = true →
    strtol_digits 10 ds acc = ds.foldl (fun acc c => acc * 10 + (c.toNat - 48)) acc := by
  intro ds
  induction ds with
  | nil => intro acc _; rfl
  | cons c rest ih =>
    intro acc h
    simp only [List.all_cons, Bool.and_eq_true] at h
    obtain ⟨_, _, _, hv, hlt⟩ := isdigit_facts c h.1
    unfold strtol_digits
    rw [if_pos hlt, hv, ih _ h.2]
    rfl

theorem strtol_decimal (lb : Nat) (c : Char) (rest : CStr)
    (hall : (c :: rest).all isdigit = true) (h0 : c ≠ '0')
    (hfit : (decimal_value (c :: rest) : Int) ≤ 2 ^ (lb - 1) - 1) :
    strtol lb 0 (c :: rest) = (decimal_value (c :: rest) : Int)
      ∧ strtol lb 0 ('-' :: c :: rest) = -(decimal_value (c :: rest) : Int) := by
  have hc : isdigit c = true := by
    simp only [List.all_cons, Bool.and_eq_true] at hall
    exact hall.1
  obtain ⟨hsp, hm, hp, _, _⟩ := isdigit_facts c hc
  have hdig : strtol_digits 10 (c :: rest) 0 = decimal_value (c :: rest) :=
    strtol_digits_decimal (c :: rest) 0 hall
  have hpow : (0 : Int) < 2 ^ (lb - 1) := by positivity
  have hnn : (0 : Int) ≤ (decimal_value (c :: rest) : Int) := Int.natCast_nonneg _
  have hdrop : List.dropWhile isspace (c :: rest) = c :: rest :=
    List.dropWhile_cons_of_neg (by rw [hsp]; exact Bool.false_ne_true)
  have hdropm : List.dropWhile isspace ('-' :: c :: rest) = '-' :: c :: rest :=
    List.dropWhile_cons_of_neg (by decide)
  have hm' : (c = '-') = False := eq_false hm
  have hp' : (c = '+') = False := eq_false hp
  have h0' : (c = '0') = False := eq_false h0
  constructor
  · unfold strtol
    simp only [hdrop, List.head?_cons, Option.some.injEq, hm', hp', h0', or_self, if_false,
      false_and, and_false, true_and, if_true, hdig]
    rw [if_neg (by omega), if_neg (by omega)]
  · unfold strtol
    simp only [hdropm, List.head?_cons, List.tail_cons, true_or, if_true, Option.some.injEq,
      h0', false_and, and_false, if_false, true_and, hdig]
    rw [if_neg (by omega), if_neg (by omega)]

theorem is_number_decimal (c : Char) (rest : CStr) (hall : (c :: rest).all isdigit = true)
    (h0 : c ≠ '0') :
    is_number (c :: rest) = true ∧ is_number ('-' :: c :: rest) = true := by
  have hc : isdigit c = true := by
    simp only [List.all_cons, Bool.and_eq_true] at hall
    exact hall.1
  obtain ⟨_, hm, _, _, _⟩ := isdigit_facts c hc
  have hm' : (c = '-') = False := eq_false hm
  have h0' : (c = '0') = False := eq_false h0
  constructor
  · unfold is_number
    simp only [List.head?_cons, Option.some.injEq, hm', h0', if_false, false_and,
      reduceCtorEq]
    exact hall
  · unfold is_number
    simp only [List.head?_cons, List.tail_cons, Option.some.injEq, h0', if_false, false_and,
      reduceCtorEq, if_true]
    exact hall

/-! ## Round trip between the second pass and the decoder (C1) -/

/-- C1 (counterexample): the line `add $t0, $imm1, $zero, $zero, 2048, 0` is accepted
by the second pass, which emits the word `007100800000`; decoding that word gives the
immediate -2048 and not the 2048 written on the line. -/
theorem roundtrip_fails_at_2048 :
    process_instruction 64 [] (parse_operands "add $t0, $imm1, $zero, $zero, 2048, 0".toList)
        = .ok (some (hexFixed 12 0x007100800000))
      ∧ is_number (parse_operands "add $t0, $imm1, $zero, $zero, 2048, 0".toList).imm1 = true
      ∧ strtol 64 0 (parse_operands "add $t0, $imm1, $zero, $zero, 2048, 0".toList).imm1 = 2048
      ∧ toInt32 (decode_instruction 0x007100800000).immediate1 = -2048
      ∧ toInt32 (decode_instruction 0x007100800000).immediate1
          ≠ strtol 64 0 (parse_operands "add $t0, $imm1, $zero, $zero, 2048, 0".toList).imm1 := by
  refine ⟨by rfl, by rfl, by rfl, by rfl, by decide⟩

/-- C1 (amended): for operand buffers that the second pass accepts (a known mnemonic,
four recognised registers, two numeric literals) whose two literals have values between
-2048 and 2047, the line emitted is the 12 hex digits of a 48-bit word that
`decode_instruction` maps to the opcode number, the four register numbers and, read as
signed 32-bit integers, the two values written. -/
theorem roundtrip_in_range (lb : Nat) (labels : List Label) (ops : Operands)
    (o d s t m a b : Int)
    (ho : get_opcode_number ops.opcode = o) (ho1 : o ≠ -1)
    (hd : get_register_number lb ops.rd = d) (hd1 : d ≠ -1)
    (hs : get_register_number lb ops.rs = s) (hs1 : s ≠ -1)
    (ht : get_register_number lb ops.rt = t) (ht1 : t ≠ -1)
    (hm : get_register_number lb ops.rm = m) (hm1 : m ≠ -1)
    (ha : is_number ops.imm1 = true) (hav : strtol lb 0 ops.imm1 = a)
    (hb : is_number ops.imm2 = true) (hbv : strtol lb 0 ops.imm2 = b)
    (ha12 : -2048 ≤ a ∧ a ≤ 2047) (hb12 : -2048 ≤ b ∧ b ≤ 2047) :
    ∃ w : Nat, w < 2 ^ 48
      ∧ process_instruction lb labels ops = .ok (some (hexFixed 12 w))
      ∧ ((decode_instruction w).opcode : Int) = o
      ∧ ((decode_instruction w).rd : Int) = d
      ∧ ((decode_instruction w).rs : Int) = s
      ∧ ((decode_instruction w).rt : Int) = t
      ∧ ((decode_instruction w).rm : Int) = m
      ∧ toInt32 (decode_instruction w).immediate1 = a
      ∧ toInt32 (decode_instruction w).immediate2 = b := by
  have ro := in_range_of _ _ (get_opcode_number_range ops.opcode) (by rw [ho]; exact ho1)
  have rd := in_range_of _ _ (get_register_number_range lb ops.rd) (by rw [hd]; exact hd1)
  have rs := in_range_of _ _ (get_register_number_range lb ops.rs) (by rw [hs]; exact hs1)
  have rt := in_range_of _ _ (get_register_number_range lb ops.rt) (by rw [ht]; exact ht1)
  have rm := in_range_of _ _ (get_register_number_range lb ops.rm) (by rw [hm]; exact hm1)
  rw [ho] at ro; rw [hd] at rd; rw [hs] at rs; rw [ht] at rt; rw [hm] at rm
  have eo : (((o % 256).toNat : Nat) : Int) = o :=
    small_emod_cast o 256 ro.1 (lt_of_le_of_lt ro.2 (by norm_num))
  have ed : (((d % 16).toNat : Nat) : Int) = d :=
    small_emod_cast d 16 rd.1 (lt_of_le_of_lt rd.2 (by norm_num))
  have es : (((s % 16).toNat : Nat) : Int) = s :=
    small_emod_cast s 16 rs.1 (lt_of_le_of_lt rs.2 (by norm_num))
  have et : (((t % 16).toNat : Nat) : Int) = t :=
    small_emod_cast t 16 rt.1 (lt_of_le_of_lt rt.2 (by norm_num))
  have em : (((m % 16).toNat : Nat) : Int) = m :=
    small_emod_cast m 16 rm.1 (lt_of_le_of_lt rm.2 (by norm_num))
  have hO : (o % 256).toNat < 64 := by
    have h2 := ro.2
    clear hd hs ht hm ho hav hbv ed es et em
    omega
  have hD : (d % 16).toNat < 16 := emod_toNat_lt d 16 (by norm_num)
  have hS : (s % 16).toNat < 16 := emod_toNat_lt s 16 (by norm_num)
  have hT : (t % 16).toNat < 16 := emod_toNat_lt t 16 (by norm_num)
  have hM : (m % 16).toNat < 16 := emod_toNat_lt m 16 (by norm_num)
  have hI1 : (a % 4096).toNat < 4096 := emod_toNat_lt a 4096 (by norm_num)
  have hI2 : (b % 4096).toNat < 4096 := emod_toNat_lt b 4096 (by norm_num)
  have hproc := process_instruction_numeric lb labels ops (by rw [ho]; exact ho1) ha hb
  rw [ho, hd, hs, ht, hm, hav, hbv] at hproc
  have hdec := decode_word _ _ _ _ _ _ _ hO hD hS hT hM hI1 hI2
  have hlt := word_lt _ _ _ _ _ _ _ hO hD hS hT hM hI1 hI2
  have s1 := (sign_extend_signed _ hI1).1
  have s2 := (sign_extend_signed _ hI2).1
  refine ⟨_, hlt, hproc, ?_, ?_, ?_, ?_, ?_, ?_, ?_⟩
  · rw [hdec]; exact eo
  · rw [hdec]; exact ed
  · rw [hdec]; exact es
  · rw [hdec]; exact et
  · rw [hdec]; exact em
  · rw [hdec]; exact s1.trans (signed_field a ha12.1 ha12.2)
  · rw [hdec]; exact s2.trans (signed_field b hb12.1 hb12.2)

/-- C1 (amended), at `sub $t1, $t0, $imm1, $zero, -3, 7`. -/
theorem roundtrip_in_range_witness :
    ∃ w : Nat, w < 2 ^ 48
      ∧ process_instruction 64 []
          (parse_operands "sub $t1, $t0, $imm1, $zero, -3, 7".toList)
          = .ok (some (hexFixed 12 w))
      ∧ ((decode_instruction w).opcode : Int) = 1
      ∧ ((decode_instruction w).rd : Int) = 8
      ∧ ((decode_instruction w).rs : Int) = 7
      ∧ ((decode_instruction w).rt : Int) = 1
      ∧ ((decode_instruction w).rm : Int) = 0
      ∧ toInt32 (decode_instruction w).immediate1 = -3
      ∧ toInt32 (decode_instruction w).immediate2 = 7 :=
  roundtrip_in_range 64 [] (parse_operands "sub $t1, $t0, $imm1, $zero, -3, 7".toList)
    1 8 7 1 0 (-3) 7 (by rfl) (by decide) (by rfl) (by decide) (by rfl) (by decide)
    (by rfl) (by decide) (by rfl) (by decide) (by rfl) (by rfl) (by rfl) (by rfl)
    (by decide) (by decide)


/-! ## First pass: what the loop computes on the buffers -/

theorem strstr_iff (hay needle : CStr) : strstr hay needle = true ↔ needle <:+: hay := by
  induction hay with
  | nil =>
    simp [strstr, List.isEmpty_iff]
  | cons c rest ih =>
    unfold strstr
    rw [Bool.or_eq_true, ih, List.isPrefixOf_iff_prefix, List.infix_cons_iff]

theorem strstr_false_of_infix (a b needle : CStr) (hab : a <:+: b)
    (h : strstr b needle = false) : strstr a needle = false := by
  by_contra hc
  have h1 : strstr a needle = true := by simpa using hc
  have h2 := (strstr_iff b needle).2 (((strstr_iff a needle).1 h1).trans hab)
  rw [h] at h2
  exact Bool.false_ne_true h2

theorem trim_within (x : CStr) : trim x <:+: x := by
  unfold trim
  have h1 : (x.dropWhile isspace).reverse.dropWhile isspace <:+ (x.dropWhile isspace).reverse :=
    List.dropWhile_suffix _
  have h2 : ((x.dropWhile isspace).reverse.dropWhile isspace).reverse
      <+: x.dropWhile isspace := by
    have := List.reverse_prefix.2 h1
    simpa using this
  exact h2.isInfix.trans (List.dropWhile_suffix _).isInfix

theorem trim_length_le (x : CStr) : (trim x).length ≤ x.length :=
  (trim_within x).length_le

theorem after_colon_within (p : Char → Bool) (line : CStr) :
    trim (line.dropWhile p).tail <:+: line :=
  (trim_within _).trans
    ((List.tail_suffix _).isInfix.trans (List.dropWhile_suffix _).isInfix)


theorem count_instruction_spec (st st' : Pass1) (line : CStr) (h1 : line ≠ [])
    (h2 : strstr line ".word".toList = false) (h : count_instruction st line = .ok st') :
    st'.current_address = st.current_address + 1 ∧ st'.label_list = st.label_list
      ∧ st.current_address ≠ INT_MAX := by
  unfold count_instruction at h
  rw [if_pos ⟨h1, h2⟩] at h
  unfold incr_address at h
  by_cases hm : st.current_address = INT_MAX
  · rw [if_pos hm] at h
    cases h
  · rw [if_neg hm] at h
    simp only [Except.ok.injEq] at h
    subst h
    exact ⟨rfl, rfl, hm⟩

theorem first_pass_line_spec (st st' : Pass1) (buf : List Char)
    (h : first_pass_line st buf = .ok st') :
    st'.current_address = st.current_address + (if is_instruction_line buf then 1 else 0)
      ∧ st'.label_list = (match label_of_line buf with
          | some name => [{ name := name, address := st.current_address }]
          | none => []) ++ st.label_list := by
  unfold first_pass_line at h
  unfold is_instruction_line label_of_line after_label clean_line
  generalize trim (strip_comment (cstr buf)) = line at h ⊢
  dsimp only at h
  generalize hw : ".word".toList = dw at h ⊢
  generalize (fun c : Char => decide (c ≠ ':')) = p at h ⊢
  by_cases h1 : line = []
  · rw [if_pos h1] at h
    simp only [Except.ok.injEq] at h
    subst h
    simp [h1]
  · rw [if_neg h1] at h
    by_cases h2 : strstr line dw = true
    · rw [if_pos h2] at h
      simp only [Except.ok.injEq] at h
      subst h
      simp [h1, h2]
    · rw [if_neg h2] at h
      have h2' : strstr line dw = false := by simpa using h2
      by_cases h3 : ':' ∈ line
      · rw [if_pos h3] at h
        by_cases h4 : MAX_LABEL_LENGTH - 1
            ≤ (line.takeWhile p).length
        · rw [if_pos h4] at h
          cases h
        · rw [if_neg h4] at h
          have hname : (trim (line.takeWhile p)).take
              (MAX_LABEL_LENGTH - 1) = trim (line.takeWhile p) := by
            apply List.take_of_length_le
            have := trim_length_le (line.takeWhile p)
            omega
          by_cases h5 : trim (line.dropWhile p).tail = []
          · rw [if_pos h5] at h
            simp only [Except.ok.injEq] at h
            subst h
            simp [h1, h2', h3, h5, add_label, create_label, hname]
          · rw [if_neg h5] at h
            by_cases h7 : (line.takeWhile p).length < (trim (line.dropWhile p).tail).length
            · rw [if_pos h7] at h
              cases h
            · rw [if_neg h7] at h
              have h6 := strstr_false_of_infix _ _ _ (after_colon_within p line) h2'
              obtain ⟨e1, e2, _⟩ := count_instruction_spec _ _ _ h5 (by rw [hw]; exact h6) h
              simp [h1, h2', h3, h5, e1, e2, add_label, create_label, hname]
      · rw [if_neg h3] at h
        obtain ⟨e1, e2, _⟩ := count_instruction_spec _ _ _ h1 (by rw [hw]; exact h2') h
        simp [h1, h2', h3, e1, e2]


theorem first_pass_loop_spec : ∀ (rest pre : List (List Char)) (st st' : Pass1),
    st.current_address = ((pre.countP is_instruction_line : Nat) : Int) →
    first_pass_loop st rest = .ok st' →
    st'.current_address = (((pre ++ rest).countP is_instruction_line : Nat) : Int)
      ∧ st'.label_list = (pass_labels pre rest).reverse ++ st.label_list := by
  intro rest
  induction rest with
  | nil =>
    intro pre st st' hst h
    simp only [first_pass_loop, Except.ok.injEq] at h
    subst h
    simp [hst, pass_labels]
  | cons buf rest ih =>
    intro pre st st' hst h
    unfold first_pass_loop at h
    cases hl : first_pass_line st buf with
    | error e => rw [hl] at h; cases h
    | ok st1 =>
      rw [hl] at h
      obtain ⟨e1, e2⟩ := first_pass_line_spec st st1 buf hl
      have hst1 : st1.current_address
          = (((pre ++ [buf]).countP is_instruction_line : Nat) : Int) := by
        rw [e1, hst, List.countP_append, List.countP_cons]
        simp only [List.countP_nil, Nat.zero_add]
        push_cast
        split_ifs <;> rfl
      obtain ⟨r1, r2⟩ := ih (pre ++ [buf]) st1 st' hst1 h
      constructor
      · rw [r1, List.append_assoc]; rfl
      · rw [r2, e2, hst]
        simp only [pass_labels]
        cases label_of_line buf with
        | none => simp
        | some name => simp

theorem first_pass_spec (input : List Char) (labels : List Label)
    (h : first_pass input = .ok labels) :
    labels = (pass_labels [] (fgets_lines MAX_LINE_LENGTH input)).reverse := by
  unfold first_pass at h
  cases hl : first_pass_loop { current_address := 0, label_list := [] }
      (fgets_lines MAX_LINE_LENGTH input) with
  | error e => rw [hl] at h; cases h
  | ok st =>
    rw [hl] at h
    simp only [Except.ok.injEq] at h
    obtain ⟨_, r2⟩ := first_pass_loop_spec _ [] _ st (by simp) hl
    rw [← h, r2]
    simp

theorem mem_pass_labels : ∀ (pre pre0 post : List (List Char)) (buf : List Char) (name : CStr),
    label_of_line buf = some name →
    ({ name := name, address := (((pre0 ++ pre).countP is_instruction_line : Nat) : Int) } : Label)
      ∈ pass_labels pre0 (pre ++ buf :: post) := by
  intro pre
  induction pre with
  | nil =>
    intro pre0 post buf name h
    simp [pass_labels, h]
  | cons b pre ih =>
    intro pre0 post buf name h
    have := ih (pre0 ++ [b]) post buf name h
    rw [List.append_assoc] at this
    simp only [List.cons_append, pass_labels]
    cases label_of_line b with
    | none => exact this
    | some n => exact List.mem_cons_of_mem _ this

theorem pass_labels_mem : ∀ (rest pre0 : List (List Char)) (l : Label),
    l ∈ pass_labels pre0 rest →
    ∃ pre buf post, rest = pre ++ buf :: post ∧ label_of_line buf = some l.name
      ∧ l.address = (((pre0 ++ pre).countP is_instruction_line : Nat) : Int) := by
  intro rest
  induction rest with
  | nil => intro pre0 l h; simp [pass_labels] at h
  | cons b rest ih =>
    intro pre0 l h
    simp only [pass_labels] at h
    have step : l ∈ pass_labels (pre0 ++ [b]) rest →
        ∃ pre buf post, b :: rest = pre ++ buf :: post ∧ label_of_line buf = some l.name
          ∧ l.address = (((pre0 ++ pre).countP is_instruction_line : Nat) : Int) := by
      intro h'
      obtain ⟨pre, buf, post, e, hl, ha⟩ := ih (pre0 ++ [b]) l h'
      refine ⟨b :: pre, buf, post, by rw [e]; rfl, hl, ?_⟩
      rw [ha, List.append_assoc]; rfl
    cases hb : label_of_line b with
    | none =>
      rw [hb] at h
      exact step h
    | some n =>
      rw [hb] at h
      rcases List.mem_cons.1 h with h1 | h1
      · refine ⟨[], b, rest, rfl, ?_, ?_⟩
        · rw [hb, h1]
        · rw [h1]; simp
      · exact step h1


theorem first_pass_line_word (st : Pass1) (w : List Char)
    (h : strstr (clean_line w) ".word".toList = true) : first_pass_line st w = .ok st := by
  unfold first_pass_line
  unfold clean_line at h
  generalize trim (strip_comment (cstr w)) = line at h ⊢
  dsimp only
  by_cases h1 : line = []
  · rw [if_pos h1]
  · rw [if_neg h1, if_pos h]

theorem first_pass_loop_skip_word (w : List Char)
    (h : strstr (clean_line w) ".word".toList = true) :
    ∀ (pre post : List (List Char)) (st : Pass1),
      first_pass_loop st (pre ++ w :: post) = first_pass_loop st (pre ++ post) := by
  intro pre
  induction pre with
  | nil =>
    intro post st
    simp only [List.nil_append]
    rw [first_pass_loop, first_pass_line_word st w h]
  | cons b pre ih =>
    intro post st
    simp only [List.cons_append, first_pass_loop]
    cases first_pass_line st b with
    | error e => rfl
    | ok st1 => exact ih post st1

theorem first_pass_line_ok (st : Pass1) (buf : List Char)
    (hdef : ':' ∈ clean_line buf → strstr (clean_line buf) ".word".toList = false →
      ((clean_line buf).takeWhile (fun c => c ≠ ':')).length < MAX_LABEL_LENGTH - 1
        ∧ (after_label (clean_line buf)).length
            ≤ ((clean_line buf).takeWhile (fun c => c ≠ ':')).length)
    (hca : st.current_address ≠ INT_MAX) : ∃ st', first_pass_line st buf = .ok st' := by
  unfold first_pass_line
  unfold clean_line after_label at hdef
  generalize trim (strip_comment (cstr buf)) = line at hdef ⊢
  dsimp only
  have hcount : ∀ (s : Pass1) (l : CStr), s.current_address ≠ INT_MAX →
      ∃ st', count_instruction s l = .ok st' := by
    intro s l hs
    unfold count_instruction incr_address
    rw [if_neg hs]
    split_ifs
    · exact ⟨_, rfl⟩
    · exact ⟨_, rfl⟩
  split_ifs with h1 h2 h3 h4 h5 h6
  · exact ⟨_, rfl⟩
  · exact ⟨_, rfl⟩
  · have := (hdef h3 (by simpa using h2)).1
    omega
  · exact ⟨_, rfl⟩
  · have := (hdef h3 (by simpa using h2)).2
    rw [if_pos h3] at this
    omega
  · exact hcount _ _ hca
  · exact hcount _ _ hca

theorem first_pass_loop_ok : ∀ (rest : List (List Char)) (st : Pass1),
    (∀ buf ∈ rest, ':' ∈ clean_line buf → strstr (clean_line buf) ".word".toList = false →
      ((clean_line buf).takeWhile (fun c => c ≠ ':')).length < MAX_LABEL_LENGTH - 1
        ∧ (after_label (clean_line buf)).length
            ≤ ((clean_line buf).takeWhile (fun c => c ≠ ':')).length) →
    st.current_address + (rest.length : Int) ≤ INT_MAX →
    ∃ st', first_pass_loop st rest = .ok st' := by
  intro rest
  induction rest with
  | nil => intro st _ _; exact ⟨st, rfl⟩
  | cons b rest ih =>
    intro st hdef hlen
    have hlen' : st.current_address + ((rest.length : Int) + 1) ≤ INT_MAX := by
      simpa using hlen
    have hca : st.current_address ≠ INT_MAX := by
      have : (0 : Int) ≤ (rest.length : Int) := Int.natCast_nonneg _
      omega
    obtain ⟨st1, h1⟩ := first_pass_line_ok st b (hdef b (List.mem_cons_self _ _)) hca
    obtain ⟨e1, _⟩ := first_pass_line_spec st st1 b h1
    have hlen1 : st1.current_address + (rest.length : Int) ≤ INT_MAX := by
      rw [e1]
      split_ifs <;> omega
    obtain ⟨st', h'⟩ := ih st1 (fun buf hb => hdef buf (List.mem_cons_of_mem _ hb)) hlen1
    refine ⟨st', ?_⟩
    rw [first_pass_loop, h1]
    exact h'

/-! ## Decoder fields (C2, C3) -/

/-- C2: `decode_instruction` keeps only six bits of the opcode byte.  On the word
`400000000000`, whose bits 47..40 are `0x40` = 64, it returns opcode 0; for every word the
opcode returned is bits 45..40, while rd, rs, rt and rm are bits 39..36, 35..32, 31..28
and 27..24. -/
theorem decode_opcode_keeps_six_bits :
    (decode_instruction 0x400000000000).opcode = 0
      ∧ (0x400000000000 >>> 40) % 256 = 64
      ∧ ∀ w : Nat, (decode_instruction w).opcode = w / 2 ^ 40 % 64
          ∧ (decode_instruction w).rd = w / 2 ^ 36 % 16
          ∧ (decode_instruction w).rs = w / 2 ^ 32 % 16
          ∧ (decode_instruction w).rt = w / 2 ^ 28 % 16
          ∧ (decode_instruction w).rm = w / 2 ^ 24 % 16 := by
  refine ⟨by decide, by decide, fun w => ?_⟩
  have f6 := fun s => field_eq w s 6
  have f4 := fun s => field_eq w s 4
  norm_num at f6 f4
  unfold decode_instruction
  norm_num
  exact ⟨f6 40, f4 36, f4 32, f4 28, f4 24⟩

/-- C3: for every word `w`, the two immediates returned by `decode_instruction`, read
as signed 32-bit integers, are the two's-complement values of the 12-bit fields
`w[23..12]` and `w[11..0]`: a field `f` decodes to `f` when `f < 2048` and to `f - 4096`
otherwise; each decoded immediate lies in [-2048, 2047] and has `f` as its low 12 bits. -/
theorem decode_immediates_twos_complement (w : Nat) :
    toInt32 (decode_instruction w).immediate1
        = (if w / 2 ^ 12 % 4096 < 2048 then ((w / 2 ^ 12 % 4096 : Nat) : Int)
            else ((w / 2 ^ 12 % 4096 : Nat) : Int) - 4096)
      ∧ toInt32 (decode_instruction w).immediate2
        = (if w % 4096 < 2048 then ((w % 4096 : Nat) : Int)
            else ((w % 4096 : Nat) : Int) - 4096)
      ∧ -2048 ≤ toInt32 (decode_instruction w).immediate1
      ∧ toInt32 (decode_instruction w).immediate1 ≤ 2047
      ∧ -2048 ≤ toInt32 (decode_instruction w).immediate2
      ∧ toInt32 (decode_instruction w).immediate2 ≤ 2047
      ∧ (decode_instruction w).immediate1 % 4096 = w / 2 ^ 12 % 4096
      ∧ (decode_instruction w).immediate2 % 4096 = w % 4096 := by
  have e1 : (decode_instruction w).immediate1 = sign_extend (w / 2 ^ 12 % 4096) := by
    have := field_eq w 12 12
    norm_num at this
    unfold decode_instruction
    norm_num
    rw [this]
  have e2 : (decode_instruction w).immediate2 = sign_extend (w % 4096) := by
    have := field_eq w 0 12
    norm_num at this
    unfold decode_instruction
    norm_num
    rw [this]
  have b1 : w / 2 ^ 12 % 4096 < 4096 := Nat.mod_lt _ (by norm_num)
  have b2 : w % 4096 < 4096 := Nat.mod_lt _ (by norm_num)
  obtain ⟨s1, l1⟩ := sign_extend_signed _ b1
  obtain ⟨s2, l2⟩ := sign_extend_signed _ b2
  rw [e1, e2]
  refine ⟨s1, s2, ?_, ?_, ?_, ?_, l1, l2⟩
  · rw [s1]; split_ifs <;> omega
  · rw [s1]; split_ifs <;> omega
  · rw [s2]; split_ifs <;> omega
  · rw [s2]; split_ifs <;> omega


/-! ## Second pass: encoding and fatal errors (C8) -/

/-- The word written for operand buffers that hold a mnemonic numbered `o`, registers
numbered `d`, `s`, `t`, `m` and numeric literals that `strtol` reads as `a` and `b`. -/
theorem encoding_of_operands (lb : Nat) (labels : List Label) (ops : Operands)
    (o d s t m a b : Int)
    (ho : get_opcode_number ops.opcode = o) (ho1 : o ≠ -1)
    (hd : get_register_number lb ops.rd = d) (hd1 : d ≠ -1)
    (hs : get_register_number lb ops.rs = s) (hs1 : s ≠ -1)
    (ht : get_register_number lb ops.rt = t) (ht1 : t ≠ -1)
    (hm : get_register_number lb ops.rm = m) (hm1 : m ≠ -1)
    (ha : is_number ops.imm1 = true) (hav : strtol lb 0 ops.imm1 = a)
    (hb : is_number ops.imm2 = true) (hbv : strtol lb 0 ops.imm2 = b) :
    process_instruction lb labels ops
      = .ok (some (hexFixed 12 (o.toNat * 2 ^ 40 + d.toNat * 2 ^ 36 + s.toNat * 2 ^ 32
          + t.toNat * 2 ^ 28 + m.toNat * 2 ^ 24 + (a % 4096).toNat * 2 ^ 12
          + (b % 4096).toNat))) := by
  have ro := in_range_of _ _ (get_opcode_number_range ops.opcode) (by rw [ho]; exact ho1)
  have rd := in_range_of _ _ (get_register_number_range lb ops.rd) (by rw [hd]; exact hd1)
  have rs := in_range_of _ _ (get_register_number_range lb ops.rs) (by rw [hs]; exact hs1)
  have rt := in_range_of _ _ (get_register_number_range lb ops.rt) (by rw [ht]; exact ht1)
  have rm := in_range_of _ _ (get_register_number_range lb ops.rm) (by rw [hm]; exact hm1)
  rw [ho] at ro; rw [hd] at rd; rw [hs] at rs; rw [ht] at rt; rw [hm] at rm
  have eo : o % 256 = o := Int.emod_eq_of_lt ro.1 (lt_of_le_of_lt ro.2 (by norm_num))
  have ed : d % 16 = d := Int.emod_eq_of_lt rd.1 (lt_of_le_of_lt rd.2 (by norm_num))
  have es : s % 16 = s := Int.emod_eq_of_lt rs.1 (lt_of_le_of_lt rs.2 (by norm_num))
  have et : t % 16 = t := Int.emod_eq_of_lt rt.1 (lt_of_le_of_lt rt.2 (by norm_num))
  have em : m % 16 = m := Int.emod_eq_of_lt rm.1 (lt_of_le_of_lt rm.2 (by norm_num))
  have hproc := process_instruction_numeric lb labels ops (by rw [ho]; exact ho1) ha hb
  rw [ho, hd, hs, ht, hm, hav, hbv, eo, ed, es, et, em] at hproc
  exact hproc

/-- C8: an unknown register in rd, rs, rt or rm is not fatal.  The token `$foo` is no
register (`get_register_number` returns -1, and as an immediate it stops the pass with
`Invalid register`), yet `add $foo, $zero, $zero, $zero, 0, 0` is assembled, with
register number 15 in the rd field; an unknown mnemonic does stop the pass. -/
theorem unknown_register_is_assembled :
    (parse_operands "add $foo, $zero, $zero, $zero, 0, 0".toList).rd = "$foo".toList
      ∧ get_register_number 64 "$foo".toList = -1
      ∧ process_instruction 64 [] (parse_operands "add $foo, $zero, $zero, $zero, 0, 0".toList)
          = .ok (some "00F000000000".toList)
      ∧ process_instruction 64 [] (parse_operands "add $zero, $zero, $zero, $zero, $foo, 0".toList)
          = .error .invalid_register
      ∧ process_instruction 64 [] (parse_operands "foo $zero, $zero, $zero, $zero, 0, 0".toList)
          = .error .invalid_opcode := by
  refine ⟨by rfl, by rfl, by rfl, by rfl, by rfl⟩


/-! ## Second pass: data image (C7) -/

theorem toInt32_of_range (x : Int) (h0 : -2147483648 ≤ x) (h1 : x < 2147483648) :
    toInt32 x = x := by
  unfold toInt32
  split_ifs <;> omega

theorem toU32_toInt32 (x : Int) : toU32 (toInt32 x) = (x % 4294967296).toNat := by
  unfold toU32 toInt32
  split_ifs <;> congr 1 <;> omega

theorem fmtX_word (x : Int) :
    fmtX 8 (toU32 (toInt32 x)) = hexFixed 8 (x % 4294967296).toNat := by
  rw [toU32_toInt32]
  apply fmtX_of_lt
  have := emod_toNat_lt x 4294967296 (by norm_num)
  norm_num at this ⊢
  exact this

theorem strstr_nil_word : strstr [] ".word".toList = false := by rfl

theorem second_pass_line_word (lb : Nat) (labels : List Label) (st : Pass2) (buf : List Char)
    (t0 A V : CStr) (rest : List CStr)
    (hword : strstr (clean_line buf) ".word".toList = true)
    (htok : strtok_all " \t".toList (clean_line buf) = t0 :: A :: V :: rest)
    (haddr : 0 ≤ strtol lb 0 A ∧ strtol lb 0 A < 4096) :
    second_pass_line lb labels st buf = .ok { st with
      dmem := fun i =>
        if i = (strtol lb 0 A).toNat then toInt32 (strtol lb 0 (trim V)) else st.dmem i
      max_dmem_address :=
        if strtol lb 0 A > st.max_dmem_address then strtol lb 0 A
        else st.max_dmem_address } := by
  have hA : toInt32 (strtol lb 0 A) = strtol lb 0 A :=
    toInt32_of_range _ (by omega) (by omega)
  unfold second_pass_line
  unfold clean_line at hword htok
  generalize trim (strip_comment (cstr buf)) = line at hword htok ⊢
  dsimp only
  have hne : line ≠ [] := by
    intro h
    rw [h, strstr_nil_word] at hword
    exact Bool.false_ne_true hword
  rw [if_neg hne, if_pos hword]
  unfold word_directive
  rw [htok]
  simp only [List.getElem?_cons_succ, List.getElem?_cons_zero]
  rw [hA, if_pos ⟨haddr.1, by unfold MEMORY_SIZE; exact_mod_cast haddr.2⟩]

theorem assemble_instruction_keeps (lb : Nat) (labels : List Label) (st st' : Pass2)
    (line : CStr) (h : assemble_instruction lb labels st line = .ok st') :
    st'.dmem = st.dmem ∧ st'.max_dmem_address = st.max_dmem_address := by
  unfold assemble_instruction at h
  split at h
  · cases h
  · simp only [Except.ok.injEq] at h
    subst h
    exact ⟨rfl, rfl⟩
  · split at h
    · cases h
    · simp only [Except.ok.injEq] at h
      subst h
      exact ⟨rfl, rfl⟩

theorem second_pass_line_keeps (lb : Nat) (labels : List Label) (st st' : Pass2)
    (buf : List Char) (addr : Int) (h0 : 0 ≤ addr)
    (hw : word_address lb buf ≠ some addr)
    (h : second_pass_line lb labels st buf = .ok st') :
    st'.dmem addr.toNat = st.dmem addr.toNat
      ∧ st.max_dmem_address ≤ st'.max_dmem_address := by
  unfold second_pass_line at h
  unfold word_address clean_line at hw
  generalize trim (strip_comment (cstr buf)) = line at hw h
  dsimp only at h
  by_cases h1 : line = []
  · rw [if_pos h1] at h
    simp only [Except.ok.injEq] at h
    subst h
    exact ⟨rfl, le_refl _⟩
  · rw [if_neg h1] at h
    by_cases h2 : strstr line ".word".toList = true
    · rw [if_pos h2] at h
      rw [if_pos h2] at hw
      unfold word_directive at h
      cases ht1 : (strtok_all " \t".toList line)[1]? with
      | none => rw [ht1] at h; cases h
      | some t1 =>
        rw [ht1] at h hw
        simp only [Option.map_some', ne_eq, Option.some.injEq] at hw
        cases ht2 : (strtok_all " \t".toList line)[2]? with
        | none =>
          rw [ht2] at h
          simp only [Except.ok.injEq] at h
          subst h
          exact ⟨rfl, le_refl _⟩
        | some t2 =>
          rw [ht2] at h
          simp only at h
          by_cases h3 : 0 ≤ toInt32 (strtol lb 0 t1) ∧ toInt32 (strtol lb 0 t1) < MEMORY_SIZE
          · rw [if_pos h3] at h
            simp only [Except.ok.injEq] at h
            subst h
            constructor
            · have hne : addr.toNat ≠ (toInt32 (strtol lb 0 t1)).toNat := by
                intro he
                apply hw
                have := h3.1
                omega
              simp only [if_neg hne]
            · simp only
              split_ifs <;> omega
          · rw [if_neg h3] at h
            cases h
    · rw [if_neg h2] at h
      split_ifs at h
      · simp only [Except.ok.injEq] at h
        subst h
        exact ⟨rfl, le_refl _⟩
      · obtain ⟨e1, e2⟩ := assemble_instruction_keeps _ _ _ _ _ h
        exact ⟨by rw [e1], by rw [e2]⟩
      · obtain ⟨e1, e2⟩ := assemble_instruction_keeps _ _ _ _ _ h
        exact ⟨by rw [e1], by rw [e2]⟩

theorem second_pass_loop_keeps (lb : Nat) (labels : List Label) (addr : Int) (h0 : 0 ≤ addr) :
    ∀ (post : List (List Char)) (st st' : Pass2),
      (∀ b ∈ post, word_address lb b ≠ some addr) →
      second_pass_loop lb labels st post = .ok st' →
      st'.dmem addr.toNat = st.dmem addr.toNat
        ∧ st.max_dmem_address ≤ st'.max_dmem_address := by
  intro post
  induction post with
  | nil =>
    intro st st' _ h
    simp only [second_pass_loop, Except.ok.injEq] at h
    subst h
    exact ⟨rfl, le_refl _⟩
  | cons b post ih =>
    intro st st' hw h
    unfold second_pass_loop at h
    cases hl : second_pass_line lb labels st b with
    | error e => rw [hl] at h; cases h
    | ok st1 =>
      rw [hl] at h
      obtain ⟨a1, a2⟩ := second_pass_line_keeps lb labels st st1 b addr h0
        (hw b (List.mem_cons_self _ _)) hl
      obtain ⟨b1, b2⟩ := ih st1 st' (fun x hx => hw x (List.mem_cons_of_mem _ hx)) h
      exact ⟨b1.trans a1, le_trans a2 b2⟩

theorem second_pass_loop_split (lb : Nat) (labels : List Label) (buf : List Char)
    (post : List (List Char)) :
    ∀ (pre : List (List Char)) (st st' : Pass2),
      second_pass_loop lb labels st (pre ++ buf :: post) = .ok st' →
      ∃ st1 st2, second_pass_loop lb labels st pre = .ok st1
        ∧ second_pass_line lb labels st1 buf = .ok st2
        ∧ second_pass_loop lb labels st2 post = .ok st' := by
  intro pre
  induction pre with
  | nil =>
    intro st st' h
    simp only [List.nil_append] at h
    unfold second_pass_loop at h
    cases hl : second_pass_line lb labels st buf with
    | error e => rw [hl] at h; cases h
    | ok st2 =>
      rw [hl] at h
      exact ⟨st, st2, rfl, hl, h⟩
  | cons b pre ih =>
    intro st st' h
    simp only [List.cons_append] at h
    unfold second_pass_loop at h
    cases hl : second_pass_line lb labels st b with
    | error e => rw [hl] at h; cases h
    | ok sb =>
      rw [hl] at h
      obtain ⟨st1, st2, e1, e2, e3⟩ := ih sb st' h
      refine ⟨st1, st2, ?_, e2, e3⟩
      rw [second_pass_loop, hl]
      exact e1

theorem data_image_line (st : Pass2) (i : Nat) (h : (i : Int) ≤ st.max_dmem_address) :
    (data_image st)[i]? = some (fmtX 8 (toU32 (st.dmem i))) := by
  unfold data_image
  have hi : i < (st.max_dmem_address + 1).toNat := by omega
  rw [List.getElem?_map, List.getElem?_range hi]
  rfl


/-- The data image in terms of the tokens of a buffer that contains `.word`, as
`strtok` finds them and `strtol` reads them. -/
theorem word_tokens_data_image (lb : Nat) (labels : List Label) (input : List Char)
    (pre : List (List Char)) (buf : List Char) (post : List (List Char))
    (t0 A V : CStr) (rest : List CStr) (imem dimage : List CStr)
    (hlines : fgets_lines MAX_LINE_LENGTH input = pre ++ buf :: post)
    (hword : strstr (clean_line buf) ".word".toList = true)
    (htok : strtok_all " \t".toList (clean_line buf) = t0 :: A :: V :: rest)
    (haddr : 0 ≤ strtol lb 0 A ∧ strtol lb 0 A < 4096)
    (hlater : ∀ b ∈ post, word_address lb b ≠ some (strtol lb 0 A))
    (hrun : second_pass lb input labels = .ok (imem, dimage)) :
    dimage[(strtol lb 0 A).toNat]?
        = some (hexFixed 8 (strtol lb 0 (trim V) % 4294967296).toNat)
      ∧ ∀ st : Pass2, ∃ st', second_pass_line lb labels st buf = .ok st'
          ∧ st'.imemin = st.imemin ∧ st'.current_address = st.current_address := by
  constructor
  · unfold second_pass at hrun
    rw [hlines] at hrun
    cases hl : second_pass_loop lb labels pass2_init (pre ++ buf :: post) with
    | error e => rw [hl] at hrun; cases hrun
    | ok st =>
      rw [hl] at hrun
      simp only [Except.ok.injEq, Prod.mk.injEq] at hrun
      obtain ⟨st1, st2, _, e2, e3⟩ := second_pass_loop_split lb labels buf post pre _ _ hl
      rw [second_pass_line_word lb labels st1 buf t0 A V rest hword htok haddr] at e2
      simp only [Except.ok.injEq] at e2
      obtain ⟨k1, k2⟩ := second_pass_loop_keeps lb labels (strtol lb 0 A) haddr.1 post st2 st
        hlater e3
      have hmax : strtol lb 0 A ≤ st2.max_dmem_address := by
        rw [← e2]
        simp only
        split_ifs <;> omega
      have hval : st2.dmem (strtol lb 0 A).toNat = toInt32 (strtol lb 0 (trim V)) := by
        rw [← e2]
        simp only [if_true]
      have hidx : (((strtol lb 0 A).toNat : Nat) : Int) ≤ st.max_dmem_address := by
        have := haddr.1
        omega
      rw [← hrun.2, data_image_line st _ hidx, k1, hval, fmtX_word]
  · intro st
    exact ⟨_, second_pass_line_word lb labels st buf t0 A V rest hword htok haddr, rfl, rfl⟩

/-- C7: the data image has 65 lines, not 64, when the program has no `.word` line or only
`.word` lines below address 64: `max_dmem_address` starts at 64 and the loop that prints
the image runs through it inclusive.  With a `.word` at address 100 it has 101 lines. -/
theorem data_image_has_65_lines :
    (second_pass 64 [] []).map (fun r => r.2.length) = .ok 65
      ∧ (second_pass 64 ".word 10 5\n".toList []).map (fun r => r.2.length) = .ok 65
      ∧ (second_pass 64 ".word 100 0xDEAD\n".toList []).map (fun r => r.2.length) = .ok 101 := by
  refine ⟨by rfl, by rfl, by rfl⟩


/-! ## Second pass: label immediates (C9) -/

theorem char_eq_of_toNat (c : Char) (n : Nat) (h : c.toNat = n) : c = Char.ofNat n := by
  rw [← h]
  exact (Char.ofNat_toNat c).symm

/-- The `isdigit` of the assembler accepts the decimal digits. -/
theorem is_decimal_digit_eq (c : Char) : is_decimal_digit c = isdigit c := by
  unfold is_decimal_digit isdigit
  rfl

/-- The `isspace` of the assembler accepts the white space characters. -/
theorem is_blank_eq (c : Char) : is_blank c = isspace c := by
  unfold is_blank isspace
  by_cases h : c.toNat = 32 ∨ (9 ≤ c.toNat ∧ c.toNat ≤ 13)
  · have hc : c = ' ' ∨ c = '\t' ∨ c = '\n' ∨ c = '\x0b' ∨ c = '\x0c' ∨ c = '\r' := by
      rcases h with h | ⟨h1, h2⟩
      · exact Or.inl (char_eq_of_toNat c 32 h)
      · have : c.toNat = 9 ∨ c.toNat = 10 ∨ c.toNat = 11 ∨ c.toNat = 12 ∨ c.toNat = 13 := by
          omega
        rcases this with h | h | h | h | h
        · exact Or.inr (Or.inl (char_eq_of_toNat c 9 h))
        · exact Or.inr (Or.inr (Or.inl (char_eq_of_toNat c 10 h)))
        · exact Or.inr (Or.inr (Or.inr (Or.inl (char_eq_of_toNat c 11 h))))
        · exact Or.inr (Or.inr (Or.inr (Or.inr (Or.inl (char_eq_of_toNat c 12 h)))))
        · exact Or.inr (Or.inr (Or.inr (Or.inr (Or.inr (char_eq_of_toNat c 13 h)))))
    rcases hc with h | h | h | h | h | h <;> subst h <;> rfl
  · have h1 : ¬ c.toNat = 32 := fun e => h (Or.inl e)
    have h2 : ¬ (9 ≤ c.toNat ∧ c.toNat ≤ 13) := fun e => h (Or.inr e)
    have e : ∀ d : Char, (d.toNat = 32 ∨ (9 ≤ d.toNat ∧ d.toNat ≤ 13)) → c ≠ d := by
      intro d hd hcd
      rw [hcd] at h
      exact h hd
    simp [h1, e ' ' (by decide), e '\t' (by decide), e '\n' (by decide), e '\x0b' (by decide),
      e '\x0c' (by decide), e '\r' (by decide)]
    omega

/-- Cutting a line at its first `#` removes the comment. -/
theorem strip_comment_eq (x : List Char) : strip_comment x = without_comment x := by
  unfold strip_comment
  induction x with
  | nil => rfl
  | cons c rest ih =>
    by_cases h : c = '#'
    · subst h
      rfl
    · rw [List.takeWhile_cons_of_pos (by simpa using h), ih]
      simp only [without_comment, if_neg h]

theorem dropWhile_isspace_eq (x : List Char) : x.dropWhile isspace = drop_blanks x := by
  induction x with
  | nil => rfl
  | cons c rest ih =>
    by_cases h : isspace c = true
    · rw [List.dropWhile_cons_of_pos h, ih]
      simp only [drop_blanks, is_blank_eq, h, if_true]
    · rw [List.dropWhile_cons_of_neg h]
      simp only [drop_blanks, is_blank_eq, h]
      rfl

/-- The function `trim` removes the white space at the two ends. -/
theorem trim_eq (x : List Char) : trim x = stripped x := by
  unfold trim stripped
  rw [dropWhile_isspace_eq, dropWhile_isspace_eq]

/-- A buffer without NUL is read as a whole. -/
theorem cstr_of_no_nul (buf : List Char) (h : Char.ofNat 0 ∉ buf) : cstr buf = buf := by
  unfold cstr
  rw [List.takeWhile_eq_self_iff]
  intro c hc
  have : c ≠ Char.ofNat 0 := fun e => h (e ▸ hc)
  simpa using this

/-- The text both passes work on is what the line says. -/
theorem clean_line_eq (buf : List Char) (h : Char.ofNat 0 ∉ buf) :
    clean_line buf = line_text buf := by
  unfold clean_line line_text
  rw [cstr_of_no_nul buf h, strip_comment_eq, trim_eq]

theorem takeWhile_colon_eq (x : List Char) :
    x.takeWhile (fun c => c ≠ ':') = before_colon x := by
  induction x with
  | nil => rfl
  | cons c rest ih =>
    by_cases h : c = ':'
    · subst h
      rfl
    · rw [List.takeWhile_cons_of_pos (by simpa using h), ih]
      simp only [before_colon, if_neg h]

theorem after_colon_eq (x : List Char) :
    after_colon x = if ':' ∈ x then some (x.dropWhile (fun c => c ≠ ':')).tail else none := by
  induction x with
  | nil => rfl
  | cons c rest ih =>
    by_cases h : c = ':'
    · subst h
      simp [after_colon]
    · have h' : ¬ ':' = c := fun e => h e.symm
      rw [List.dropWhile_cons_of_pos (by simpa using h)]
      simp only [after_colon, if_neg h, ih, List.mem_cons, h', false_or]

theorem has_word_eq (t : List Char) : has_word t = strstr t ".word".toList := by
  unfold has_word
  by_cases h : ".word".toList <:+: t
  · rw [decide_eq_true h, (strstr_iff t _).2 h]
  · rw [decide_eq_false h]
    cases hs : strstr t ".word".toList with
    | false => rfl
    | true => exact absurd ((strstr_iff t _).1 hs) h

/-- The lines the first pass counts are the instruction lines. -/
theorem is_instruction_line_eq (buf : List Char) (h : Char.ofNat 0 ∉ buf) :
    is_instruction_line buf = instruction_line buf := by
  unfold is_instruction_line instruction_line after_label
  rw [clean_line_eq buf h, has_word_eq, after_colon_eq]
  by_cases hc : ':' ∈ line_text buf
  · simp only [if_pos hc, trim_eq]
  · simp only [if_neg hc]
    cases decide (line_text buf ≠ []) <;> cases strstr (line_text buf) ".word".toList <;> rfl

/-- The label the first pass reads off a line is the label the line defines. -/
theorem label_of_line_eq (buf : List Char) (h : Char.ofNat 0 ∉ buf) :
    label_of_line buf = line_label buf := by
  unfold label_of_line line_label
  rw [clean_line_eq buf h, has_word_eq, takeWhile_colon_eq, trim_eq]

theorem source_lines_from_long (c : Char) : ∀ (rest cur : List Char),
    ∃ l ∈ source_lines_from (c :: rest) cur, cur.length + 1 ≤ l.length := by
  intro rest
  induction rest generalizing c with
  | nil =>
    intro cur
    by_cases h : c = '\n'
    · exact ⟨(c :: cur).reverse, by simp [source_lines_from, h], by simp⟩
    · exact ⟨(c :: cur).reverse, by simp [source_lines_from, h], by simp⟩
  | cons d rest ih =>
    intro cur
    by_cases h : c = '\n'
    · refine ⟨(c :: cur).reverse, ?_, by simp⟩
      rw [source_lines_from, if_pos h]
      exact List.mem_cons_self _ _
    · obtain ⟨l, hl, hlen⟩ := ih d (c :: cur)
      refine ⟨l, ?_, ?_⟩
      · rw [source_lines_from, if_neg h]
        exact hl
      · simp only [List.length_cons] at hlen
        omega

theorem fgetsAux_eq (size : Nat) : ∀ (input cur : List Char),
    (∀ l ∈ source_lines_from input cur, l.length < size) →
    fgetsAux size input cur cur.length = source_lines_from input cur := by
  intro input
  induction input with
  | nil => intro cur _; rfl
  | cons c rest ih =>
    intro cur H
    obtain ⟨l0, hl0, hlen0⟩ := source_lines_from_long c rest cur
    have hsz := H l0 hl0
    by_cases h : c = '\n'
    · rw [source_lines_from, if_pos h] at H ⊢
      rw [fgetsAux, if_pos (Or.inl h)]
      congr 1
      exact ih [] (fun l hl => H l (List.mem_cons_of_mem _ hl))
    · rw [source_lines_from, if_neg h] at H ⊢
      by_cases h2 : cur.length + 2 = size
      · rw [fgetsAux, if_pos (Or.inr h2)]
        cases rest with
        | nil => rfl
        | cons d rest =>
          obtain ⟨l, hl, hlen⟩ := source_lines_from_long d rest (c :: cur)
          have := H l hl
          simp only [List.length_cons] at hlen
          omega
      · rw [fgetsAux, if_neg (by rintro (h' | h'); exact h h'; exact h2 h')]
        exact ih (c :: cur) H

/-- When every line of a text has fewer than `MAX_LINE_LENGTH` bytes, its newline
included, the buffers `fgets` fills are the lines of the text. -/
theorem fgets_lines_eq (text : List Char)
    (h : ∀ l ∈ source_lines text, l.length < MAX_LINE_LENGTH) :
    fgets_lines MAX_LINE_LENGTH text = source_lines text :=
  fgetsAux_eq MAX_LINE_LENGTH text [] h

theorem source_lines_from_mem : ∀ (input cur : List Char),
    ∀ l ∈ source_lines_from input cur, ∀ x ∈ l, x ∈ input ∨ x ∈ cur := by
  intro input
  induction input with
  | nil =>
    intro cur l hl x hx
    unfold source_lines_from at hl
    split_ifs at hl
    · cases hl
    · simp only [List.mem_singleton] at hl
      subst hl
      exact Or.inr (List.mem_reverse.1 hx)
  | cons c rest ih =>
    intro cur l hl x hx
    unfold source_lines_from at hl
    split_ifs at hl
    · rcases List.mem_cons.1 hl with e | hl'
      · subst e
        rcases List.mem_cons.1 (List.mem_reverse.1 hx) with e | e
        · exact Or.inl (e ▸ List.mem_cons_self _ _)
        · exact Or.inr e
      · rcases ih [] l hl' x hx with e | e
        · exact Or.inl (List.mem_cons_of_mem _ e)
        · cases e
    · rcases ih (c :: cur) l hl x hx with e | e
      · exact Or.inl (List.mem_cons_of_mem _ e)
      · rcases List.mem_cons.1 e with e | e
        · exact Or.inl (e ▸ List.mem_cons_self _ _)
        · exact Or.inr e

/-- A line of a text without NUL has no NUL. -/
theorem source_lines_no_nul (text : List Char) (h : Char.ofNat 0 ∉ text) :
    ∀ l ∈ source_lines text, Char.ofNat 0 ∉ l := by
  intro l hl hx
  rcases source_lines_from_mem text [] l hl _ hx with e | e
  · exact h e
  · cases e

theorem strtokAux_eq (seps : List Char) : ∀ (s cur : List Char),
    strtokAux seps s cur
      = (((s.splitOnP (fun c => decide (c ∈ seps))).modifyHead (fun f => cur.reverse ++ f)).filter
          (fun f => decide (f ≠ []))) := by
  intro s
  induction s with
  | nil =>
    intro cur
    unfold strtokAux
    by_cases h : cur = []
    · subst h
      rfl
    · rw [if_neg h]
      simp [List.splitOnP_nil, List.modifyHead, h]
  | cons c rest ih =>
    intro cur
    unfold strtokAux
    rw [List.splitOnP_cons]
    by_cases hc : c ∈ seps
    · rw [if_pos hc]
      simp only [hc, decide_True, if_true, List.modifyHead, List.append_nil]
      have hrest : strtokAux seps rest []
          = (rest.splitOnP (fun c => decide (c ∈ seps))).filter (fun f => decide (f ≠ [])) := by
        rw [ih []]
        congr 1
        cases rest.splitOnP (fun c => decide (c ∈ seps)) with
        | nil => rfl
        | cons a l => rfl
      by_cases h : cur = []
      · subst h
        rw [if_pos rfl, hrest]
        rfl
      · rw [if_neg h, hrest]
        simp [h]
    · rw [if_neg hc, ih (c :: cur)]
      simp only [hc, decide_False, Bool.false_eq_true, if_false]
      congr 1
      cases rest.splitOnP (fun c => decide (c ∈ seps)) with
      | nil => rfl
      | cons a l => simp [List.modifyHead]

/-- The tokens `strtok` returns are the fields of the text. -/
theorem strtok_all_eq (seps : List Char) (t : List Char) :
    strtok_all seps t = fields seps t := by
  unfold strtok_all fields
  rw [strtokAux_eq]
  congr 1
  cases t.splitOnP (fun c => decide (c ∈ seps)) with
  | nil => rfl
  | cons a l => rfl

/-! ## Mnemonics, registers and numeric literals as the assembler reads them -/

/-- A mnemonic of the specification is in the table of `get_opcode_number`, at its
number, and fits the opcode buffer. -/
theorem mnemonic_number_spec (tok : List Char) (o : Nat) (h : mnemonic_number tok = some o) :
    get_opcode_number tok = (o : Int) ∧ tok.take 5 = tok ∧ tok ≠ [] ∧ o ≤ 21 := by
  unfold mnemonic_number at h
  split_ifs at h with hm
  simp only [Option.some.injEq] at h
  subst h
  simp only [mnemonics, List.mem_cons, List.mem_singleton, List.not_mem_nil, or_false] at hm
  rcases hm with e | e | e | e | e | e | e | e | e | e | e | e | e | e | e | e | e | e | e
    | e | e | e <;> subst e <;> exact ⟨by rfl, by rfl, by decide, by decide⟩

theorem isdigit_of_decimal (ds : List Char) (h : ds.all is_decimal_digit = true) :
    ds.all isdigit = true := by
  rw [← h]
  congr 1

theorem strtol_digits_foldl (ds : CStr) (h : ds.all isdigit = true) :
    strtol_digits 10 ds 0 = decimal_value ds :=
  strtol_digits_decimal ds 0 h

/-- The reading of `strtol` in base 10 of a string of decimal digits of value at most 15. -/
theorem atoi_small (lb : Nat) (hlb : 32 ≤ lb) (c : Char) (rest : CStr)
    (hall : (c :: rest).all isdigit = true) (hv : decimal_value (c :: rest) ≤ 15) :
    atoi lb (c :: rest) = (decimal_value (c :: rest) : Int) := by
  have hc : isdigit c = true := by
    simp only [List.all_cons, Bool.and_eq_true] at hall
    exact hall.1
  obtain ⟨hsp, hm, hp, _, _⟩ := isdigit_facts c hc
  have hdig := strtol_digits_foldl (c :: rest) hall
  have hdrop : List.dropWhile isspace (c :: rest) = c :: rest :=
    List.dropWhile_cons_of_neg (by rw [hsp]; exact Bool.false_ne_true)
  have hm' : (c = '-') = False := eq_false hm
  have hp' : (c = '+') = False := eq_false hp
  have hpow : (2 : Int) ^ 31 ≤ 2 ^ (lb - 1) :=
    pow_le_pow_right₀ (by norm_num) (by omega)
  have hv' : (decimal_value (c :: rest) : Int) ≤ 15 := by exact_mod_cast hv
  have hnn : (0 : Int) ≤ (decimal_value (c :: rest) : Int) := Int.natCast_nonneg _
  unfold atoi strtol
  simp only [hdrop, List.head?_cons, Option.some.injEq, hm', hp', or_self, if_false,
    OfNat.ofNat_ne_zero, false_and, false_or, hdig, Nat.reduceEqDiff]
  rw [if_neg (by omega), if_neg (by omega)]
  exact toInt32_of_range _ (by omega) (by omega)

/-- A register token of the specification that fits the register buffer has its number
in `get_register_number`. -/
theorem register_number_spec (lb : Nat) (hlb : 32 ≤ lb) (tok : List Char) (d : Nat)
    (h : register_number tok = some d) :
    get_register_number lb tok = (d : Int) ∧ d ≤ 15 := by
  unfold register_number at h
  split_ifs at h with hm hn
  · simp only [Option.some.injEq] at h
    subst h
    simp only [register_names, List.mem_cons, List.mem_singleton, List.not_mem_nil,
      or_false] at hm
    rcases hm with e | e | e | e | e | e | e | e | e | e | e | e | e | e | e | e <;>
      subst e <;> exact ⟨by rfl, by decide⟩
  · simp only [Option.some.injEq] at h
    subst h
    obtain ⟨h1, h2, h3, h4⟩ := hn
    cases tok with
    | nil => cases h1
    | cons c0 ds =>
      simp only [List.head?_cons, Option.some.injEq] at h1
      subst h1
      simp only [List.tail_cons] at h2 h3 h4 ⊢
      cases ds with
      | nil => exact absurd rfl h2
      | cons c rest =>
        have hall := isdigit_of_decimal _ h3
        have hc : isdigit c = true := by
          simp only [List.all_cons, Bool.and_eq_true] at hall
          exact hall.1
        obtain ⟨_, hm', _, _, _⟩ := isdigit_facts c hc
        have hnot : ('$' :: c :: rest) ∉ registers := by
          intro hin
          have hc' : 48 ≤ c.toNat ∧ c.toNat ≤ 57 := by simpa [isdigit] using hc
          simp only [registers, List.mem_cons, List.mem_singleton, List.not_mem_nil,
            or_false] at hin
          rcases hin with e | e | e | e | e | e | e | e | e | e | e | e | e | e | e | e <;>
            · have e1 := (List.cons.inj (List.cons.inj e).2).1
              rw [e1] at hc'
              revert hc'
              decide
        have hidx : ¬ registers.indexOf ('$' :: c :: rest) < 16 := by
          intro hlt
          unfold List.indexOf at hlt
          obtain ⟨x, hx, hxe⟩ := List.findIdx_lt_length.1 (show List.findIdx _ registers
            < registers.length from hlt)
          exact hnot ((eq_of_beq hxe) ▸ hx)
        have hnum : is_number (c :: rest) = true := by
          unfold is_number
          have hx : ¬ ((c :: rest).tail.head? = some 'x' ∨ (c :: rest).tail.head? = some 'X') := by
            cases rest with
            | nil => simp
            | cons c2 rest2 =>
              simp only [List.all_cons, Bool.and_eq_true] at hall
              have hc2 : 48 ≤ c2.toNat ∧ c2.toNat ≤ 57 := by simpa [isdigit] using hall.2.1
              simp only [List.tail_cons, List.head?_cons, Option.some.injEq]
              rintro (e | e) <;>
                · rw [e] at hc2
                  revert hc2
                  decide
          simp only [List.head?_cons, Option.some.injEq, hm', if_false, reduceCtorEq]
          rw [if_neg (fun hh => hx hh.2)]
          exact hall
        have hat := atoi_small lb hlb c rest hall h4
        unfold get_register_number
        rw [if_neg (by simp), if_neg hidx]
        simp only [List.head?_cons, List.tail_cons, hnum, and_self, if_true, hat]
        rw [if_pos ⟨Int.natCast_nonneg _, by exact_mod_cast h4⟩]
        exact ⟨rfl, h4⟩

/-- A hexadecimal digit of the specification is one for `isxdigit` and `strtol`, with
the same value. -/
theorem hex_digit_spec (c : Char) (d : Nat) (h : hex_digit c = some d) :
    isxdigit c = true ∧ digitVal c = d ∧ d < 16 := by
  unfold hex_digit at h
  split_ifs at h with h1 h2
  · simp only [Option.some.injEq] at h
    subst h
    simp only [String.toList, List.mem_cons, List.mem_singleton, List.not_mem_nil,
      or_false] at h1
    rcases h1 with e | e | e | e | e | e | e | e | e | e | e | e | e | e | e | e <;>
      subst e <;> exact ⟨by rfl, by rfl, by decide⟩
  · simp only [Option.some.injEq] at h
    subst h
    simp only [String.toList, List.mem_cons, List.mem_singleton, List.not_mem_nil,
      or_false] at h2
    rcases h2 with e | e | e | e | e | e <;>
      subst e <;> exact ⟨by rfl, by rfl, by decide⟩

/-- A string of hexadecimal digits is read by `strtol` with its value. -/
theorem hex_value_spec : ∀ (ds : List Char) (acc n : Nat), hex_value ds acc = some n →
    strtol_digits 16 ds acc = n ∧ ds.all isxdigit = true := by
  intro ds
  induction ds with
  | nil =>
    intro acc n h
    simp only [hex_value, Option.some.injEq] at h
    exact ⟨h, rfl⟩
  | cons c rest ih =>
    intro acc n h
    unfold hex_value at h
    cases hd : hex_digit c with
    | none => rw [hd] at h; cases h
    | some d =>
      rw [hd] at h
      obtain ⟨h1, h2, h3⟩ := hex_digit_spec c d hd
      obtain ⟨i1, i2⟩ := ih _ n h
      refine ⟨?_, ?_⟩
      · unfold strtol_digits
        rw [h2, if_pos h3]
        exact i1
      · simp only [List.all_cons, h1, i2, Bool.and_self]

/-- The function `strtol` in base 0 on a text that starts with neither white space nor
a sign, and on the same text after a minus sign, when the value fits a `long`. -/
theorem strtol_base0 (lb : Nat) (c : Char) (rest : CStr) (mag : Nat)
    (hsp : isspace c = false) (hm : c ≠ '-') (hp : c ≠ '+')
    (hmag : (if (c :: rest).head? = some '0' ∧ ((c :: rest).tail.head? = some 'x'
                ∨ (c :: rest).tail.head? = some 'X') then
              strtol_digits 16 ((c :: rest).drop 2) 0
            else if (c :: rest).head? = some '0' then strtol_digits 8 (c :: rest) 0
            else strtol_digits 10 (c :: rest) 0) = mag) :
    ((mag : Int) ≤ 2 ^ (lb - 1) - 1 → strtol lb 0 (c :: rest) = (mag : Int))
      ∧ ((mag : Int) ≤ 2 ^ (lb - 1) → strtol lb 0 ('-' :: c :: rest) = -(mag : Int)) := by
  have hpow : (0 : Int) < 2 ^ (lb - 1) := by positivity
  have hnn : (0 : Int) ≤ (mag : Int) := Int.natCast_nonneg _
  have hdrop : List.dropWhile isspace (c :: rest) = c :: rest :=
    List.dropWhile_cons_of_neg (by rw [hsp]; exact Bool.false_ne_true)
  have hdropm : List.dropWhile isspace ('-' :: c :: rest) = '-' :: c :: rest :=
    List.dropWhile_cons_of_neg (by decide)
  have hm' : (c = '-') = False := eq_false hm
  have hp' : (c = '+') = False := eq_false hp
  constructor
  · intro hfit
    unfold strtol
    simp only [hdrop, List.head?_cons, Option.some.injEq, hm', hp', or_self, if_false,
      true_or, true_and]
    simp only [List.head?_cons, Option.some.injEq] at hmag
    by_cases hx : c = '0' ∧ (rest.head? = some 'x' ∨ rest.head? = some 'X')
    · simp only [List.tail_cons] at hmag ⊢
      rw [if_pos hx] at hmag ⊢
      rw [hmag, if_neg (by omega), if_neg (by omega)]
    · simp only [List.tail_cons] at hmag ⊢
      rw [if_neg hx] at hmag ⊢
      by_cases h0 : c = '0'
      · rw [if_pos h0] at hmag ⊢
        rw [hmag, if_neg (by omega), if_neg (by omega)]
      · rw [if_neg h0] at hmag ⊢
        simp only [if_true]
        rw [hmag, if_neg (by omega), if_neg (by omega)]
  · intro hfit
    unfold strtol
    simp only [hdropm, List.head?_cons, List.tail_cons, true_or, if_true, Option.some.injEq,
      true_and]
    simp only [List.head?_cons, Option.some.injEq, List.tail_cons] at hmag
    by_cases hx : c = '0' ∧ (rest.head? = some 'x' ∨ rest.head? = some 'X')
    · rw [if_pos hx] at hmag ⊢
      rw [hmag, if_neg (by omega), if_neg (by omega)]
    · rw [if_neg hx] at hmag ⊢
      by_cases h0 : c = '0'
      · rw [if_pos h0] at hmag ⊢
        rw [hmag, if_neg (by omega), if_neg (by omega)]
      · rw [if_neg h0] at hmag ⊢
        rw [hmag, if_neg (by omega), if_neg (by omega)]

theorem is_number_hex (x : Char) (ds : List Char) (hx : x = 'x' ∨ x = 'X')
    (hall : ds.all isxdigit = true) :
    is_number ('0' :: x :: ds) = true ∧ is_number ('-' :: '0' :: x :: ds) = true := by
  have hx' : (some x = some 'x' ∨ some x = some 'X') := by
    rcases hx with e | e <;> subst e <;> simp
  constructor
  · unfold is_number
    simp only [List.head?_cons, List.tail_cons, reduceCtorEq, if_false, Option.some.injEq,
      true_and, List.drop_succ_cons, List.drop_zero]
    rw [if_pos (by simpa using hx')]
    exact hall
  · unfold is_number
    simp only [List.head?_cons, List.tail_cons, reduceCtorEq, if_false, if_true, true_and,
      List.drop_succ_cons, List.drop_zero]
    rw [if_pos (by simpa using hx')]
    exact hall

/-- A numeric literal without sign is one for `is_number`, with or without a minus
sign before it, and `strtol` reads its value in base 0. -/
theorem natural_literal_spec (u : List Char) (n : Nat) (h : natural_literal u = some n) :
    ∃ c rest, u = c :: rest ∧ isspace c = false ∧ c ≠ '-' ∧ c ≠ '+' ∧ c ≠ '$'
      ∧ (if (c :: rest).head? = some '0' ∧ ((c :: rest).tail.head? = some 'x'
              ∨ (c :: rest).tail.head? = some 'X') then
            strtol_digits 16 ((c :: rest).drop 2) 0
          else if (c :: rest).head? = some '0' then strtol_digits 8 (c :: rest) 0
          else strtol_digits 10 (c :: rest) 0) = n
      ∧ is_number (c :: rest) = true ∧ is_number ('-' :: c :: rest) = true := by
  unfold natural_literal at h
  split_ifs at h with h1 h2 h3 h4
  · -- hexadecimal
    cases u with
    | nil => simp at h1
    | cons a u1 =>
      cases u1 with
      | nil => simp at h1
      | cons b ds =>
        simp only [List.take_succ_cons, List.take_zero, String.toList, List.cons.injEq,
          and_true] at h1
        simp only [List.drop_succ_cons, List.drop_zero] at h h2
        have ha : a = '0' := by
          rcases h1 with e | e <;> exact e.1
        have hb : b = 'x' ∨ b = 'X' := by
          rcases h1 with e | e
          · exact Or.inl e.2
          · exact Or.inr e.2
        subst ha
        obtain ⟨i1, i2⟩ := hex_value_spec ds 0 n h
        obtain ⟨n1, n2⟩ := is_number_hex b ds hb i2
        refine ⟨'0', b :: ds, rfl, by decide, by decide, by decide, by decide, ?_, n1, n2⟩
        have hb' : (some b = some 'x' ∨ some b = some 'X') := by
          rcases hb with e | e <;> subst e <;> simp
        simp only [List.head?_cons, List.tail_cons, true_and, List.drop_succ_cons,
          List.drop_zero]
        rw [if_pos hb']
        exact i1
  · -- the digit 0
    simp only [Option.some.injEq] at h
    subst h
    subst h3
    exact ⟨'0', [], rfl, by decide, by decide, by decide, by decide, by rfl, by rfl, by rfl⟩
  · -- decimal digits
    simp only [Option.some.injEq] at h
    obtain ⟨g1, g2, g3⟩ := h4
    cases u with
    | nil => exact absurd rfl g1
    | cons c rest =>
      have hall := isdigit_of_decimal _ g3
      have hc : isdigit c = true := by
        simp only [List.all_cons, Bool.and_eq_true] at hall
        exact hall.1
      have h0 : c ≠ '0' := by
        intro e
        apply g2
        rw [e]
        rfl
      obtain ⟨hsp, hm, hp, _, _⟩ := isdigit_facts c hc
      have hd : c ≠ '$' := by
        intro e
        rw [e] at hc
        revert hc
        decide
      obtain ⟨n1, n2⟩ := is_number_decimal c rest hall h0
      refine ⟨c, rest, rfl, hsp, hm, hp, hd, ?_, n1, n2⟩
      have h0' : ¬ (some c = some '0') := by simpa using h0
      simp only [List.head?_cons]
      rw [if_neg (fun hh => h0' hh.1), if_neg h0', strtol_digits_foldl _ hall]
      exact h

/-- A numeric literal of the specification whose value fits a `long` is a number for
`is_number`, does not start with `$`, and `strtol` reads its value in base 0. -/
theorem literal_value_spec (lb : Nat) (t : List Char) (a : Int) (h : literal_value t = some a)
    (h0 : -(2 ^ (lb - 1) : Int) ≤ a) (h1 : a ≤ 2 ^ (lb - 1) - 1) :
    is_number t = true ∧ t.head? ≠ some '$' ∧ strtol lb 0 t = a := by
  unfold literal_value at h
  split_ifs at h with hneg
  · cases t with
    | nil => cases hneg
    | cons m u =>
      simp only [List.head?_cons, Option.some.injEq] at hneg
      subst hneg
      simp only [List.tail_cons] at h
      cases hn : natural_literal u with
      | none => rw [hn] at h; cases h
      | some n =>
        rw [hn] at h
        have ha : -(n : Int) = a := by simpa using h
        obtain ⟨c, rest, e, hsp, hm, hp, _, hmag, _, n2⟩ := natural_literal_spec u n hn
        subst e
        refine ⟨n2, by simp, ?_⟩
        rw [← ha]
        exact (strtol_base0 lb c rest n hsp hm hp hmag).2 (by omega)
  · cases hn : natural_literal t with
    | none => rw [hn] at h; cases h
    | some n =>
      rw [hn] at h
      have ha : (n : Int) = a := by simpa using h
      obtain ⟨c, rest, e, hsp, hm, hp, hd, hmag, n1, _⟩ := natural_literal_spec t n hn
      subst e
      refine ⟨n1, by simpa using hd, ?_⟩
      rw [← ha]
      exact (strtol_base0 lb c rest n hsp hm hp hmag).1 (by omega)

/-! ## First pass: label addresses (C5) -/

/-- On a text without NUL whose lines fit the buffer, `first_pass` runs its loop over
the lines of the text, and what the loop computes on each line is what the notions of
the specification say of it. -/
theorem first_pass_on_lines (input : List Char) (hnul : Char.ofNat 0 ∉ input)
    (hfit : ∀ l ∈ source_lines input, l.length < MAX_LINE_LENGTH) :
    fgets_lines MAX_LINE_LENGTH input = source_lines input
      ∧ (∀ l ∈ source_lines input, label_of_line l = line_label l)
      ∧ (∀ pre l post, source_lines input = pre ++ l :: post →
          pre.countP is_instruction_line = pre.countP instruction_line) := by
  have hno := source_lines_no_nul input hnul
  refine ⟨fgets_lines_eq input hfit, fun l hl => label_of_line_eq l (hno l hl), ?_⟩
  intro pre l post e
  apply List.countP_congr
  intro x hx
  rw [is_instruction_line_eq x (hno x (by rw [e]; exact List.mem_append_left _ hx))]

/-- A label line on which the iteration of `first_pass` is defined: the text before the
colon has fewer than `MAX_LABEL_LENGTH - 1` bytes and the instruction after the colon,
trimmed, is not longer than the text before the colon. -/
theorem label_line_defined (l : List Char) (hnul : Char.ofNat 0 ∉ l)
    (hdef : ∀ name, line_label l = some name →
      (before_colon (line_text l)).length < MAX_LABEL_LENGTH - 1
        ∧ ∀ r, after_colon (line_text l) = some r →
            (stripped r).length ≤ (before_colon (line_text l)).length) :
    ':' ∈ clean_line l → strstr (clean_line l) ".word".toList = false →
      ((clean_line l).takeWhile (fun c => c ≠ ':')).length < MAX_LABEL_LENGTH - 1
        ∧ (after_label (clean_line l)).length
            ≤ ((clean_line l).takeWhile (fun c => c ≠ ':')).length := by
  rw [clean_line_eq l hnul, takeWhile_colon_eq]
  intro hc hw
  have hne : line_text l ≠ [] := by
    intro e
    rw [e] at hc
    cases hc
  have hlab : line_label l = some (stripped (before_colon (line_text l))) := by
    unfold line_label
    rw [if_pos ⟨hne, by rw [has_word_eq]; exact hw, hc⟩]
  obtain ⟨h1, h2⟩ := hdef _ hlab
  refine ⟨h1, ?_⟩
  unfold after_label
  rw [if_pos hc, trim_eq]
  exact h2 _ (by rw [after_colon_eq, if_pos hc])

/-- C5 (amended): let a source text have no NUL byte and lines of fewer than 500 bytes
each, newline included, so that every line fits the buffer of `fgets`.  When
`first_pass` returns, the address recorded for a label equals the number of instruction
lines that precede the label's line (first two parts: every label line records that
address, and nothing else is recorded), where an instruction line is one that, after
removing the comment and trimming, is non-empty, contains no `.word`, and has
non-empty text after any `LABEL:` prefix.  A `.word` line never changes a recorded
address: the text without that line gives the same labels and addresses.  `first_pass`
returns whenever, on each label line, the text before the colon has fewer than 49 bytes
and the instruction after the colon is not longer than the text before it (otherwise
`label_name` is left without terminator or `strcpy` copies between overlapping areas),
and there are fewer than `2^31` lines.  In the program `.word 100 0xDEAD` / `start:` /
`lw ...` / comment / empty line / `exit: halt` / `done:` the labels get the addresses
0, 1 and 2; with `start: lw ...` on one line the copy overlaps and the C execution is
undefined. -/
theorem first_pass_label_addresses (input : List Char) (labels : List Label)
    (hnul : Char.ofNat 0 ∉ input)
    (hfit : ∀ l ∈ source_lines input, l.length < MAX_LINE_LENGTH)
    (h : first_pass input = .ok labels) :
    (∀ (pre : List (List Char)) (line : List Char) (post : List (List Char))
        (name : List Char),
        source_lines input = pre ++ line :: post → line_label line = some name →
        ({ name := name, address := ((pre.countP instruction_line : Nat) : Int) } : Label)
          ∈ labels)
      ∧ (∀ l ∈ labels, ∃ pre line post,
          source_lines input = pre ++ line :: post ∧ line_label line = some l.name
            ∧ l.address = ((pre.countP instruction_line : Nat) : Int))
      ∧ (∀ (other : List Char) (pre post : List (List Char)) (w : List Char),
          Char.ofNat 0 ∉ other → (∀ l ∈ source_lines other, l.length < MAX_LINE_LENGTH) →
          source_lines input = pre ++ w :: post → source_lines other = pre ++ post →
          has_word (line_text w) = true → first_pass other = .ok labels)
      ∧ (∀ text : List Char, Char.ofNat 0 ∉ text →
          (∀ l ∈ source_lines text, l.length < MAX_LINE_LENGTH) →
          (∀ l ∈ source_lines text, ∀ name, line_label l = some name →
            (before_colon (line_text l)).length < MAX_LABEL_LENGTH - 1
              ∧ ∀ r, after_colon (line_text l) = some r →
                  (stripped r).length ≤ (before_colon (line_text l)).length) →
          (source_lines text).length < 2 ^ 31 →
          ∃ ls, first_pass text = .ok ls)
      ∧ first_pass (".word 100 0xDEAD\nstart:\n\tlw $t0, $zero, $imm2, $zero, 0, 100  # load\n"
            ++ "# a comment line\n\nexit: halt\ndone:\n").toList
          = .ok [{ name := "done".toList, address := 2 }, { name := "exit".toList, address := 1 },
              { name := "start".toList, address := 0 }]
      ∧ first_pass (".word 100 0xDEAD\nstart: lw $t0, $zero, $imm2, $zero, 0, 100\n"
            ++ "       halt $zero,$zero,$zero,$zero,0,0\n").toList
          = .error .undefined_behaviour := by
  obtain ⟨hlines, hlab, hcount⟩ := first_pass_on_lines input hnul hfit
  have hspec := first_pass_spec input labels h
  rw [hlines] at hspec
  refine ⟨?_, ?_, ?_, ?_, by rfl, by rfl⟩
  · intro pre line post name hl hn
    rw [hspec, hl, List.mem_reverse]
    have hmem : line ∈ source_lines input := by
      rw [hl]
      exact List.mem_append_right _ (List.mem_cons_self _ _)
    have := mem_pass_labels pre [] post line name (by rw [hlab line hmem]; exact hn)
    rw [List.nil_append, hcount pre line post hl] at this
    exact this
  · intro l hl
    rw [hspec, List.mem_reverse] at hl
    obtain ⟨pre, buf, post, e, hn, ha⟩ := pass_labels_mem _ [] l hl
    have hmem : buf ∈ source_lines input := by
      rw [e]
      exact List.mem_append_right _ (List.mem_cons_self _ _)
    refine ⟨pre, buf, post, e, by rw [← hlab buf hmem]; exact hn, ?_⟩
    rw [ha, List.nil_append, hcount pre buf post e]
  · intro other pre post w hnul' hfit' e e' hw
    have hmem : w ∈ source_lines input := by
      rw [e]
      exact List.mem_append_right _ (List.mem_cons_self _ _)
    have hw' : strstr (clean_line w) ".word".toList = true := by
      rw [clean_line_eq w (source_lines_no_nul input hnul w hmem), ← has_word_eq]
      exact hw
    rw [← h]
    unfold first_pass
    rw [fgets_lines_eq other hfit', hlines, e, e',
      first_pass_loop_skip_word w hw' pre post]
  · intro text hnul' hfit' hdef hlen
    obtain ⟨st', h'⟩ := first_pass_loop_ok (source_lines text)
      { current_address := 0, label_list := [] }
      (fun l hl => label_line_defined l (source_lines_no_nul text hnul' l hl) (hdef l hl)) (by
        show (0 : Int) + _ ≤ INT_MAX
        unfold INT_MAX
        have : (((source_lines text).length : Nat) : Int) < 2 ^ 31 := by
          exact_mod_cast hlen
        omega)
    refine ⟨st'.label_list, ?_⟩
    unfold first_pass
    rw [fgets_lines_eq text hfit', h']

/-- C5 (amended) at the program of the specification with its label on a line of its
own: `done` is recorded with the number of instruction lines before its line, two,
the `.word` line, the comment, the empty line and the two lines that hold only a label
not being counted. -/
theorem first_pass_label_addresses_witness :
    ({ name := "done".toList,
       address := (([".word 100 0xDEAD\n".toList, "start:\n".toList,
          "\tlw $t0, $zero, $imm2, $zero, 0, 100  # load\n".toList, "# a comment line\n".toList,
          "\n".toList, "exit: halt\n".toList].countP instruction_line : Nat) : Int) } : Label)
      ∈ [({ name := "done".toList, address := 2 } : Label),
          { name := "exit".toList, address := 1 }, { name := "start".toList, address := 0 }] :=
  (first_pass_label_addresses
    (".word 100 0xDEAD\nstart:\n\tlw $t0, $zero, $imm2, $zero, 0, 100  # load\n"
      ++ "# a comment line\n\nexit: halt\ndone:\n").toList
    [{ name := "done".toList, address := 2 }, { name := "exit".toList, address := 1 },
      { name := "start".toList, address := 0 }]
    (by decide) (by decide) (by rfl)).1
    [".word 100 0xDEAD\n".toList, "start:\n".toList,
      "\tlw $t0, $zero, $imm2, $zero, 0, 100  # load\n".toList, "# a comment line\n".toList,
      "\n".toList, "exit: halt\n".toList]
    "done:\n".toList [] "done".toList (by rfl) (by rfl)

set_option maxRecDepth 100000 in
/-- C5 (counterexample): a line longer than the buffer of `fgets` is read in pieces and
its pieces are counted.  The text `long_comment_source` has two lines, a comment of 601
characters, which is no instruction line, and the label line `K:`; no instruction
line precedes the label, and `first_pass` records K at address 1. -/
theorem long_comment_line_is_counted :
    source_lines long_comment_source
        = [('#' :: List.replicate 600 'x' ++ "\n".toList), "K:\n".toList]
      ∧ instruction_line ('#' :: List.replicate 600 'x' ++ "\n".toList) = false
      ∧ line_label "K:\n".toList = some "K".toList
      ∧ first_pass long_comment_source = .ok [{ name := "K".toList, address := 1 }] := by
  refine ⟨by rfl, by decide, by decide, by rfl⟩

/-! ## Second pass: the word emitted for an instruction line (C4) -/

theorem getD_take (toks : List CStr) (i k : Nat) (dflt : CStr) (hd : dflt.take k = dflt) :
    ((toks[i]?).map (List.take k)).getD dflt = (toks.getD i dflt).take k := by
  rw [List.getD_eq_getElem?_getD]
  cases toks[i]? with
  | none => exact hd.symm
  | some t => rfl

/-- The operand buffers of `second_pass` in terms of the fields of the line. -/
theorem parse_operands_fields (line : CStr) (mn : List Char) (ops : List (List Char))
    (h : fields " \t,".toList line = mn :: ops) :
    parse_operands line
      = { opcode := mn.take 5
          rd := (operand (mn :: ops) 1).take 5
          rs := (operand (mn :: ops) 2).take 5
          rt := (operand (mn :: ops) 3).take 5
          rm := (operand (mn :: ops) 4).take 5
          imm1 := (operand (mn :: ops) 5).take 49
          imm2 := (operand (mn :: ops) 6).take 49 } := by
  unfold parse_operands operand
  rw [strtok_all_eq, h]
  simp only [getD_take _ _ 5 "$zero".toList rfl, getD_take _ _ 49 "0".toList rfl]
  simp

/-- On a line that has no `.word` and holds an instruction, after a `LABEL:` prefix no
longer than the text before the colon, `second_pass` goes on to the instruction. -/
theorem second_pass_line_instruction (lb : Nat) (labels : List Label) (st : Pass2)
    (buf : List Char) (hnul : Char.ofNat 0 ∉ buf) (hne : instruction_text buf ≠ [])
    (hword : has_word (line_text buf) = false)
    (hover : ∀ r, after_colon (line_text buf) = some r →
      (stripped r).length ≤ (before_colon (line_text buf)).length) :
    second_pass_line lb labels st buf
      = assemble_instruction lb labels st (instruction_text buf) := by
  have hc := clean_line_eq buf hnul
  unfold clean_line at hc
  unfold instruction_text at hne ⊢
  unfold second_pass_line
  simp only [hc]
  rw [after_colon_eq] at hne hover ⊢
  by_cases hcolon : ':' ∈ line_text buf
  · rw [if_pos hcolon] at hne hover ⊢
    simp only at hne ⊢
    have hlen := hover _ rfl
    have hl : line_text buf ≠ [] := by
      intro e
      rw [e] at hcolon
      cases hcolon
    rw [if_neg hl, ← has_word_eq, hword, if_pos hcolon, trim_eq, if_neg hne,
      takeWhile_colon_eq, if_neg (Nat.not_lt.2 hlen)]
    rfl
  · rw [if_neg hcolon] at hne ⊢
    simp only at hne ⊢
    rw [if_neg hne, ← has_word_eq, hword, if_neg hcolon]
    rfl

theorem take_of_short (t : List Char) (k : Nat) (h : t.length ≤ k) : t.take k = t :=
  List.take_of_length_le h

/-- C4 (amended): let a line without NUL say, once its comment is removed and it is
trimmed, something that has no `.word` and whose instruction, the text after any
`LABEL:` prefix, has as its fields, the pieces between blanks, tabs and commas, a
mnemonic numbered `o` followed by operands; after a prefix let the instruction be no
longer than the text before the colon, so that the `strcpy` of the instruction to the
start of the line does not copy between overlapping areas.  Let operands 1 to 4 be
register tokens of at most 5 bytes numbered `d`, `s`, `t`, `m` and operands 5 and 6
numeric literals of at most 49 bytes with values `a` and `b` that are 32-bit integers,
where an operand omitted at the end of the line counts as `$zero` (registers) or `0`
(immediates).  Then `second_pass` appends to the instruction image exactly the 12
upper-case hex digits of
`o*2^40 + d*2^36 + s*2^32 + t*2^28 + m*2^24 + (a mod 4096)*2^12 + (b mod 4096)` and
advances its address by one.  In particular the assembler emits `007100005000` for
`add $t0, $imm1, $zero, $zero, 5, 0`, and three words for a program with comments,
indentation, mixed separators, omitted operands and a negative and a hexadecimal
literal; `exit: halt` is assembled, and on `L: halt`, where the copy overlaps, the C
execution is undefined. -/
theorem second_pass_emits_encoding (lb : Nat) (labels : List Label) (st : Pass2)
    (buf : List Char) (mn : List Char) (ops : List (List Char)) (o d s t m : Nat) (a b : Int)
    (hlb : 32 ≤ lb) (hnul : Char.ofNat 0 ∉ buf)
    (hword : has_word (line_text buf) = false)
    (hover : ∀ r, after_colon (line_text buf) = some r →
      (stripped r).length ≤ (before_colon (line_text buf)).length)
    (hfields : fields " \t,".toList (instruction_text buf) = mn :: ops)
    (ho : mnemonic_number mn = some o)
    (hd : register_number (operand (mn :: ops) 1) = some d)
    (hd5 : (operand (mn :: ops) 1).length ≤ 5)
    (hs : register_number (operand (mn :: ops) 2) = some s)
    (hs5 : (operand (mn :: ops) 2).length ≤ 5)
    (ht : register_number (operand (mn :: ops) 3) = some t)
    (ht5 : (operand (mn :: ops) 3).length ≤ 5)
    (hm : register_number (operand (mn :: ops) 4) = some m)
    (hm5 : (operand (mn :: ops) 4).length ≤ 5)
    (ha : literal_value (operand (mn :: ops) 5) = some a)
    (ha49 : (operand (mn :: ops) 5).length ≤ 49)
    (har : -2147483648 ≤ a ∧ a ≤ 2147483647)
    (hb : literal_value (operand (mn :: ops) 6) = some b)
    (hb49 : (operand (mn :: ops) 6).length ≤ 49)
    (hbr : -2147483648 ≤ b ∧ b ≤ 2147483647)
    (hca : st.current_address ≠ INT_MAX) :
    second_pass_line lb labels st buf
        = .ok { st with
            imemin := st.imemin ++ [hexFixed 12 (o * 2 ^ 40 + d * 2 ^ 36 + s * 2 ^ 32
              + t * 2 ^ 28 + m * 2 ^ 24 + (a % 4096).toNat * 2 ^ 12 + (b % 4096).toNat)]
            current_address := st.current_address + 1 }
      ∧ (assemble 64 "add $t0, $imm1, $zero, $zero, 5, 0\n".toList).map (fun r => r.1)
          = .ok ["007100005000".toList]
      ∧ (assemble 64 ("# sum and difference\n\tadd $t0, $imm1, $zero, $zero, 5, 0   # t0 = 5\n"
            ++ "   sub $t1,$t0 $imm1\t$15 , -3 0x7F\n\nhalt # stop\n").toList).map
            (fun r => r.1)
          = .ok ["007100005000".toList, "01871FFFD07F".toList, "150000000000".toList]
      ∧ (second_pass_loop 64 [] pass2_init ["exit: halt\n".toList]).map (fun r => r.imemin)
          = .ok ["150000000000".toList]
      ∧ second_pass_line 64 [] pass2_init "L: halt\n".toList = .error .undefined_behaviour := by
  have hpow : (2 : Int) ^ 31 ≤ 2 ^ (lb - 1) :=
    pow_le_pow_right₀ (by norm_num) (by omega)
  have hne : instruction_text buf ≠ [] := by
    intro e
    rw [e] at hfields
    cases hfields
  obtain ⟨o1, o2, o3, _⟩ := mnemonic_number_spec mn o ho
  obtain ⟨d1, _⟩ := register_number_spec lb hlb _ d hd
  obtain ⟨s1, _⟩ := register_number_spec lb hlb _ s hs
  obtain ⟨t1, _⟩ := register_number_spec lb hlb _ t ht
  obtain ⟨m1, _⟩ := register_number_spec lb hlb _ m hm
  obtain ⟨a1, a2, a3⟩ := literal_value_spec lb _ a ha (by omega) (by omega)
  obtain ⟨b1, b2, b3⟩ := literal_value_spec lb _ b hb (by omega) (by omega)
  have hproc := encoding_of_operands lb labels (parse_operands (instruction_text buf))
    o d s t m a b
    (by rw [parse_operands_fields _ mn ops hfields]; simp only [o2]; exact o1)
    (by omega)
    (by rw [parse_operands_fields _ mn ops hfields]; simp only [take_of_short _ 5 hd5]
        exact d1)
    (by omega)
    (by rw [parse_operands_fields _ mn ops hfields]; simp only [take_of_short _ 5 hs5]
        exact s1)
    (by omega)
    (by rw [parse_operands_fields _ mn ops hfields]; simp only [take_of_short _ 5 ht5]
        exact t1)
    (by omega)
    (by rw [parse_operands_fields _ mn ops hfields]; simp only [take_of_short _ 5 hm5]
        exact m1)
    (by omega)
    (by rw [parse_operands_fields _ mn ops hfields]; simp only [take_of_short _ 49 ha49]
        exact a1)
    (by rw [parse_operands_fields _ mn ops hfields]; simp only [take_of_short _ 49 ha49]
        exact a3)
    (by rw [parse_operands_fields _ mn ops hfields]; simp only [take_of_short _ 49 hb49]
        exact b1)
    (by rw [parse_operands_fields _ mn ops hfields]; simp only [take_of_short _ 49 hb49]
        exact b3)
  simp only [Int.toNat_ofNat] at hproc
  refine ⟨?_, by rfl, by rfl, by rfl, by rfl⟩
  rw [second_pass_line_instruction lb labels st buf hnul hne hword hover]
  unfold assemble_instruction incr_address
  rw [hproc]
  simp only [if_neg hca]

/-- C4 (amended) on the line `   sub $t1,$t0 $imm1<tab>$15 , -3  # difference`: an
indented line with mixed separators, a negative literal, an omitted last operand and a
comment is emitted as `01871FFFD000`. -/
theorem second_pass_emits_encoding_witness :
    second_pass_line 64 [] pass2_init "   sub $t1,$t0 $imm1\t$15 , -3  # difference\n".toList
      = .ok { pass2_init with
          imemin := pass2_init.imemin ++ [hexFixed 12 (1 * 2 ^ 40 + 8 * 2 ^ 36 + 7 * 2 ^ 32
            + 1 * 2 ^ 28 + 15 * 2 ^ 24 + ((-3 : Int) % 4096).toNat * 2 ^ 12
            + ((0 : Int) % 4096).toNat)]
          current_address := pass2_init.current_address + 1 } :=
  (second_pass_emits_encoding 64 [] pass2_init
    "   sub $t1,$t0 $imm1\t$15 , -3  # difference\n".toList "sub".toList
    ["$t1".toList, "$t0".toList, "$imm1".toList, "$15".toList, "-3".toList]
    1 8 7 1 15 (-3) 0 (by decide) (by decide) (by decide)
    (by
      intro r hr
      rw [show after_colon (line_text
        "   sub $t1,$t0 $imm1\t$15 , -3  # difference\n".toList) = none from by decide] at hr
      cases hr)
    (by decide)
    (by decide) (by decide) (by decide) (by decide) (by decide) (by decide) (by decide)
    (by decide) (by decide) (by decide) (by decide) (by decide) (by decide) (by decide)
    (by decide) (by decide)).1

/-- C4 (counterexample): a register token longer than the 5 bytes of its buffer is cut
before it is looked up.  The token `$00015` is register 15, for the specification and
for `get_register_number`, and `add $00015, $zero, $zero, $zero, 0, 0` is emitted with
1 in the rd field, as `001000000000` and not as `00F000000000`.  A decimal literal that
starts with 0 is read in base 8: `010` is emitted as 008 in the imm1 field. -/
theorem register_token_is_cut :
    fields " \t,".toList (line_text "add $00015, $zero, $zero, $zero, 0, 0\n".toList)
        = ["add".toList, "$00015".toList, "$zero".toList, "$zero".toList, "$zero".toList,
            "0".toList, "0".toList]
      ∧ mnemonic_number "add".toList = some 0
      ∧ register_number "$00015".toList = some 15
      ∧ get_register_number 64 "$00015".toList = 15
      ∧ register_number "$zero".toList = some 0 ∧ literal_value "0".toList = some 0
      ∧ (second_pass 64 "add $00015, $zero, $zero, $zero, 0, 0\n".toList []).map (fun r => r.1)
          = .ok ["001000000000".toList]
      ∧ hexFixed 12 (0 * 2 ^ 40 + 15 * 2 ^ 36 + 0 * 2 ^ 32 + 0 * 2 ^ 28 + 0 * 2 ^ 24
          + ((0 : Int) % 4096).toNat * 2 ^ 12 + ((0 : Int) % 4096).toNat)
          = "00F000000000".toList
      ∧ decimal_value "010".toList = 10
      ∧ (second_pass 64 "add $zero, $zero, $zero, $zero, 010, 0\n".toList []).map
            (fun r => r.1)
          = .ok ["000000008000".toList] := by
  refine ⟨by decide, by decide, by decide, by rfl, by decide, by rfl, by rfl, by rfl,
    by decide, by rfl⟩

/-! ## Second pass: the data image of a `.word` line (C6) -/

theorem strtokAux_infix (seps : List Char) : ∀ (s cur : List Char),
    ∀ t ∈ strtokAux seps s cur, t <:+: cur.reverse ++ s := by
  intro s
  induction s with
  | nil =>
    intro cur t ht
    unfold strtokAux at ht
    split_ifs at ht
    · cases ht
    · simp only [List.mem_singleton] at ht
      subst ht
      rw [List.append_nil]
  | cons c rest ih =>
    intro cur t ht
    have hrest : ∀ t ∈ strtokAux seps rest [], t <:+: cur.reverse ++ c :: rest := by
      intro t ht
      have h1 : t <:+: rest := by simpa using ih [] t ht
      exact h1.trans ((List.suffix_cons c rest).isInfix.trans
        (List.suffix_append _ _).isInfix)
    unfold strtokAux at ht
    split_ifs at ht with h1 h2
    · exact hrest t ht
    · rcases List.mem_cons.1 ht with e | e
      · subst e
        exact (List.prefix_append _ _).isInfix
      · exact hrest t e
    · have := ih (c :: cur) t ht
      simpa using this

/-- A field of a text is a part of the text. -/
theorem fields_infix (seps t : List Char) (f : List Char) (h : f ∈ fields seps t) :
    f <:+: t := by
  rw [← strtok_all_eq] at h
  simpa using strtokAux_infix seps t [] f h

theorem isxdigit_not_space (c : Char) (h : isxdigit c = true) : isspace c = false := by
  rw [← is_blank_eq]
  unfold is_blank
  simp only [isxdigit, isdigit, Bool.or_eq_true, Bool.and_eq_true, decide_eq_true_eq] at h
  simp only [Bool.or_eq_false_iff, Bool.and_eq_false_iff, decide_eq_false_iff_not]
  omega

theorem all_not_space (p : Char → Bool) (hp : ∀ c, p c = true → isspace c = false)
    (t : List Char) (h : t.all p = true) : ∀ c ∈ t, isspace c = false := by
  intro c hc
  exact hp c (List.all_eq_true.1 h c hc)

/-- A text `is_number` accepts holds no white space. -/
theorem is_number_no_space (t : List Char) (h : is_number t = true) :
    ∀ c ∈ t, isspace c = false := by
  have hdig : ∀ c, isdigit c = true → isspace c = false := fun c hc =>
    isxdigit_not_space c (by simp [isxdigit, hc])
  have key : ∀ s : List Char,
      (if s.head? = some '0' ∧ (s.tail.head? = some 'x' ∨ s.tail.head? = some 'X') then
        (s.drop 2).all isxdigit else s.all isdigit) = true →
      ∀ c ∈ s, isspace c = false := by
    intro s hs
    split_ifs at hs with hx
    · cases s with
      | nil => intro c hc; cases hc
      | cons a s1 =>
        cases s1 with
        | nil => simp at hx
        | cons b s2 =>
          simp only [List.head?_cons, Option.some.injEq, List.tail_cons] at hx
          simp only [List.drop_succ_cons, List.drop_zero] at hs
          intro c hc
          rcases List.mem_cons.1 hc with e | hc
          · rw [e, hx.1]; rfl
          · rcases List.mem_cons.1 hc with e | hc
            · rcases hx.2 with e' | e' <;> rw [e, e'] <;> rfl
            · exact all_not_space _ isxdigit_not_space _ hs c hc
    · exact all_not_space _ hdig _ hs
  by_cases h0 : t = []
  · subst h0
    intro c hc
    cases hc
  unfold is_number at h
  rw [if_neg h0] at h
  dsimp only at h
  by_cases hm : t.head? = some '-'
  · rw [if_pos hm] at h
    cases t with
    | nil => exact absurd rfl h0
    | cons a t1 =>
      simp only [List.head?_cons, Option.some.injEq] at hm
      simp only [List.tail_cons] at h
      intro c hc
      rcases List.mem_cons.1 hc with e | hc
      · rw [e, hm]; rfl
      · exact key t1 h c hc
  · rw [if_neg hm] at h
    exact key t h

theorem drop_blanks_of_head (t : List Char) (h : ∀ c ∈ t, isspace c = false) :
    drop_blanks t = t := by
  cases t with
  | nil => rfl
  | cons a t1 =>
    have := h a (List.mem_cons_self _ _)
    simp only [drop_blanks, is_blank_eq, this]
    rfl

/-- The function `trim` leaves a text without white space as it is. -/
theorem trim_of_no_space (t : List Char) (h : ∀ c ∈ t, isspace c = false) : trim t = t := by
  rw [trim_eq]
  unfold stripped
  rw [drop_blanks_of_head t h, drop_blanks_of_head t.reverse
    (fun c hc => h c (List.mem_reverse.1 hc)), List.reverse_reverse]

/-- C6 (amended): let a source text have no NUL byte and lines of fewer than 500 bytes
each, newline included, and let one of its lines say, once its comment is removed and
it is trimmed, `.word ADDR VAL`: its fields between blanks and tabs are `.word`, a
numeric literal of value ADDR with 0 <= ADDR < 4096 and a numeric literal of value VAL
that fits a `long` (of `lb` bits).  Let every later line that contains `.word` have as
its second field a numeric literal of a value from 0 to 4095 other than ADDR.  If the
second pass emits a data image, its line ADDR (counting from 0) is VAL mod 2^32 written
as 8 zero-padded upper-case hex digits; and on the `.word` line the second pass writes
nothing to the instruction image and leaves its address unchanged. -/
theorem word_directive_data_image (lb : Nat) (labels : List Label) (input : List Char)
    (pre : List (List Char)) (line : List Char) (post : List (List Char))
    (A V : List Char) (rest : List (List Char)) (addr val : Int) (imem dimage : List CStr)
    (hlb : 32 ≤ lb) (hnul : Char.ofNat 0 ∉ input)
    (hfit : ∀ l ∈ source_lines input, l.length < MAX_LINE_LENGTH)
    (hlines : source_lines input = pre ++ line :: post)
    (hfields : fields " \t".toList (line_text line) = ".word".toList :: A :: V :: rest)
    (hA : literal_value A = some addr) (haddr : 0 ≤ addr ∧ addr < 4096)
    (hV : literal_value V = some val)
    (hval : -(2 ^ (lb - 1) : Int) ≤ val ∧ val ≤ 2 ^ (lb - 1) - 1)
    (hlater : ∀ l ∈ post, has_word (line_text l) = true →
      ∃ (A' : List Char) (a' : Int), (fields " \t".toList (line_text l))[1]? = some A'
        ∧ literal_value A' = some a' ∧ 0 ≤ a' ∧ a' < 4096 ∧ a' ≠ addr)
    (hrun : second_pass lb input labels = .ok (imem, dimage)) :
    dimage[addr.toNat]? = some (hexFixed 8 (val % 4294967296).toNat)
      ∧ ∀ st : Pass2, ∃ st', second_pass_line lb labels st line = .ok st'
          ∧ st'.imemin = st.imemin ∧ st'.current_address = st.current_address := by
  have hpow : (2 : Int) ^ 31 ≤ 2 ^ (lb - 1) :=
    pow_le_pow_right₀ (by norm_num) (by omega)
  have hno := source_lines_no_nul input hnul
  have hmem : line ∈ source_lines input := by
    rw [hlines]
    exact List.mem_append_right _ (List.mem_cons_self _ _)
  have hclean := clean_line_eq line (hno line hmem)
  obtain ⟨_, _, eA⟩ := literal_value_spec lb A addr hA (by omega) (by omega)
  obtain ⟨nV, _, eV⟩ := literal_value_spec lb V val hV hval.1 hval.2
  have hword : strstr (clean_line line) ".word".toList = true := by
    rw [hclean, strstr_iff]
    exact fields_infix _ _ _ (by rw [hfields]; exact List.mem_cons_self _ _)
  have htok : strtok_all " \t".toList (clean_line line) = ".word".toList :: A :: V :: rest := by
    rw [hclean, strtok_all_eq, hfields]
  have hlater' : ∀ b ∈ post, word_address lb b ≠ some (strtol lb 0 A) := by
    intro b hb
    have hbm : b ∈ source_lines input := by
      rw [hlines]
      exact List.mem_append_right _ (List.mem_cons_of_mem _ hb)
    unfold word_address
    rw [clean_line_eq b (hno b hbm), ← has_word_eq]
    by_cases hw : has_word (line_text b) = true
    · obtain ⟨A', a', f1, f2, f3, f4, f5⟩ := hlater b hb hw
      obtain ⟨_, _, eA'⟩ := literal_value_spec lb A' a' f2 (by omega) (by omega)
      rw [if_pos hw, strtok_all_eq, f1, eA]
      simp only [Option.map_some', ne_eq, Option.some.injEq, eA']
      rw [toInt32_of_range a' (by omega) (by omega)]
      exact f5
    · rw [if_neg hw]
      exact fun h => Option.noConfusion h
  have hold := word_tokens_data_image lb labels input pre line post ".word".toList A V rest
    imem dimage (by rw [fgets_lines_eq input hfit]; exact hlines) hword htok
    (by rw [eA]; exact haddr) hlater' hrun
  rw [eA, trim_of_no_space V (is_number_no_space V nV), eV] at hold
  exact hold

/-- C6 (amended) at the program of the specification, with its label on a line of its
own, a comment that mentions `.word 100 7` and a second `.word` line for another
address: line 100 of the data image is `0000DEAD`. -/
theorem word_directive_data_image_witness :
    (List.replicate 7 "00000000".toList ++ ["FFFFFFFF".toList]
        ++ List.replicate 92 "00000000".toList ++ ["0000DEAD".toList])[(100 : Int).toNat]?
      = some (hexFixed 8 ((57005 : Int) % 4294967296).toNat) :=
  (word_directive_data_image 64 [{ name := "start".toList, address := 0 }]
    (".word 100 0xDEAD  # data\nstart:\n\tlw $t0, $zero, $imm2, $zero, 0, 100\n"
      ++ "halt\n# .word 100 7\n.word 7 -1\n").toList
    [] ".word 100 0xDEAD  # data\n".toList
    ["start:\n".toList, "\tlw $t0, $zero, $imm2, $zero, 0, 100\n".toList, "halt\n".toList,
      "# .word 100 7\n".toList, ".word 7 -1\n".toList]
    "100".toList "0xDEAD".toList [] 100 57005
    ["107020000064".toList, "150000000000".toList]
    (List.replicate 7 "00000000".toList ++ ["FFFFFFFF".toList]
      ++ List.replicate 92 "00000000".toList ++ ["0000DEAD".toList])
    (by decide) (by decide) (by decide) (by rfl) (by decide) (by decide) (by decide)
    (by decide) (by decide)
    (by
      intro l hl hw
      simp only [List.mem_cons, List.mem_singleton, List.not_mem_nil, or_false] at hl
      rcases hl with e | e | e | e | e
      · subst e; exact absurd hw (by decide)
      · subst e; exact absurd hw (by decide)
      · subst e; exact absurd hw (by decide)
      · subst e; exact absurd hw (by decide)
      · subst e
        exact ⟨"7".toList, 7, by decide, by decide, by decide, by decide, by decide⟩)
    (by rfl)).1

/-- C6 (counterexample): a value that does not fit a `long` is not reduced modulo
2^32.  With a `long` of 64 bits the line `.word 5 0x10000000000000000`, whose value is
2^64 and 0 modulo 2^32, gives `FFFFFFFF` on line 5 of the data image; with a `long` of
32 bits the line `.word 100 0xDEADBEEF` gives `7FFFFFFF` on line 100. -/
theorem word_value_is_clamped :
    fields " \t".toList (line_text ".word 5 0x10000000000000000\n".toList)
        = [".word".toList, "5".toList, "0x10000000000000000".toList]
      ∧ literal_value "5".toList = some 5
      ∧ literal_value "0x10000000000000000".toList = some 18446744073709551616
      ∧ hexFixed 8 ((18446744073709551616 : Int) % 4294967296).toNat = "00000000".toList
      ∧ (second_pass 64 ".word 5 0x10000000000000000\n".toList []).map (fun r => r.2[5]?)
          = .ok (some "FFFFFFFF".toList)
      ∧ literal_value "0xDEADBEEF".toList = some 3735928559
      ∧ hexFixed 8 ((3735928559 : Int) % 4294967296).toNat = "DEADBEEF".toList
      ∧ (second_pass 32 ".word 100 0xDEADBEEF\n".toList []).map (fun r => r.2[100]?)
          = .ok (some "7FFFFFFF".toList) := by
  refine ⟨by decide, by decide, by decide, by rfl, by rfl, by decide, by rfl, by rfl⟩

/-! ## Simulator: register 0 (C10) -/

theorem execute_instruction_r0 (proc p : Processor) (inst : Instruction)
    (h : execute_instruction proc inst = .ok p) : p.registers 0 = 0 := by
  unfold execute_instruction at h
  split_ifs at h
  split at h
  · cases h
  · split_ifs at h <;>
    · simp only [Except.ok.injEq] at h
      subst h
      rfl

theorem handle_disk_registers (proc p : Processor) (h : handle_disk proc = .ok p) :
    p.registers = proc.registers := by
  unfold handle_disk at h
  split_ifs at h
  · split at h
    · cases h
    · simp only [Except.ok.injEq] at h
      subst h
      rfl
  · split at h
    · cases h
    · simp only [Except.ok.injEq] at h
      subst h
      rfl
  · simp only [Except.ok.injEq] at h
    subst h
    rfl
  · simp only [Except.ok.injEq] at h
    subst h
    rfl
  · simp only [Except.ok.injEq] at h
    subst h
    rfl

theorem handle_timer_registers (proc : Processor) :
    (handle_timer proc).registers = proc.registers := by
  unfold handle_timer
  split_ifs <;> rfl

theorem check_interrupts_registers (proc : Processor) :
    (check_interrupts proc).registers = proc.registers := by
  unfold check_interrupts
  split_ifs <;> rfl

theorem check_irq2_registers (proc : Processor) (irq2_timing : List Nat) :
    (check_irq2 proc irq2_timing).registers = proc.registers := by
  unfold check_irq2
  split_ifs <;> rfl

theorem update_devices_registers (proc p : Processor) (h : update_devices proc = .ok p) :
    p.registers = proc.registers := by
  unfold update_devices at h
  cases hd : handle_disk (handle_timer proc) with
  | error e => rw [hd] at h; cases h
  | ok q =>
    rw [hd] at h
    simp only [Except.ok.injEq] at h
    rw [← h, check_interrupts_registers, handle_disk_registers _ _ hd, handle_timer_registers]

theorem fetch_stage_r0 (irq2_timing : List Nat) (proc p : Processor) (inst : Nat)
    (h : fetch_stage irq2_timing proc = .ok (p, inst)) :
    p.registers 0 = proc.registers 0 := by
  unfold fetch_stage at h
  cases hu : update_devices proc with
  | error e => rw [hu] at h; cases h
  | ok p1 =>
    rw [hu] at h
    simp only at h
    split_ifs at h
    simp only [Except.ok.injEq, Prod.mk.injEq] at h
    rw [← h.1]
    show (check_irq2 p1 irq2_timing).registers 0 = _
    rw [check_irq2_registers, update_devices_registers _ _ hu]

theorem write_trace_r0 (p : Processor) (inst : Nat) :
    (write_trace p inst).registers[0]? = some (p.registers 0) := by
  rfl

theorem simulate_cycle_r0 (irq2_timing : List Nat) (s s' : Sim)
    (h : simulate_cycle irq2_timing s = .ok s')
    (hr : s.proc.registers 0 = 0) (ht : ∀ tl ∈ s.trace, tl.registers[0]? = some 0) :
    s'.proc.registers 0 = 0 ∧ ∀ tl ∈ s'.trace, tl.registers[0]? = some 0 := by
  unfold simulate_cycle at h
  cases hf : fetch_stage irq2_timing s.proc with
  | error e => rw [hf] at h; cases h
  | ok r =>
    obtain ⟨p, inst⟩ := r
    rw [hf] at h
    simp only at h
    cases he : execute_instruction p (decode_instruction inst) with
    | error e => rw [he] at h; cases h
    | ok p1 =>
      rw [he] at h
      simp only at h
      cases hh : hw_trace p1 (decode_instruction inst) with
      | error e => rw [hh] at h; cases h
      | ok hw =>
        rw [hh] at h
        simp only [Except.ok.injEq] at h
        subst h
        constructor
        · show p1.registers 0 = 0
          exact execute_instruction_r0 _ _ _ he
        · intro tl htl
          simp only [end_of_cycle, List.mem_append, List.mem_singleton] at htl
          rcases htl with h1 | h1
          · exact ht tl h1
          · rw [h1, write_trace_r0, fetch_stage_r0 _ _ _ _ hf, hr]

theorem simulate_loop_r0 (irq2_timing : List Nat) : ∀ (n : Nat) (s s' : Sim),
    simulate_loop irq2_timing n s = .ok s' →
    s.proc.registers 0 = 0 → (∀ tl ∈ s.trace, tl.registers[0]? = some 0) →
    s'.proc.registers 0 = 0 ∧ ∀ tl ∈ s'.trace, tl.registers[0]? = some 0 := by
  intro n
  induction n with
  | zero =>
    intro s s' h hr ht
    simp only [simulate_loop, Except.ok.injEq] at h
    subst h
    exact ⟨hr, ht⟩
  | succ n ih =>
    intro s s' h hr ht
    unfold simulate_loop at h
    split_ifs at h
    · simp only [Except.ok.injEq] at h
      subst h
      exact ⟨hr, ht⟩
    · cases hc : simulate_cycle irq2_timing s with
      | error e => rw [hc] at h; cases h
      | ok s1 =>
        rw [hc] at h
        obtain ⟨a, b⟩ := simulate_cycle_r0 irq2_timing s s1 hc hr ht
        exact ih s1 s' h a b

/-- C10: register 0 is 0 on every trace line.  For every instruction memory, data
memory, disk image and IRQ2 schedule, in the state reached after any number of cycles
from the zero-initialised processor, every trace line written so far shows R0 = 0,
`registers[0]` is 0, and the trace line that the next cycle writes (after the device
tick and the write of the two immediates) shows R0 = 0 too.  The device tick and the
immediate write leave `registers[0]` unchanged and `execute_instruction` ends with
`registers[0] = 0` for every instruction, whatever its rd. -/
theorem r0_zero_on_every_trace_line (imem dmem disk : Nat → Nat) (irq2_timing : List Nat)
    (n : Nat) (s : Sim)
    (h : simulate_loop irq2_timing n (sim_init imem dmem disk) = .ok s) :
    (∀ tl ∈ s.trace, tl.registers[0]? = some 0)
      ∧ s.proc.registers 0 = 0
      ∧ (∀ (p : Processor) (inst : Nat), fetch_stage irq2_timing s.proc = .ok (p, inst) →
          (write_trace p inst).registers[0]? = some 0)
      ∧ (∀ (proc p : Processor) (inst : Nat),
          fetch_stage irq2_timing proc = .ok (p, inst) → p.registers 0 = proc.registers 0)
      ∧ (∀ (proc p : Processor) (inst : Instruction),
          execute_instruction proc inst = .ok p → p.registers 0 = 0) := by
  obtain ⟨a, b⟩ := simulate_loop_r0 irq2_timing n (sim_init imem dmem disk) s h rfl
    (by intro tl htl; simp [sim_init] at htl)
  refine ⟨b, a, ?_, ?_, ?_⟩
  · intro p inst hf
    rw [write_trace_r0, fetch_stage_r0 _ _ _ _ hf, a]
  · intro proc p inst hf
    exact fetch_stage_r0 _ _ _ _ hf
  · intro proc p inst he
    exact execute_instruction_r0 _ _ _ he

/-- C10 on the run of `demo_imem` (an `add` writing R7, then `halt`): the two trace
lines written show R0 = 0. -/
theorem r0_zero_on_every_trace_line_witness :
    (run_result (simulate_loop [] 5 (sim_init demo_imem (fun _ => 0) (fun _ => 0)))
        (sim_init demo_imem (fun _ => 0) (fun _ => 0))).trace.length = 2
      ∧ ∀ tl ∈ (run_result (simulate_loop [] 5 (sim_init demo_imem (fun _ => 0) (fun _ => 0)))
          (sim_init demo_imem (fun _ => 0) (fun _ => 0))).trace,
        tl.registers[0]? = some 0 :=
  ⟨by rfl,
   (r0_zero_on_every_trace_line demo_imem (fun _ => 0) (fun _ => 0) [] 5
    (run_result (simulate_loop [] 5 (sim_init demo_imem (fun _ => 0) (fun _ => 0)))
      (sim_init demo_imem (fun _ => 0) (fun _ => 0))) (by rfl)).1⟩

/-! ## Simulator: execution of one instruction (C11, C12) -/

/-- With register fields below 16, `execute_instruction` is the opcode's effect on the
registers after R1 := imm1 and R2 := imm2, then R0 := 0 and the increment of PC. -/
theorem execute_instruction_valid (proc : Processor) (inst : Instruction)
    (hv : valid_fields inst) :
    execute_instruction proc inst
      = match execute_opcode { proc with registers := imm_regs proc inst } inst with
        | .error e => .error e
        | .ok (p, pc_modified) =>
          if !pc_modified && !p.halt then
            .ok { set_reg p 0 0 with pc := u32 (p.pc + 1) }
          else .ok (set_reg p 0 0) := by
  unfold execute_instruction
  have h : ¬ (16 ≤ inst.rd ∨ 16 ≤ inst.rs ∨ 16 ≤ inst.rt ∨ 16 ≤ inst.rm) := by
    unfold valid_fields at hv
    omega
  rw [if_neg h]
  rfl

/-- An opcode that only writes R[rd]: effect of the whole instruction. -/
theorem execute_write_rd (proc : Processor) (inst : Instruction) (hv : valid_fields inst)
    (hh : proc.halt = false) (v : Nat)
    (h : execute_opcode { proc with registers := imm_regs proc inst } inst
      = .ok (set_reg { proc with registers := imm_regs proc inst } inst.rd v, false)) :
    ∃ p, execute_instruction proc inst = .ok p
      ∧ p.pc = u32 (proc.pc + 1)
      ∧ (inst.rd ≠ 0 → p.registers inst.rd = v)
      ∧ p.registers 0 = 0
      ∧ (∀ i, i ≠ 0 → i ≠ inst.rd → p.registers i = imm_regs proc inst i)
      ∧ p.dmem = proc.dmem ∧ p.halt = false := by
  rw [execute_instruction_valid proc inst hv, h]
  simp only [set_reg, hh]
  refine ⟨_, rfl, rfl, ?_, ?_, ?_, rfl, rfl⟩
  · intro hrd
    simp only [upd, if_neg hrd, if_true]
  · simp only [upd, if_true]
  · intro i h0 hi
    simp only [upd, if_neg h0, if_neg hi]

theorem u32_of_lt (x : Nat) (h : x < 4294967296) : u32 x = x := Nat.mod_eq_of_lt h

theorem toU32_cast (x : Int) : ((toU32 x : Nat) : Int) = x % 4294967296 := by
  unfold toU32
  exact Int.toNat_of_nonneg (Int.emod_nonneg _ (by norm_num))

theorem toU32_lt (x : Int) : toU32 x < 4294967296 := by
  have := emod_toNat_lt x 4294967296 (by norm_num)
  unfold toU32
  exact_mod_cast this

theorem u32_lt (x : Nat) : u32 x < 4294967296 := Nat.mod_lt _ (by norm_num)

/-- C11: in a state with the halt flag clear, an instruction with opcode 0..5 and
rd != 0 (register fields below 16, as decoded) leaves in R[rd] the value rs+rt+rm,
rs-rt-rm, rs*rt+rm modulo 2^32, or rs&rt&rm, rs|rt|rm, rs^rt^rm (below 2^32 when the
registers are), computed on the registers read after R1 := imm1 and R2 := imm2, and sets
PC to PC + 1 (a 32-bit increment); from the zero-initialised processor, one cycle on
`add $t0, $imm1, $zero, $zero, 5, 0` (assembled as 007100005000) leaves R7 = 5 and
PC = 1. -/
theorem alu_instructions (proc : Processor) (inst : Instruction) (hv : valid_fields inst)
    (hhalt : proc.halt = false) (hop : inst.opcode ≤ 5) (hrd : inst.rd ≠ 0) :
    (∃ p, execute_instruction proc inst = .ok p
      ∧ p.pc = (proc.pc + 1) % 4294967296
      ∧ (inst.opcode = 0 → p.registers inst.rd
          = (imm_regs proc inst inst.rs + imm_regs proc inst inst.rt
              + imm_regs proc inst inst.rm) % 4294967296)
      ∧ (inst.opcode = 1 → ((p.registers inst.rd : Nat) : Int)
          = ((imm_regs proc inst inst.rs : Int) - imm_regs proc inst inst.rt
              - imm_regs proc inst inst.rm) % 4294967296)
      ∧ (inst.opcode = 2 → p.registers inst.rd
          = (imm_regs proc inst inst.rs * imm_regs proc inst inst.rt
              + imm_regs proc inst inst.rm) % 4294967296)
      ∧ (inst.opcode = 3 → p.registers inst.rd
          = imm_regs proc inst inst.rs &&& imm_regs proc inst inst.rt
              &&& imm_regs proc inst inst.rm)
      ∧ (inst.opcode = 4 → p.registers inst.rd
          = imm_regs proc inst inst.rs ||| imm_regs proc inst inst.rt
              ||| imm_regs proc inst inst.rm)
      ∧ (inst.opcode = 5 → p.registers inst.rd
          = imm_regs proc inst inst.rs ^^^ imm_regs proc inst inst.rt
              ^^^ imm_regs proc inst inst.rm)
      ∧ ((∀ i, imm_regs proc inst i < 4294967296) → p.registers inst.rd < 4294967296))
    ∧ process_instruction 64 [] (parse_operands "add $t0, $imm1, $zero, $zero, 5, 0".toList)
        = .ok (some (hexFixed 12 0x007100005000))
    ∧ demo_imem 0 = 0x007100005000
    ∧ (run_result (simulate_loop [] 1 (sim_init demo_imem (fun _ => 0) (fun _ => 0)))
        (sim_init demo_imem (fun _ => 0) (fun _ => 0))).proc.registers 7 = 5
    ∧ (run_result (simulate_loop [] 1 (sim_init demo_imem (fun _ => 0) (fun _ => 0)))
        (sim_init demo_imem (fun _ => 0) (fun _ => 0))).proc.pc = 1 := by
  refine ⟨?_, by rfl, by rfl, by rfl, by rfl⟩
  have h232 : (4294967296 : Nat) = 2 ^ 32 := by norm_num
  have hcases : inst.opcode = 0 ∨ inst.opcode = 1 ∨ inst.opcode = 2 ∨ inst.opcode = 3
      ∨ inst.opcode = 4 ∨ inst.opcode = 5 := by omega
  rcases hcases with h | h | h | h | h | h
  · obtain ⟨p, e, hpc, hr, _⟩ := execute_write_rd proc inst hv hhalt _
      (by unfold execute_opcode; rw [h])
    refine ⟨p, e, hpc, ?_, ?_, ?_, ?_, ?_, ?_, ?_⟩
    · intro _; exact hr hrd
    · intro h'; omega
    · intro h'; omega
    · intro h'; omega
    · intro h'; omega
    · intro h'; omega
    · intro _; rw [hr hrd]; exact u32_lt _
  · obtain ⟨p, e, hpc, hr, _⟩ := execute_write_rd proc inst hv hhalt _
      (by unfold execute_opcode; rw [h])
    refine ⟨p, e, hpc, ?_, ?_, ?_, ?_, ?_, ?_, ?_⟩
    · intro h'; omega
    · intro _; rw [hr hrd]; exact toU32_cast _
    · intro h'; omega
    · intro h'; omega
    · intro h'; omega
    · intro h'; omega
    · intro _; rw [hr hrd]; exact toU32_lt _
  · obtain ⟨p, e, hpc, hr, _⟩ := execute_write_rd proc inst hv hhalt _
      (by unfold execute_opcode; rw [h])
    refine ⟨p, e, hpc, ?_, ?_, ?_, ?_, ?_, ?_, ?_⟩
    · intro h'; omega
    · intro h'; omega
    · intro _; exact hr hrd
    · intro h'; omega
    · intro h'; omega
    · intro h'; omega
    · intro _; rw [hr hrd]; exact u32_lt _
  · obtain ⟨p, e, hpc, hr, _⟩ := execute_write_rd proc inst hv hhalt _
      (by unfold execute_opcode; rw [h])
    refine ⟨p, e, hpc, ?_, ?_, ?_, ?_, ?_, ?_, ?_⟩
    · intro h'; omega
    · intro h'; omega
    · intro h'; omega
    · intro _; exact hr hrd
    · intro h'; omega
    · intro h'; omega
    · intro hb; rw [hr hrd, h232]
      exact Nat.and_lt_two_pow _ (by rw [← h232]; exact hb _)
  · obtain ⟨p, e, hpc, hr, _⟩ := execute_write_rd proc inst hv hhalt _
      (by unfold execute_opcode; rw [h])
    refine ⟨p, e, hpc, ?_, ?_, ?_, ?_, ?_, ?_, ?_⟩
    · intro h'; omega
    · intro h'; omega
    · intro h'; omega
    · intro h'; omega
    · intro _; exact hr hrd
    · intro h'; omega
    · intro hb; rw [hr hrd, h232]
      exact Nat.or_lt_two_pow (Nat.or_lt_two_pow (by rw [← h232]; exact hb _)
        (by rw [← h232]; exact hb _)) (by rw [← h232]; exact hb _)
  · obtain ⟨p, e, hpc, hr, _⟩ := execute_write_rd proc inst hv hhalt _
      (by unfold execute_opcode; rw [h])
    refine ⟨p, e, hpc, ?_, ?_, ?_, ?_, ?_, ?_, ?_⟩
    · intro h'; omega
    · intro h'; omega
    · intro h'; omega
    · intro h'; omega
    · intro h'; omega
    · intro _; exact hr hrd
    · intro hb; rw [hr hrd, h232]
      exact Nat.xor_lt_two_pow (Nat.xor_lt_two_pow (by rw [← h232]; exact hb _)
        (by rw [← h232]; exact hb _)) (by rw [← h232]; exact hb _)


/-- C11 on the zero-initialised processor and the word `007100005000`. -/
theorem alu_instructions_witness :
    ∃ p, execute_instruction init_processor (decode_instruction 0x007100005000) = .ok p
      ∧ p.registers 7 = 5 := by
  obtain ⟨p, e, _, h0, _⟩ := (alu_instructions init_processor
    (decode_instruction 0x007100005000) (by unfold valid_fields; decide) (by rfl)
    (by decide) (by decide)).1
  exact ⟨p, e, h0 (by decide)⟩

/-- The selection of `execute_opcode` at opcode 11, for any branch bodies. -/
theorem opcode_match_11 {α : Type}
    {a0 a1 a2 a3 a4 a5 a6 a7 a8 a9 a10 a11 a12 a13 a14 a15 a16 a17 a18 a19 a20 a21 : Unit → α}
    {ad : Nat → α} {k : Nat} (hk : k = 11) :
    execute_opcode.match_1 (fun _ => α) k a0 a1 a2 a3 a4 a5 a6 a7 a8 a9 a10 a11 a12 a13 a14
      a15 a16 a17 a18 a19 a20 a21 ad = a11 () := by
  subst hk
  rfl

/-- The selection of `execute_opcode` at opcode 12. -/
theorem opcode_match_12 {α : Type}
    {a0 a1 a2 a3 a4 a5 a6 a7 a8 a9 a10 a11 a12 a13 a14 a15 a16 a17 a18 a19 a20 a21 : Unit → α}
    {ad : Nat → α} {k : Nat} (hk : k = 12) :
    execute_opcode.match_1 (fun _ => α) k a0 a1 a2 a3 a4 a5 a6 a7 a8 a9 a10 a11 a12 a13 a14
      a15 a16 a17 a18 a19 a20 a21 ad = a12 () := by
  subst hk
  rfl

/-- The selection of `execute_opcode` at opcode 13. -/
theorem opcode_match_13 {α : Type}
    {a0 a1 a2 a3 a4 a5 a6 a7 a8 a9 a10 a11 a12 a13 a14 a15 a16 a17 a18 a19 a20 a21 : Unit → α}
    {ad : Nat → α} {k : Nat} (hk : k = 13) :
    execute_opcode.match_1 (fun _ => α) k a0 a1 a2 a3 a4 a5 a6 a7 a8 a9 a10 a11 a12 a13 a14
      a15 a16 a17 a18 a19 a20 a21 ad = a13 () := by
  subst hk
  rfl

/-- The selection of `execute_opcode` at opcode 14. -/
theorem opcode_match_14 {α : Type}
    {a0 a1 a2 a3 a4 a5 a6 a7 a8 a9 a10 a11 a12 a13 a14 a15 a16 a17 a18 a19 a20 a21 : Unit → α}
    {ad : Nat → α} {k : Nat} (hk : k = 14) :
    execute_opcode.match_1 (fun _ => α) k a0 a1 a2 a3 a4 a5 a6 a7 a8 a9 a10 a11 a12 a13 a14
      a15 a16 a17 a18 a19 a20 a21 ad = a14 () := by
  subst hk
  rfl

/-- Registers 3..15 are not touched by the write of the two immediates. -/
theorem imm_regs_ge3 (proc : Processor) (inst : Instruction) (i : Nat) (h : 3 ≤ i) :
    imm_regs proc inst i = proc.registers i := by
  unfold imm_regs upd
  rw [if_neg (by omega), if_neg (by omega)]

/-- An opcode that only sets PC under a condition: effect of the whole instruction. -/
theorem execute_branch (proc : Processor) (inst : Instruction) (hv : valid_fields inst)
    (hh : proc.halt = false) (c : Prop) [Decidable c]
    (h : execute_opcode { proc with registers := imm_regs proc inst } inst
      = if c then .ok ({ proc with registers := imm_regs proc inst,
                                   pc := imm_regs proc inst inst.rm }, true)
        else .ok ({ proc with registers := imm_regs proc inst }, false)) :
    ∃ p, execute_instruction proc inst = .ok p
      ∧ p.pc = (if c then imm_regs proc inst inst.rm else (proc.pc + 1) % 4294967296)
      ∧ (∀ i, 3 ≤ i → p.registers i = proc.registers i)
      ∧ p.registers 0 = 0 ∧ p.registers 1 = inst.immediate1
      ∧ p.registers 2 = inst.immediate2 ∧ p.dmem = proc.dmem := by
  rw [execute_instruction_valid proc inst hv, h]
  by_cases hc : c
  · simp only [if_pos hc, set_reg]
    refine ⟨_, rfl, rfl, ?_, rfl, rfl, rfl, rfl⟩
    intro i hi
    show upd (imm_regs proc inst) 0 0 i = _
    rw [← imm_regs_ge3 proc inst i hi]
    unfold upd
    rw [if_neg (by omega)]
  · simp only [if_neg hc, set_reg, hh]
    refine ⟨_, rfl, rfl, ?_, rfl, rfl, rfl, rfl⟩
    intro i hi
    show upd (imm_regs proc inst) 0 0 i = _
    rw [← imm_regs_ge3 proc inst i hi]
    unfold upd
    rw [if_neg (by omega)]

/-- C12: in a state with the halt flag clear, an instruction with opcode 9..14 (register
fields below 16, as decoded) sets PC to R[rm] when its condition holds and to PC + 1 (a
32-bit increment) otherwise, R being the registers after R1 := imm1 and R2 := imm2; the
condition is R[rs] = R[rt] for beq, R[rs] != R[rt] for bne, and <, >, <=, >= on R[rs]
and R[rt] read as signed 32-bit integers for blt, bgt, ble, bge, so that 0xFFFFFFFF,
which reads -1, is less than 1; registers 3..15 are unchanged. -/
theorem branch_instructions (proc : Processor) (inst : Instruction) (hv : valid_fields inst)
    (hhalt : proc.halt = false) (hop : 9 ≤ inst.opcode ∧ inst.opcode ≤ 14) :
    (∃ p, execute_instruction proc inst = .ok p
      ∧ (∀ i, 3 ≤ i → p.registers i = proc.registers i)
      ∧ (inst.opcode = 9 → p.pc
          = if imm_regs proc inst inst.rs = imm_regs proc inst inst.rt
            then imm_regs proc inst inst.rm else (proc.pc + 1) % 4294967296)
      ∧ (inst.opcode = 10 → p.pc
          = if imm_regs proc inst inst.rs ≠ imm_regs proc inst inst.rt
            then imm_regs proc inst inst.rm else (proc.pc + 1) % 4294967296)
      ∧ (inst.opcode = 11 → p.pc
          = if toInt32 (imm_regs proc inst inst.rs) < toInt32 (imm_regs proc inst inst.rt)
            then imm_regs proc inst inst.rm else (proc.pc + 1) % 4294967296)
      ∧ (inst.opcode = 12 → p.pc
          = if toInt32 (imm_regs proc inst inst.rs) > toInt32 (imm_regs proc inst inst.rt)
            then imm_regs proc inst inst.rm else (proc.pc + 1) % 4294967296)
      ∧ (inst.opcode = 13 → p.pc
          = if toInt32 (imm_regs proc inst inst.rs) ≤ toInt32 (imm_regs proc inst inst.rt)
            then imm_regs proc inst inst.rm else (proc.pc + 1) % 4294967296)
      ∧ (inst.opcode = 14 → p.pc
          = if toInt32 (imm_regs proc inst inst.rs) ≥ toInt32 (imm_regs proc inst inst.rt)
            then imm_regs proc inst inst.rm else (proc.pc + 1) % 4294967296))
    ∧ toInt32 (0xFFFFFFFF : Nat) = -1
    ∧ toInt32 (0xFFFFFFFF : Nat) < toInt32 (1 : Nat) := by
  refine ⟨?_, by decide, by decide⟩
  have hcases : inst.opcode = 9 ∨ inst.opcode = 10 ∨ inst.opcode = 11 ∨ inst.opcode = 12
      ∨ inst.opcode = 13 ∨ inst.opcode = 14 := by omega
  rcases hcases with h | h | h | h | h | h
  · obtain ⟨p, e, hpc, hr, _⟩ := execute_branch proc inst hv hhalt
      (imm_regs proc inst inst.rs = imm_regs proc inst inst.rt)
      (by unfold execute_opcode; rw [h])
    refine ⟨p, e, hr, ?_, ?_, ?_, ?_, ?_, ?_⟩
    · intro _; exact hpc
    all_goals intro h'; omega
  · obtain ⟨p, e, hpc, hr, _⟩ := execute_branch proc inst hv hhalt
      (imm_regs proc inst inst.rs ≠ imm_regs proc inst inst.rt)
      (by unfold execute_opcode; rw [h])
    refine ⟨p, e, hr, ?_, ?_, ?_, ?_, ?_, ?_⟩
    · intro h'; omega
    · intro _; exact hpc
    all_goals intro h'; omega
  · obtain ⟨p, e, hpc, hr, _⟩ := execute_branch proc inst hv hhalt
      (toInt32 (imm_regs proc inst inst.rs) < toInt32 (imm_regs proc inst inst.rt))
      (opcode_match_11 h)
    refine ⟨p, e, hr, ?_, ?_, ?_, ?_, ?_, ?_⟩
    · intro h'; omega
    · intro h'; omega
    · intro _; exact hpc
    all_goals intro h'; omega
  · obtain ⟨p, e, hpc, hr, _⟩ := execute_branch proc inst hv hhalt
      (toInt32 (imm_regs proc inst inst.rs) > toInt32 (imm_regs proc inst inst.rt))
      (opcode_match_12 h)
    refine ⟨p, e, hr, ?_, ?_, ?_, ?_, ?_, ?_⟩
    · intro h'; omega
    · intro h'; omega
    · intro h'; omega
    · intro _; exact hpc
    all_goals intro h'; omega
  · obtain ⟨p, e, hpc, hr, _⟩ := execute_branch proc inst hv hhalt
      (toInt32 (imm_regs proc inst inst.rs) ≤ toInt32 (imm_regs proc inst inst.rt))
      (opcode_match_13 h)
    refine ⟨p, e, hr, ?_, ?_, ?_, ?_, ?_, ?_⟩
    · intro h'; omega
    · intro h'; omega
    · intro h'; omega
    · intro h'; omega
    · intro _; exact hpc
    · intro h'; omega
  · obtain ⟨p, e, hpc, hr, _⟩ := execute_branch proc inst hv hhalt
      (toInt32 (imm_regs proc inst inst.rs) ≥ toInt32 (imm_regs proc inst inst.rt))
      (opcode_match_14 h)
    refine ⟨p, e, hr, ?_, ?_, ?_, ?_, ?_, ?_⟩
    · intro h'; omega
    · intro h'; omega
    · intro h'; omega
    · intro h'; omega
    · intro h'; omega
    · intro _; exact hpc

/-- C12 on `beq $zero, $imm1, $imm1, $imm2, 7, 0x30` from the zero-initialised
processor: the branch is taken and PC = 0x30. -/
theorem branch_instructions_witness :
    ∃ p, execute_instruction init_processor
        { opcode := 9, rd := 0, rs := 1, rt := 1, rm := 2, immediate1 := 7,
          immediate2 := 0x30 } = .ok p
      ∧ p.pc = 0x30 := by
  obtain ⟨p, e, _, h9, _⟩ := (branch_instructions init_processor
    { opcode := 9, rd := 0, rs := 1, rt := 1, rm := 2, immediate1 := 7, immediate2 := 0x30 }
    (by unfold valid_fields; decide) (by rfl) (by decide)).1
  exact ⟨p, e, (h9 (by rfl)).trans (by decide)⟩

/-! ## Simulator: the signed-branch scenario (C13) -/

/-- Effect of a `blt` instruction on PC when its three register fields are 3 or more. -/
theorem execute_blt_pc (proc : Processor) (inst : Instruction) (hh : proc.halt = false)
    (hop : inst.opcode = 11) (s t m : Nat)
    (hs : inst.rs = s) (ht : inst.rt = t) (hm : inst.rm = m)
    (h3s : 3 ≤ s) (h3t : 3 ≤ t) (h3m : 3 ≤ m) (hv : valid_fields inst) :
    ∃ p, execute_instruction proc inst = .ok p
      ∧ p.pc = if toInt32 (proc.registers s) < toInt32 (proc.registers t)
          then proc.registers m else (proc.pc + 1) % 4294967296 := by
  obtain ⟨p, e, hpc, _⟩ := execute_branch proc inst hv hh
    (toInt32 (imm_regs proc inst inst.rs) < toInt32 (imm_regs proc inst inst.rt))
    (opcode_match_11 hop)
  refine ⟨p, e, ?_⟩
  rw [hs, ht, hm] at hpc
  simp only [imm_regs_ge3 proc inst s h3s, imm_regs_ge3 proc inst t h3t,
    imm_regs_ge3 proc inst m h3m] at hpc
  exact hpc

/-- C13 (counterexample): in the assembler's table `$a0` is register 4 and `$a1` is
register 5, so `blt $zero,$a0,$a1,$t0` is the word 0B0457000000 with rs = 4 and rt = 5.
In the state with R3 = 0xFFFFFFFF, R4 = 1, R7 = 0x020, all other registers 0 and PC = 0
it compares R4 = 1 with R5 = 0: the branch is not taken and PC becomes 1, not 0x020. -/
theorem signed_branch_as_written_not_taken :
    get_register_number 64 "$a0".toList = 4
      ∧ get_register_number 64 "$a1".toList = 5
      ∧ process_instruction 64 [] (parse_operands "blt $zero,$a0,$a1,$t0".toList)
          = .ok (some (hexFixed 12 0x0B0457000000))
      ∧ process_instruction 64 [] (parse_operands "blt $zero, $a0, $a1, $t0, 0, 0".toList)
          = .ok (some (hexFixed 12 0x0B0457000000))
      ∧ (decode_instruction 0x0B0457000000).rs = 4
      ∧ (decode_instruction 0x0B0457000000).rt = 5
      ∧ branch_scenario.registers 3 = 0xFFFFFFFF ∧ branch_scenario.registers 4 = 1
      ∧ branch_scenario.registers 5 = 0 ∧ branch_scenario.registers 7 = 0x020
      ∧ branch_scenario.pc = 0
      ∧ ∃ p, execute_instruction branch_scenario (decode_instruction 0x0B0457000000) = .ok p
          ∧ p.pc = 1 ∧ p.pc ≠ 0x020 := by
  refine ⟨by rfl, by rfl, by rfl, by rfl, by rfl, by rfl, by rfl, by rfl, by rfl, by rfl,
    by rfl, ?_⟩
  obtain ⟨p, e, hpc⟩ := execute_blt_pc branch_scenario
    (decode_instruction 0x0B0457000000) (by rfl) (by rfl)
    4 5 7 (by rfl) (by rfl) (by rfl) (by decide) (by decide) (by decide)
    (by unfold valid_fields; decide)
  have h1 : p.pc = 1 := hpc.trans (by decide)
  exact ⟨p, e, h1, by rw [h1]; decide⟩

/-- C13 (amended): in every state with the halt flag clear and R3 = 0xFFFFFFFF, R4 = 1,
R5 = 0, R7 = 0x020, the instruction `blt $zero,$a0,$a1,$t0` (word 0B0457000000, which
compares R4 with R5) does not take the branch and leaves PC = PC + 1 (a 32-bit
increment), while `blt $zero,$v0,$a0,$t0` (word 0B0347000000, which compares R3 = -1
with R4 = 1) takes the branch and leaves PC = 0x020. -/
theorem signed_branch_scenario (proc : Processor) (hh : proc.halt = false)
    (h3 : proc.registers 3 = 0xFFFFFFFF) (h4 : proc.registers 4 = 1)
    (h5 : proc.registers 5 = 0) (h7 : proc.registers 7 = 0x020) :
    process_instruction 64 [] (parse_operands "blt $zero,$a0,$a1,$t0".toList)
        = .ok (some (hexFixed 12 0x0B0457000000))
      ∧ process_instruction 64 [] (parse_operands "blt $zero,$v0,$a0,$t0".toList)
          = .ok (some (hexFixed 12 0x0B0347000000))
      ∧ (∃ p, execute_instruction proc (decode_instruction 0x0B0457000000) = .ok p
          ∧ p.pc = (proc.pc + 1) % 4294967296)
      ∧ (∃ p, execute_instruction proc (decode_instruction 0x0B0347000000) = .ok p
          ∧ p.pc = 0x020) := by
  refine ⟨by rfl, by rfl, ?_, ?_⟩
  · obtain ⟨p, e, hpc⟩ := execute_blt_pc proc (decode_instruction 0x0B0457000000) hh (by rfl)
      4 5 7 (by rfl) (by rfl) (by rfl) (by decide) (by decide) (by decide)
      (by unfold valid_fields; decide)
    refine ⟨p, e, ?_⟩
    rw [hpc, h4, h5, if_neg (by decide)]
  · obtain ⟨p, e, hpc⟩ := execute_blt_pc proc (decode_instruction 0x0B0347000000) hh (by rfl)
      3 4 7 (by rfl) (by rfl) (by rfl) (by decide) (by decide) (by decide)
      (by unfold valid_fields; decide)
    refine ⟨p, e, ?_⟩
    rw [hpc, h3, h4, if_pos (by decide), h7]

/-- C13 (amended) on the scenario state with PC = 0: `blt $zero,$v0,$a0,$t0` leaves
PC = 0x020. -/
theorem signed_branch_scenario_witness :
    ∃ p, execute_instruction branch_scenario (decode_instruction 0x0B0347000000) = .ok p
      ∧ p.pc = 0x020 :=
  (signed_branch_scenario branch_scenario (by rfl) (by rfl) (by rfl) (by rfl) (by rfl)).2.2.2

/-! ## Simulator: jal (C14) -/

/-- C14 (counterexample): `jal $ra, $zero, $zero, $ra` (word 0FF00F000000, rd = rm = 15)
executed with R15 = 0x050 and PC = 0 writes PC + 1 = 1 to R15 and then reads R15 for the
jump: PC becomes 1, not the value 0x050 that R[rm] had before the opcode's effect. -/
theorem jal_same_register_reads_new_value :
    process_instruction 64 [] (parse_operands "jal $ra, $zero, $zero, $ra, 0, 0".toList)
        = .ok (some (hexFixed 12 0x0FF00F000000))
      ∧ (decode_instruction 0x0FF00F000000).opcode = 15
      ∧ (decode_instruction 0x0FF00F000000).rd = 15
      ∧ (decode_instruction 0x0FF00F000000).rm = 15
      ∧ imm_regs { init_processor with registers := fun i => if i = 15 then 0x050 else 0 }
          (decode_instruction 0x0FF00F000000) 15 = 0x050
      ∧ ∃ p, execute_instruction
            { init_processor with registers := fun i => if i = 15 then 0x050 else 0 }
            (decode_instruction 0x0FF00F000000) = .ok p
          ∧ p.pc = 1 ∧ p.pc ≠ 0x050 ∧ p.registers 15 = 1 :=
  ⟨by rfl, by rfl, by rfl, by rfl, by rfl, _, by rfl, by rfl, by decide, by rfl⟩

/-- C14 (amended): for every state and every jal instruction (opcode 15, register fields
below 16, as decoded), with R the registers after R1 := imm1 and R2 := imm2:
`execute_instruction` returns, PC equals R[rm] when rm differs from rd and the old
PC + 1 (a 32-bit increment) when rm = rd, R[rd] equals the old PC + 1 when rd != 0,
R0 = 0, and every other register keeps its value in R. -/
theorem jal_instruction (proc : Processor) (inst : Instruction) (hv : valid_fields inst)
    (hop : inst.opcode = 15) :
    ∃ p, execute_instruction proc inst = .ok p
      ∧ (inst.rm ≠ inst.rd → p.pc = imm_regs proc inst inst.rm)
      ∧ (inst.rm = inst.rd → p.pc = (proc.pc + 1) % 4294967296)
      ∧ (inst.rd ≠ 0 → p.registers inst.rd = (proc.pc + 1) % 4294967296)
      ∧ p.registers 0 = 0
      ∧ (∀ i, i ≠ 0 → i ≠ inst.rd → p.registers i = imm_regs proc inst i)
      ∧ p.dmem = proc.dmem := by
  have h : execute_opcode { proc with registers := imm_regs proc inst } inst
      = .ok ({ set_reg { proc with registers := imm_regs proc inst } inst.rd
                 (u32 (proc.pc + 1)) with
               pc := (set_reg { proc with registers := imm_regs proc inst } inst.rd
                 (u32 (proc.pc + 1))).registers inst.rm }, true) := by
    unfold execute_opcode
    rw [hop]
  rw [execute_instruction_valid proc inst hv, h]
  simp only [set_reg, Bool.not_true, Bool.false_and, Bool.false_eq_true, if_false]
  refine ⟨_, rfl, ?_, ?_, ?_, ?_, ?_, rfl⟩
  · intro hne
    simp only [upd, if_neg hne]
  · intro heq
    simp only [upd, heq, if_true, u32]
  · intro hrd
    simp only [upd, if_neg hrd, if_true, u32]
  · simp only [upd, if_true]
  · intro i h0 hi
    simp only [upd, if_neg h0, if_neg hi]

/-- C14 (amended) on `jal $ra, $zero, $zero, $s0` (word 0FF00A000000) with R10 = 0x050
and PC = 7: R15 = 8 and PC = 0x050. -/
theorem jal_instruction_witness :
    process_instruction 64 [] (parse_operands "jal $ra, $zero, $zero, $s0, 0, 0".toList)
        = .ok (some (hexFixed 12 0x0FF00A000000))
      ∧ ∃ p, execute_instruction
            { init_processor with registers := fun i => if i = 10 then 0x050 else 0, pc := 7 }
            (decode_instruction 0x0FF00A000000) = .ok p
          ∧ p.pc = 0x050 ∧ p.registers 15 = 8 := by
  refine ⟨by rfl, ?_⟩
  obtain ⟨p, e, h1, _, h3, _⟩ := jal_instruction
    { init_processor with registers := fun i => if i = 10 then 0x050 else 0, pc := 7 }
    (decode_instruction 0x0FF00A000000) (by unfold valid_fields; decide) (by rfl)
  exact ⟨p, e, (h1 (by decide)).trans (by rfl), (h3 (by decide)).trans (by rfl)⟩

/-! ## Simulator: lw and sw (C15) -/

/-- An opcode that yields the state `q` without setting `pc_modified`: the whole
instruction forces R0 to 0 and increments PC unless the halt flag is set. -/
theorem execute_no_jump (proc : Processor) (inst : Instruction) (hv : valid_fields inst)
    (q : Processor)
    (h : execute_opcode { proc with registers := imm_regs proc inst } inst = .ok (q, false))
    (hq : q.halt = proc.halt) (hpc : q.pc = proc.pc) :
    ∃ p, execute_instruction proc inst = .ok p
      ∧ p.registers = upd q.registers 0 0 ∧ p.dmem = q.dmem
      ∧ (proc.halt = false → p.pc = (proc.pc + 1) % 4294967296)
      ∧ (proc.halt = true → p.pc = proc.pc) := by
  rw [execute_instruction_valid proc inst hv, h]
  cases hh : proc.halt
  · rw [hh] at hq
    simp only [hq, Bool.not_false, Bool.and_self, if_true, set_reg]
    exact ⟨_, rfl, rfl, rfl, fun _ => by rw [hpc]; rfl, fun h' => by simp at h'⟩
  · rw [hh] at hq
    simp only [hq, Bool.not_true, Bool.and_false, Bool.false_eq_true, if_false, set_reg]
    exact ⟨_, rfl, rfl, rfl, fun h' => by simp at h', fun _ => hpc⟩

/-- C15: for every state in which an instruction is executed (halt flag clear, as the
loop `while (!proc->halt)` guarantees) and every lw/sw instruction (opcode 16 or 17,
register fields below 16, as decoded), with R the registers after R1 := imm1 and
R2 := imm2 and a = (R[rs] + R[rt]) mod 2^32: `execute_instruction` returns; if a < 4096,
lw sets R[rd] = (DMEM[a] + R[rm]) mod 2^32 (rd != 0) and leaves data memory unchanged,
and sw sets DMEM[a] = (R[rd] + R[rm]) mod 2^32 and leaves every other cell unchanged; if
a >= 4096 data memory and registers 3..15 are unchanged; in both cases PC becomes
PC + 1 (a 32-bit increment). -/
theorem load_store_instructions (proc : Processor) (inst : Instruction)
    (hv : valid_fields inst) (hh : proc.halt = false)
    (hop : inst.opcode = 16 ∨ inst.opcode = 17) :
    ∃ p, execute_instruction proc inst = .ok p
      ∧ p.pc = (proc.pc + 1) % 4294967296
      ∧ (inst.opcode = 16 →
          (imm_regs proc inst inst.rs + imm_regs proc inst inst.rt) % 4294967296 < 4096 →
          (inst.rd ≠ 0 → p.registers inst.rd
            = (proc.dmem ((imm_regs proc inst inst.rs + imm_regs proc inst inst.rt)
                % 4294967296) + imm_regs proc inst inst.rm) % 4294967296)
          ∧ p.dmem = proc.dmem)
      ∧ (inst.opcode = 17 →
          (imm_regs proc inst inst.rs + imm_regs proc inst inst.rt) % 4294967296 < 4096 →
          p.dmem ((imm_regs proc inst inst.rs + imm_regs proc inst inst.rt) % 4294967296)
            = (imm_regs proc inst inst.rd + imm_regs proc inst inst.rm) % 4294967296
          ∧ (∀ j, j ≠ (imm_regs proc inst inst.rs + imm_regs proc inst inst.rt) % 4294967296 →
              p.dmem j = proc.dmem j)
          ∧ (∀ i, 3 ≤ i → p.registers i = proc.registers i))
      ∧ (4096 ≤ (imm_regs proc inst inst.rs + imm_regs proc inst inst.rt) % 4294967296 →
          p.dmem = proc.dmem ∧ ∀ i, 3 ≤ i → p.registers i = proc.registers i) := by
  have hkeep : ∀ i, 3 ≤ i → upd (imm_regs proc inst) 0 0 i = proc.registers i := by
    intro i hi
    rw [← imm_regs_ge3 proc inst i hi]
    unfold upd
    rw [if_neg (by omega)]
  rcases hop with hop | hop
  · by_cases ha : (imm_regs proc inst inst.rs + imm_regs proc inst inst.rt) % 4294967296 < 4096
    · obtain ⟨p, e, hr, hd, hp0, _⟩ := execute_no_jump proc inst hv
        (set_reg { proc with registers := imm_regs proc inst } inst.rd
          (u32 (proc.dmem (u32 (imm_regs proc inst inst.rs + imm_regs proc inst inst.rt))
            + imm_regs proc inst inst.rm)))
        (by unfold execute_opcode; rw [hop]; exact if_pos ha) rfl rfl
      refine ⟨p, e, hp0 hh, ?_, ?_, ?_⟩
      · intro _ _
        refine ⟨?_, hd⟩
        intro hrd
        rw [hr]
        simp only [set_reg, upd, if_neg hrd, if_true, u32]
      · intro h'; omega
      · intro h'; omega
    · obtain ⟨p, e, hr, hd, hp0, _⟩ := execute_no_jump proc inst hv
        { proc with registers := imm_regs proc inst }
        (by unfold execute_opcode; rw [hop]; exact if_neg ha) rfl rfl
      refine ⟨p, e, hp0 hh, ?_, ?_, ?_⟩
      · intro _ h'; exact absurd h' ha
      · intro h'; omega
      · intro _
        refine ⟨hd, ?_⟩
        intro i hi
        rw [hr]
        exact hkeep i hi
  · by_cases ha : (imm_regs proc inst inst.rs + imm_regs proc inst inst.rt) % 4294967296 < 4096
    · obtain ⟨p, e, hr, hd, hp0, _⟩ := execute_no_jump proc inst hv
        (set_dmem { proc with registers := imm_regs proc inst }
          (u32 (imm_regs proc inst inst.rs + imm_regs proc inst inst.rt))
          (u32 (imm_regs proc inst inst.rd + imm_regs proc inst inst.rm)))
        (by unfold execute_opcode; rw [hop]; exact if_pos ha) rfl rfl
      refine ⟨p, e, hp0 hh, ?_, ?_, ?_⟩
      · intro h'; omega
      · intro _ _
        refine ⟨?_, ?_, ?_⟩
        · rw [hd]
          simp only [set_dmem, upd, if_true, u32]
        · intro j hj
          rw [hd]
          simp only [set_dmem, upd, u32, if_neg hj]
        · intro i hi
          rw [hr]
          exact hkeep i hi
      · intro h'; omega
    · obtain ⟨p, e, hr, hd, hp0, _⟩ := execute_no_jump proc inst hv
        { proc with registers := imm_regs proc inst }
        (by unfold execute_opcode; rw [hop]; exact if_neg ha) rfl rfl
      refine ⟨p, e, hp0 hh, ?_, ?_, ?_⟩
      · intro h'; omega
      · intro _ h'; exact absurd h' ha
      · intro _
        refine ⟨hd, ?_⟩
        intro i hi
        rw [hr]
        exact hkeep i hi

/-- C15 on `lw $t0, $zero, $imm2, $zero, 0, 100` from the zero-initialised processor
with DMEM[100] = 0xDEAD: R7 = 0xDEAD and PC = 1. -/
theorem load_store_instructions_witness :
    ∃ p, execute_instruction
        { init_processor with dmem := fun a => if a = 100 then 0xDEAD else 0 }
        (decode_instruction 0x107020000064) = .ok p
      ∧ p.registers 7 = 0xDEAD ∧ p.pc = 1 := by
  obtain ⟨p, e, hpc, hlw, _⟩ := load_store_instructions
    { init_processor with dmem := fun a => if a = 100 then 0xDEAD else 0 }
    (decode_instruction 0x107020000064) (by unfold valid_fields; decide) (by rfl)
    (Or.inl (by rfl))
  exact ⟨p, e, ((hlw (by rfl) (by decide)).1 (by decide)).trans (by rfl),
    hpc.trans (by rfl)⟩

/-! ## Simulator: interrupt entry and return (C16, C17) -/

/-- Case analysis on the opcode selection of `execute_opcode`: a property of every
branch body is a property of the selected one. -/
theorem opcode_match_cases {α : Type}
    {a0 a1 a2 a3 a4 a5 a6 a7 a8 a9 a10 a11 a12 a13 a14 a15 a16 a17 a18 a19 a20 a21 : Unit → α}
    {ad : Nat → α} (P : α → Prop) (k : Nat)
    (h0 : k = 0 → P (a0 ())) (h1 : k = 1 → P (a1 ())) (h2 : k = 2 → P (a2 ()))
    (h3 : k = 3 → P (a3 ())) (h4 : k = 4 → P (a4 ())) (h5 : k = 5 → P (a5 ()))
    (h6 : k = 6 → P (a6 ())) (h7 : k = 7 → P (a7 ())) (h8 : k = 8 → P (a8 ()))
    (h9 : k = 9 → P (a9 ())) (h10 : k = 10 → P (a10 ())) (h11 : k = 11 → P (a11 ()))
    (h12 : k = 12 → P (a12 ())) (h13 : k = 13 → P (a13 ())) (h14 : k = 14 → P (a14 ()))
    (h15 : k = 15 → P (a15 ())) (h16 : k = 16 → P (a16 ())) (h17 : k = 17 → P (a17 ()))
    (h18 : k = 18 → P (a18 ())) (h19 : k = 19 → P (a19 ())) (h20 : k = 20 → P (a20 ()))
    (h21 : k = 21 → P (a21 ()))
    (hd : ∀ x, P (ad x)) :
    P (execute_opcode.match_1 (fun _ => α) k a0 a1 a2 a3 a4 a5 a6 a7 a8 a9 a10 a11 a12 a13 a14
      a15 a16 a17 a18 a19 a20 a21 ad) := by
  split
  all_goals first
    | exact h0 rfl | exact h1 rfl | exact h2 rfl | exact h3 rfl | exact h4 rfl | exact h5 rfl
    | exact h6 rfl | exact h7 rfl | exact h8 rfl | exact h9 rfl | exact h10 rfl | exact h11 rfl
    | exact h12 rfl | exact h13 rfl | exact h14 rfl | exact h15 rfl | exact h16 rfl | exact h17 rfl
    | exact h18 rfl | exact h19 rfl | exact h20 rfl | exact h21 rfl
    | exact hd _

/-- A write to a port other than 7 leaves `irqreturn` as it is. -/
theorem handle_io_write_irqreturn (proc : Processor) (port v : Nat) (hp : port ≠ 7) :
    (handle_io_write proc port v).irqreturn = proc.irqreturn := by
  unfold handle_io_write
  split
  all_goals first
    | rfl
    | exact absurd rfl hp
    | (split_ifs <;> rfl)

/-- Only an `out` to port 7 changes `irqreturn` in the opcode switch. -/
theorem execute_opcode_irqreturn (proc : Processor) (inst : Instruction) (q : Processor)
    (b : Bool) (h : execute_opcode proc inst = .ok (q, b))
    (hw : ¬ (inst.opcode = 20 ∧ u32 (proc.registers inst.rs + proc.registers inst.rt) = 7)) :
    q.irqreturn = proc.irqreturn := by
  revert h
  refine opcode_match_cases
    (fun r : Except Err (Processor × Bool) => r = .ok (q, b) → q.irqreturn = proc.irqreturn)
    inst.opcode ?_ ?_ ?_ ?_ ?_ ?_ ?_ ?_ ?_ ?_ ?_ ?_ ?_ ?_ ?_ ?_ ?_ ?_ ?_ ?_ ?_ ?_ ?_
  case refine_21 =>
    intro hk h
    cases h
    exact handle_io_write_irqreturn _ _ _ (fun hp => hw ⟨hk, hp⟩)
  all_goals
    intro _ h
    first
      | (split_ifs at h
         all_goals
           cases h
           try rfl)
      | (cases h
         rfl)

/-- An instruction that is not an `out` to port 7 leaves `irqreturn` as it is. -/
theorem execute_instruction_irqreturn (proc p : Processor) (inst : Instruction)
    (h : execute_instruction proc inst = .ok p) (hw : writes_port proc inst 7 = false) :
    p.irqreturn = proc.irqreturn := by
  have hw' : ¬ (inst.opcode = 20
      ∧ u32 (imm_regs proc inst inst.rs + imm_regs proc inst inst.rt) = 7) := by
    intro hc
    unfold writes_port at hw
    rw [decide_eq_true hc.1, decide_eq_true hc.2] at hw
    exact Bool.noConfusion hw
  unfold execute_instruction at h
  split_ifs at h
  split at h
  · cases h
  · rename_i q b heq
    have hq := execute_opcode_irqreturn _ inst q b heq hw'
    split_ifs at h <;>
    · simp only [Except.ok.injEq] at h
      subst h
      exact hq

/-- Instructions none of which writes port 7 leave `irqreturn` as it is. -/
theorem run_instructions_irqreturn (body : List Instruction) :
    ∀ proc q : Processor, run_instructions proc body = .ok q →
      never_writes_port 7 proc body = true → q.irqreturn = proc.irqreturn := by
  induction body with
  | nil =>
    intro proc q h _
    simp only [run_instructions, Except.ok.injEq] at h
    rw [h]
  | cons inst rest ih =>
    intro proc q h hn
    unfold run_instructions at h
    unfold never_writes_port at hn
    rw [Bool.and_eq_true] at hn
    cases he : execute_instruction proc inst with
    | error e => rw [he] at h; cases h
    | ok p =>
      rw [he] at h
      have hn2 := hn.2
      rw [he] at hn2
      have h1 : writes_port proc inst 7 = false := by
        cases hwp : writes_port proc inst 7
        · rfl
        · have := hn.1
          rw [hwp] at this
          exact Bool.noConfusion this
      rw [ih p q h hn2]
      exact execute_instruction_irqreturn proc p inst he h1

/-- The whole effect of `reti`. -/
theorem execute_reti (proc : Processor) (inst : Instruction) (hv : valid_fields inst)
    (hop : inst.opcode = 18) :
    execute_instruction proc inst
      = .ok { proc with registers := upd (imm_regs proc inst) 0 0, pc := proc.irqreturn,
                        in_interrupt := false } := by
  have h : execute_opcode { proc with registers := imm_regs proc inst } inst
      = .ok ({ proc with registers := imm_regs proc inst, pc := proc.irqreturn,
                         in_interrupt := false }, true) := by
    unfold execute_opcode
    rw [hop]
  rw [execute_instruction_valid proc inst hv, h]
  rfl

/-- On two bits the conjunction `a & b` is non-zero exactly when both are 1. -/
theorem and_bits (a b : Nat) (ha : a ≤ 1) (hb : b ≤ 1) :
    a &&& b = if a = 1 ∧ b = 1 then 1 else 0 := by
  have h1 : a = 0 ∨ a = 1 := by omega
  have h2 : b = 0 ∨ b = 1 := by omega
  rcases h1 with h1 | h1 <;> rcases h2 with h2 | h2 <;> subst h1 <;> subst h2 <;> rfl

/-- With 1-bit enable and status registers, the arbiter's expression is non-zero exactly
when some line is enabled and asserted. -/
theorem irq_pending_bits (proc : Processor)
    (h0 : proc.irq0enable ≤ 1 ∧ proc.irq0status ≤ 1)
    (h1 : proc.irq1enable ≤ 1 ∧ proc.irq1status ≤ 1)
    (h2 : proc.irq2enable ≤ 1 ∧ proc.irq2status ≤ 1) :
    irq_pending proc ≠ 0 ↔
      (proc.irq0enable = 1 ∧ proc.irq0status = 1)
        ∨ (proc.irq1enable = 1 ∧ proc.irq1status = 1)
        ∨ (proc.irq2enable = 1 ∧ proc.irq2status = 1) := by
  unfold irq_pending
  rw [and_bits _ _ h0.1 h0.2, and_bits _ _ h1.1 h1.2, and_bits _ _ h2.1 h2.2]
  by_cases c0 : proc.irq0enable = 1 ∧ proc.irq0status = 1 <;>
  by_cases c1 : proc.irq1enable = 1 ∧ proc.irq1status = 1 <;>
  by_cases c2 : proc.irq2enable = 1 ∧ proc.irq2status = 1 <;>
  simp only [if_pos, if_neg, c0, c1, c2, not_false_eq_true, or_self, or_true, true_or,
    or_false, false_or, iff_true, iff_false, not_true_eq_false, ne_eq] <;> decide

/-- C16: from a state with in_interrupt false in which the arbiter's expression
(enable0 & status0) | (enable1 & status1) | (enable2 & status2) is non-zero,
`check_interrupts` saves PC in irqreturn, jumps to irqhandler and sets in_interrupt;
after any instructions that return and none of which is an `out` to port 7, a `reti`
(opcode 18, register fields below 16, as decoded) returns, restores PC to the PC held
just before `check_interrupts` and clears in_interrupt.  In every state `reti` sets PC
to the value of irqreturn at its execution, not that value plus 1, and clears
in_interrupt.  With 1-bit enable and status registers the arbiter's expression is
non-zero exactly when some line has enable = 1 and status = 1. -/
theorem interrupt_entry_and_return (proc q : Processor) (body : List Instruction)
    (reti : Instruction) (hin : proc.in_interrupt = false) (hirq : irq_pending proc ≠ 0)
    (hbody : never_writes_port 7 (check_interrupts proc) body = true)
    (hrun : run_instructions (check_interrupts proc) body = .ok q)
    (hv : valid_fields reti) (hop : reti.opcode = 18) :
    (check_interrupts proc).irqreturn = proc.pc
      ∧ (check_interrupts proc).pc = proc.irqhandler
      ∧ (check_interrupts proc).in_interrupt = true
      ∧ (∃ p, execute_instruction q reti = .ok p ∧ p.pc = proc.pc ∧ p.in_interrupt = false)
      ∧ (∀ s : Processor, ∃ p, execute_instruction s reti = .ok p ∧ p.pc = s.irqreturn
          ∧ p.in_interrupt = false)
      ∧ (proc.irq0enable ≤ 1 ∧ proc.irq0status ≤ 1 → proc.irq1enable ≤ 1 ∧ proc.irq1status ≤ 1 →
          proc.irq2enable ≤ 1 ∧ proc.irq2status ≤ 1 →
          (irq_pending proc ≠ 0 ↔
            (proc.irq0enable = 1 ∧ proc.irq0status = 1)
              ∨ (proc.irq1enable = 1 ∧ proc.irq1status = 1)
              ∨ (proc.irq2enable = 1 ∧ proc.irq2status = 1))) := by
  have hc : check_interrupts proc
      = { proc with irqreturn := proc.pc, pc := proc.irqhandler, in_interrupt := true } := by
    unfold check_interrupts
    unfold irq_pending at hirq
    rw [hin]
    simp only [Bool.not_false, if_true]
    rw [if_pos hirq]
  have hq := run_instructions_irqreturn body (check_interrupts proc) q hrun hbody
  refine ⟨by rw [hc], by rw [hc], by rw [hc], ?_, ?_, ?_⟩
  · refine ⟨_, execute_reti q reti hv hop, ?_, rfl⟩
    show q.irqreturn = proc.pc
    rw [hq, hc]
  · intro s
    exact ⟨_, execute_reti s reti hv hop, rfl, rfl⟩
  · intro h0 h1 h2
    exact irq_pending_bits proc h0 h1 h2

/-- C16 on `irq_scenario` (PC = 5, irqhandler = 0x100, line 0 enabled and asserted):
after `check_interrupts`, the handler body `add $t0, $imm1, $zero, $zero, 5, 0` and
`reti` (word 120000000000), PC is 5 again and in_interrupt is false. -/
theorem interrupt_entry_and_return_witness :
    (check_interrupts irq_scenario).pc = 0x100
      ∧ (state_after (run_instructions (check_interrupts irq_scenario)
          [decode_instruction 0x007100005000]) irq_scenario).pc = 0x101
      ∧ ∃ p, execute_instruction
            (state_after (run_instructions (check_interrupts irq_scenario)
              [decode_instruction 0x007100005000]) irq_scenario)
            (decode_instruction 0x120000000000) = .ok p
          ∧ p.pc = 5 ∧ p.in_interrupt = false :=
  ⟨by rfl, by rfl,
   (interrupt_entry_and_return irq_scenario
    (state_after (run_instructions (check_interrupts irq_scenario)
      [decode_instruction 0x007100005000]) irq_scenario)
    [decode_instruction 0x007100005000] (decode_instruction 0x120000000000)
    (by rfl) (by decide) (by rfl) (by rfl) (by unfold valid_fields; decide)
    (by rfl)).2.2.2.1⟩

/-- C17: `check_interrupts` changes nothing when in_interrupt is true, whatever the
status bits; when in_interrupt is false and (irq0enable & irq0status) |
(irq1enable & irq1status) | (irq2enable & irq2status) is non-zero it sets irqreturn to
the current PC, PC to irqhandler and in_interrupt to true, every other field unchanged;
when that value is zero it changes nothing. -/
theorem interrupt_arbiter (proc : Processor) :
    irq_pending proc = ((proc.irq0enable &&& proc.irq0status)
        ||| (proc.irq1enable &&& proc.irq1status) ||| (proc.irq2enable &&& proc.irq2status))
      ∧ (proc.in_interrupt = true → check_interrupts proc = proc)
      ∧ (proc.in_interrupt = false → irq_pending proc ≠ 0 →
          check_interrupts proc
            = { proc with irqreturn := proc.pc, pc := proc.irqhandler, in_interrupt := true })
      ∧ (proc.in_interrupt = false → irq_pending proc = 0 → check_interrupts proc = proc) := by
  refine ⟨rfl, ?_, ?_, ?_⟩
  · intro hin
    unfold check_interrupts
    rw [hin]
    rfl
  · intro hin hirq
    unfold check_interrupts
    unfold irq_pending at hirq
    rw [hin]
    simp only [Bool.not_false, if_true]
    rw [if_pos hirq]
  · intro hin hirq
    unfold check_interrupts
    unfold irq_pending at hirq
    rw [hin]
    simp only [Bool.not_false, if_true]
    rw [if_neg (not_not.mpr hirq)]

/-- C17 on `handler_scenario` (in_interrupt true, line 1 enabled and asserted): PC,
irqreturn and in_interrupt are left as they are. -/
theorem interrupt_arbiter_witness :
    (check_interrupts handler_scenario).pc = 9
      ∧ (check_interrupts handler_scenario).irqreturn = 3
      ∧ (check_interrupts handler_scenario).in_interrupt = true := by
  rw [(interrupt_arbiter handler_scenario).2.1 (by rfl)]
  exact ⟨by rfl, by rfl, by rfl⟩

/-! ## Simulator: I/O ports (C18, C19) -/

/-- A write to a port of 23 or more changes nothing. -/
theorem handle_io_write_out_of_range (proc : Processor) (p v : Nat) (hp : 23 ≤ p) :
    handle_io_write proc p v = proc := by
  unfold handle_io_write
  split
  all_goals first
    | (exfalso; omega)
    | rfl

/-- A read of a port of 23 or more yields 0. -/
theorem handle_io_read_out_of_range (proc : Processor) (p : Nat) (hp : 23 ≤ p) :
    handle_io_read proc p = 0 := by
  unfold handle_io_read
  split
  all_goals first
    | (exfalso; omega)
    | rfl

/-- Port 14 reads back the command written, whether or not it starts a transfer. -/
theorem diskcmd_round_trip (proc : Processor) (v : Nat) :
    handle_io_read (handle_io_write proc 14 v) 14 = v := by
  show (if v = 1 ∨ v = 2 then
      { proc with diskcmd := v, diskstatus := 1, disk_busy_cycles := 0 }
    else { proc with diskcmd := v }).diskcmd = v
  split_ifs <;> rfl

/-- C18: for every state and value v, `handle_io_write` to port p followed by
`handle_io_read` of port p yields v for the ports 6, 7, 9, 10, 12, 13, 14, 15, 16 and
20, v & 1 for the ports 0..5 and 11, and v & 0xFF for port 21; a write to port 8, 18, 19
or to any port of 23 or more leaves the whole state unchanged; a read of port 18, 19 or
of any port of 23 or more yields 0. -/
theorem io_round_trip (proc : Processor) (v : Nat) :
    (∀ p ∈ [6, 7, 9, 10, 12, 13, 14, 15, 16, 20],
        handle_io_read (handle_io_write proc p v) p = v)
      ∧ (∀ p ∈ [0, 1, 2, 3, 4, 5, 11],
          handle_io_read (handle_io_write proc p v) p = v &&& 1)
      ∧ handle_io_read (handle_io_write proc 21 v) 21 = v &&& 0xFF
      ∧ handle_io_write proc 8 v = proc
      ∧ handle_io_write proc 18 v = proc
      ∧ handle_io_write proc 19 v = proc
      ∧ (∀ p, 23 ≤ p → handle_io_write proc p v = proc)
      ∧ handle_io_read proc 18 = 0
      ∧ handle_io_read proc 19 = 0
      ∧ (∀ p, 23 ≤ p → handle_io_read proc p = 0) := by
  refine ⟨?_, ?_, rfl, rfl, rfl, rfl, ?_, rfl, rfl, ?_⟩
  · intro p hp
    simp only [List.mem_cons, List.mem_singleton, List.not_mem_nil, or_false] at hp
    rcases hp with h | h | h | h | h | h | h | h | h | h <;> subst h
    all_goals first
      | rfl
      | exact diskcmd_round_trip proc v
  · intro p hp
    simp only [List.mem_cons, List.mem_singleton, List.not_mem_nil, or_false] at hp
    rcases hp with h | h | h | h | h | h | h <;> subst h <;> rfl
  · intro p hp
    exact handle_io_write_out_of_range proc p v hp
  · intro p hp
    exact handle_io_read_out_of_range proc p hp

/-- C18 at the value 0x1FF on the zero-initialised processor: port 9 reads back 0x1FF,
port 0 reads back 1 and port 21 reads back 0xFF. -/
theorem io_round_trip_witness :
    handle_io_read (handle_io_write init_processor 9 0x1FF) 9 = 0x1FF
      ∧ handle_io_read (handle_io_write init_processor 0 0x1FF) 0 = 1
      ∧ handle_io_read (handle_io_write init_processor 21 0x1FF) 21 = 0xFF :=
  ⟨(io_round_trip init_processor 0x1FF).1 9 (by decide),
   ((io_round_trip init_processor 0x1FF).2.1 0 (by decide)).trans (by decide),
   ((io_round_trip init_processor 0x1FF).2.2.1).trans (by decide)⟩

/-- C19 (counterexample): `handle_io_write` has no case for port 17; writing 5 to port 17
of the zero-initialised processor leaves diskstatus at 0, and a following read of
port 17 yields 0, not 5. -/
theorem diskstatus_write_is_ignored :
    (handle_io_write init_processor 17 5).diskstatus = 0
      ∧ handle_io_read (handle_io_write init_processor 17 5) 17 = 0
      ∧ handle_io_read (handle_io_write init_processor 17 5) 17 ≠ 5 :=
  ⟨by rfl, by rfl, by decide⟩

/-- C19 (amended): for every state and value v, `handle_io_write` to port 17 leaves the
whole state unchanged, so that a following `handle_io_read` of port 17 yields the
diskstatus the state had before the write. -/
theorem diskstatus_is_read_only (proc : Processor) (v : Nat) :
    handle_io_write proc 17 v = proc
      ∧ handle_io_read (handle_io_write proc 17 v) 17 = proc.diskstatus :=
  ⟨rfl, rfl⟩

/-! ## Simulator: timer (C20) -/

/-- The first nine enabled ticks from timercurrent = 0 with timermax = 10 only count. -/
theorem handle_timer_counts (proc : Processor) (he : proc.timerenable ≠ 0)
    (hm : proc.timermax = 10) (h0 : proc.timercurrent = 0) :
    ∀ k, k < 10 → handle_timer^[k] proc = { proc with timercurrent := k } := by
  intro k
  induction k with
  | zero =>
    intro _
    show proc = { proc with timercurrent := 0 }
    rw [← h0]
  | succ k ih =>
    intro hk
    rw [Function.iterate_succ_apply', ih (by omega)]
    unfold handle_timer
    have h1 : u32 (k + 1) = k + 1 := Nat.mod_eq_of_lt (by omega)
    simp only [h1, hm]
    rw [if_pos he, if_neg (by omega)]

/-- C20: `handle_timer` changes nothing when timerenable = 0; when timerenable != 0 it
sets timercurrent to timercurrent + 1 (a 32-bit increment) if that is below timermax,
and otherwise sets irq0status to 1 and timercurrent to 0; a non-zero irq0status stays
non-zero, and no field other than timercurrent and irq0status changes.  With
timerenable != 0, timermax = 10, timercurrent = 0 and irq0status = 0, the status is 0
after each of the first nine ticks and 1 after the tenth. -/
theorem timer_tick (proc : Processor) :
    (proc.timerenable = 0 → handle_timer proc = proc)
      ∧ (proc.timerenable ≠ 0 → (proc.timercurrent + 1) % 4294967296 < proc.timermax →
          handle_timer proc
            = { proc with timercurrent := (proc.timercurrent + 1) % 4294967296 })
      ∧ (proc.timerenable ≠ 0 → proc.timermax ≤ (proc.timercurrent + 1) % 4294967296 →
          handle_timer proc = { proc with irq0status := 1, timercurrent := 0 })
      ∧ (proc.irq0status ≠ 0 → (handle_timer proc).irq0status ≠ 0)
      ∧ { handle_timer proc with
            timercurrent := proc.timercurrent, irq0status := proc.irq0status } = proc
      ∧ (proc.timerenable ≠ 0 → proc.timermax = 10 → proc.timercurrent = 0 →
          proc.irq0status = 0 →
          (∀ k, k < 10 → (handle_timer^[k] proc).irq0status = 0
              ∧ (handle_timer^[k] proc).timercurrent = k)
            ∧ (handle_timer^[10] proc).irq0status = 1
            ∧ (handle_timer^[10] proc).timercurrent = 0) := by
  refine ⟨?_, ?_, ?_, ?_, ?_, ?_⟩
  · intro he
    unfold handle_timer
    rw [if_neg (not_not.mpr he)]
  · intro he hlt
    unfold handle_timer
    rw [if_pos he, if_neg (by unfold u32; omega)]
    rfl
  · intro he hge
    unfold handle_timer
    rw [if_pos he, if_pos (by unfold u32; omega)]
  · intro hs
    unfold handle_timer
    split_ifs
    · exact Nat.one_ne_zero
    · exact hs
    · exact hs
  · unfold handle_timer
    split_ifs <;> rfl
  · intro he hm h0 hs
    have hc := handle_timer_counts proc he hm h0
    refine ⟨?_, ?_, ?_⟩
    · intro k hk
      rw [hc k hk]
      exact ⟨hs, rfl⟩
    · rw [Function.iterate_succ_apply', hc 9 (by omega)]
      unfold handle_timer
      simp only [hm]
      rw [if_pos he, if_pos (by decide)]
    · rw [Function.iterate_succ_apply', hc 9 (by omega)]
      unfold handle_timer
      simp only [hm]
      rw [if_pos he, if_pos (by decide)]

/-- C20 on the zero-initialised processor with timerenable = 1 and timermax = 10: the
status is 0 after nine ticks and 1 after ten. -/
theorem timer_tick_witness :
    (handle_timer^[9] { init_processor with timerenable := 1, timermax := 10 }).irq0status = 0
      ∧ (handle_timer^[10] { init_processor with timerenable := 1, timermax := 10 }).irq0status
          = 1 :=
  ⟨(((timer_tick { init_processor with timerenable := 1, timermax := 10 }).2.2.2.2.2
      (by decide) (by rfl) (by rfl) (by rfl)).1 9 (by decide)).1,
   ((timer_tick { init_processor with timerenable := 1, timermax := 10 }).2.2.2.2.2
      (by decide) (by rfl) (by rfl) (by rfl)).2.1⟩

/-! ## Simulator: disk transfer (C21) -/

/-- A write of 1 or 2 to port 14 stores the command, sets diskstatus and resets the busy
counter. -/
theorem handle_io_write_diskcmd (proc : Processor) (v : Nat) (hv : v = 1 ∨ v = 2) :
    handle_io_write proc 14 v
      = { proc with diskcmd := v, diskstatus := 1, disk_busy_cycles := 0 } := by
  simp only [handle_io_write, if_pos hv]

/-- The read loop of `handle_disk` on a sector and a buffer that are in range. -/
theorem disk_read_loop_in_range (proc : Processor) (hs : proc.disksector < 128)
    (hb : proc.diskbuffer + 127 < 4096) :
    ∀ n, n ≤ 128 → disk_read_loop proc n
      = .ok (fun j => if proc.diskbuffer ≤ j ∧ j < proc.diskbuffer + n then
          proc.disk (proc.disksector * 128 + (j - proc.diskbuffer)) else proc.dmem j) := by
  intro n
  induction n with
  | zero =>
    intro _
    unfold disk_read_loop
    congr 1
    funext j
    rw [if_neg (by omega)]
  | succ i ih =>
    intro hn
    unfold disk_read_loop
    rw [ih (by omega)]
    have h1 : u32 (proc.diskbuffer + i) = proc.diskbuffer + i :=
      Nat.mod_eq_of_lt (by omega)
    have h2 : u32 (proc.disksector * 128 + i) = proc.disksector * 128 + i :=
      Nat.mod_eq_of_lt (by omega)
    simp only [h1, h2]
    rw [if_pos (by unfold MEMORY_SIZE DISK_SIZE; omega)]
    congr 1
    funext j
    unfold upd
    by_cases hj : j = proc.diskbuffer + i
    · rw [if_pos hj, if_pos (by omega), hj, Nat.add_sub_cancel_left]
    · rw [if_neg hj]
      beta_reduce
      by_cases hr : proc.diskbuffer ≤ j ∧ j < proc.diskbuffer + i
      · rw [if_pos hr, if_pos (by omega)]
      · rw [if_neg hr, if_neg (by omega)]

/-- The write loop of `handle_disk` on a sector and a buffer that are in range. -/
theorem disk_write_loop_in_range (proc : Processor) (hs : proc.disksector < 128)
    (hb : proc.diskbuffer + 127 < 4096) :
    ∀ n, n ≤ 128 → disk_write_loop proc n
      = .ok (fun j => if proc.disksector * 128 ≤ j ∧ j < proc.disksector * 128 + n then
          proc.dmem (proc.diskbuffer + (j - proc.disksector * 128)) else proc.disk j) := by
  intro n
  induction n with
  | zero =>
    intro _
    unfold disk_write_loop
    congr 1
    funext j
    rw [if_neg (by omega)]
  | succ i ih =>
    intro hn
    unfold disk_write_loop
    rw [ih (by omega)]
    have h1 : u32 (proc.diskbuffer + i) = proc.diskbuffer + i :=
      Nat.mod_eq_of_lt (by omega)
    have h2 : u32 (proc.disksector * 128 + i) = proc.disksector * 128 + i :=
      Nat.mod_eq_of_lt (by omega)
    simp only [h1, h2]
    rw [if_pos (by unfold MEMORY_SIZE DISK_SIZE; omega)]
    congr 1
    funext j
    unfold upd
    by_cases hj : j = proc.disksector * 128 + i
    · rw [if_pos hj, if_pos (by omega), hj, Nat.add_sub_cancel_left]
    · rw [if_neg hj]
      beta_reduce
      by_cases hr : proc.disksector * 128 ≤ j ∧ j < proc.disksector * 128 + i
      · rw [if_pos hr, if_pos (by omega)]
      · rw [if_neg hr, if_neg (by omega)]

/-- A call of `handle_disk` on a busy disk whose counter stays below 1024 only
increments the counter. -/
theorem handle_disk_counts (p : Processor) (hs : p.diskstatus ≠ 0)
    (hc : p.disk_busy_cycles + 1 < 1024) :
    handle_disk p = .ok { p with disk_busy_cycles := p.disk_busy_cycles + 1 } := by
  unfold handle_disk
  have h1 : u32 (p.disk_busy_cycles + 1) = p.disk_busy_cycles + 1 :=
    Nat.mod_eq_of_lt (by omega)
  rw [if_pos hs, h1, if_neg (by unfold DISK_BUSY_CYCLES; omega)]

/-- The first 1023 calls of `handle_disk` after a command only count. -/
theorem disk_ticks_count (s : Processor) (hs : s.diskstatus ≠ 0)
    (hc : s.disk_busy_cycles = 0) :
    ∀ k, k ≤ 1023 → disk_ticks k s = .ok { s with disk_busy_cycles := k } := by
  intro k
  induction k with
  | zero =>
    intro _
    unfold disk_ticks
    rw [← hc]
  | succ k ih =>
    intro hk
    unfold disk_ticks
    rw [ih (by omega)]
    exact handle_disk_counts { s with disk_busy_cycles := k } hs (by show k + 1 < 1024; omega)

/-- The 1024th call of `handle_disk` after a read command on an in-range sector and
buffer. -/
theorem handle_disk_read_done (s : Processor) (hst : s.diskstatus ≠ 0)
    (hc : s.disk_busy_cycles = 1023) (hcmd : s.diskcmd = 1) (hs : s.disksector < 128)
    (hb : s.diskbuffer + 127 < 4096) :
    ∃ q, handle_disk s = .ok q ∧ q.diskstatus = 0 ∧ q.diskcmd = 0 ∧ q.irq1status = 1
      ∧ q.disk = s.disk
      ∧ (∀ i, i < 128 → q.dmem (s.diskbuffer + i) = s.disk (s.disksector * 128 + i))
      ∧ (∀ j, ¬ (s.diskbuffer ≤ j ∧ j < s.diskbuffer + 128) → q.dmem j = s.dmem j) := by
  unfold handle_disk
  rw [if_pos hst, hc, if_pos (by decide), if_pos hcmd,
    disk_read_loop_in_range s hs hb 128 (le_refl _)]
  refine ⟨_, rfl, rfl, rfl, rfl, rfl, ?_, ?_⟩
  · intro i hi
    simp only [disk_done]
    rw [if_pos (by omega), Nat.add_sub_cancel_left]
  · intro j hj
    simp only [disk_done]
    rw [if_neg hj]

/-- The 1024th call of `handle_disk` after a write command on an in-range sector and
buffer. -/
theorem handle_disk_write_done (s : Processor) (hst : s.diskstatus ≠ 0)
    (hc : s.disk_busy_cycles = 1023) (hcmd : s.diskcmd = 2) (hs : s.disksector < 128)
    (hb : s.diskbuffer + 127 < 4096) :
    ∃ q, handle_disk s = .ok q ∧ q.diskstatus = 0 ∧ q.diskcmd = 0 ∧ q.irq1status = 1
      ∧ q.dmem = s.dmem
      ∧ (∀ i, i < 128 → q.disk (s.disksector * 128 + i) = s.dmem (s.diskbuffer + i))
      ∧ (∀ j, ¬ (s.disksector * 128 ≤ j ∧ j < s.disksector * 128 + 128) →
          q.disk j = s.disk j) := by
  unfold handle_disk
  rw [if_pos hst, hc, if_pos (by decide), if_neg (by rw [hcmd]; decide), if_pos hcmd,
    disk_write_loop_in_range s hs hb 128 (le_refl _)]
  refine ⟨_, rfl, rfl, rfl, rfl, rfl, ?_, ?_⟩
  · intro i hi
    simp only [disk_done]
    rw [if_pos (by omega), Nat.add_sub_cancel_left]
  · intro j hj
    simp only [disk_done]
    rw [if_neg hj]

/-- C21: after `handle_io_write` of v in {1, 2} to port 14 (diskstatus = 1, busy counter
0), with disksector < 128 and diskbuffer + 127 < 4096, each of the first 1023 calls of
`handle_disk` returns and changes only the busy counter, and the 1024th call returns
with diskstatus = 0, diskcmd = 0, irq1status = 1 and, for v = 1, dmem[diskbuffer + i] =
disk[disksector*128 + i] for i in 0..127, every other word of dmem and the whole disk
unchanged, for v = 2 disk[disksector*128 + i] = dmem[diskbuffer + i] for i in 0..127,
every other word of the disk and the whole dmem unchanged.  In any state with the disk
busy and the counter below 1023, a call of `handle_disk` only increments the counter. -/
theorem disk_completion (proc : Processor) (v : Nat) (hv : v = 1 ∨ v = 2)
    (hs : proc.disksector < 128) (hb : proc.diskbuffer + 127 < 4096) :
    (handle_io_write proc 14 v).diskstatus = 1
      ∧ (handle_io_write proc 14 v).disk_busy_cycles = 0
      ∧ (∀ k, k ≤ 1023 → disk_ticks k (handle_io_write proc 14 v)
          = .ok { handle_io_write proc 14 v with disk_busy_cycles := k })
      ∧ (∃ q, disk_ticks 1024 (handle_io_write proc 14 v) = .ok q
          ∧ q.diskstatus = 0 ∧ q.diskcmd = 0 ∧ q.irq1status = 1
          ∧ (v = 1 →
              (∀ i, i < 128 →
                q.dmem (proc.diskbuffer + i) = proc.disk (proc.disksector * 128 + i))
              ∧ (∀ j, ¬ (proc.diskbuffer ≤ j ∧ j < proc.diskbuffer + 128) →
                  q.dmem j = proc.dmem j)
              ∧ q.disk = proc.disk)
          ∧ (v = 2 →
              (∀ i, i < 128 →
                q.disk (proc.disksector * 128 + i) = proc.dmem (proc.diskbuffer + i))
              ∧ (∀ j, ¬ (proc.disksector * 128 ≤ j ∧ j < proc.disksector * 128 + 128) →
                  q.disk j = proc.disk j)
              ∧ q.dmem = proc.dmem))
      ∧ (∀ p : Processor, p.diskstatus ≠ 0 → p.disk_busy_cycles + 1 < 1024 →
          handle_disk p = .ok { p with disk_busy_cycles := p.disk_busy_cycles + 1 }) := by
  have h0 := handle_io_write_diskcmd proc v hv
  have hst : (handle_io_write proc 14 v).diskstatus ≠ 0 := by
    rw [h0]
    exact Nat.one_ne_zero
  have hcount := disk_ticks_count (handle_io_write proc 14 v) hst (by rw [h0])
  refine ⟨by rw [h0], by rw [h0], hcount, ?_, handle_disk_counts⟩
  have h1024 : disk_ticks 1024 (handle_io_write proc 14 v)
      = handle_disk { handle_io_write proc 14 v with disk_busy_cycles := 1023 } := by
    rw [show (1024 : Nat) = 1023 + 1 from rfl, disk_ticks, hcount 1023 (le_refl _)]
  rw [h1024]
  have hcmd : (handle_io_write proc 14 v).diskcmd = v := by rw [h0]
  have hsec : (handle_io_write proc 14 v).disksector = proc.disksector := by rw [h0]
  have hbuf : (handle_io_write proc 14 v).diskbuffer = proc.diskbuffer := by rw [h0]
  have hdm : (handle_io_write proc 14 v).dmem = proc.dmem := by rw [h0]
  have hdk : (handle_io_write proc 14 v).disk = proc.disk := by rw [h0]
  rcases hv with hv | hv
  · obtain ⟨q, hq, a1, a2, a3, a4, a5, a6⟩ := handle_disk_read_done
      { handle_io_write proc 14 v with disk_busy_cycles := 1023 } hst rfl (hcmd.trans hv)
      (by show (handle_io_write proc 14 v).disksector < 128; rw [hsec]; exact hs)
      (by show (handle_io_write proc 14 v).diskbuffer + 127 < 4096; rw [hbuf]; exact hb)
    refine ⟨q, hq, a1, a2, a3, ?_, ?_⟩
    · intro _
      refine ⟨?_, ?_, a4.trans hdk⟩
      · intro i hi
        have := a5 i hi
        simp only [hsec, hbuf, hdk] at this
        exact this
      · intro j hj
        have := a6 j (by simp only [hbuf]; exact hj)
        simp only [hdm] at this
        exact this
    · intro h
      omega
  · obtain ⟨q, hq, a1, a2, a3, a4, a5, a6⟩ := handle_disk_write_done
      { handle_io_write proc 14 v with disk_busy_cycles := 1023 } hst rfl (hcmd.trans hv)
      (by show (handle_io_write proc 14 v).disksector < 128; rw [hsec]; exact hs)
      (by show (handle_io_write proc 14 v).diskbuffer + 127 < 4096; rw [hbuf]; exact hb)
    refine ⟨q, hq, a1, a2, a3, ?_, ?_⟩
    · intro h
      omega
    · intro _
      refine ⟨?_, ?_, a4.trans hdm⟩
      · intro i hi
        have := a5 i hi
        simp only [hsec, hbuf, hdm] at this
        exact this
      · intro j hj
        have := a6 j (by simp only [hsec]; exact hj)
        simp only [hdk] at this
        exact this

/-- C21 on `disk_scenario` (sector 0, buffer 0, disk word i = i + 1) with a read command:
after 1024 calls dmem[5] = 6, diskstatus = 0 and irq1status = 1. -/
theorem disk_completion_witness :
    ∃ q, disk_ticks 1024 (handle_io_write disk_scenario 14 1) = .ok q
      ∧ q.dmem 5 = 6 ∧ q.diskstatus = 0 ∧ q.irq1status = 1 := by
  obtain ⟨q, hq, h1, _, h3, hr, _⟩ :=
    (disk_completion disk_scenario 1 (Or.inl rfl) (by decide) (by decide)).2.2.2.1
  exact ⟨q, hq, (hr rfl).1 5 (by decide), h1, h3⟩

/-! ## Simulator: monitor (C22) -/

/-- Rows of equal length printed one after the other: entry `i` of the whole list is
column `i % m` of row `i / m`. -/
theorem rows_flat (f : Nat → Nat → Nat) (m : Nat) (hm : 0 < m) :
    ∀ n, (List.range n).flatMap (fun y => (List.range m).map (fun x => f y x))
      = (List.range (n * m)).map (fun i => f (i / m) (i % m)) := by
  intro n
  induction n with
  | zero => simp
  | succ n ih =>
    rw [List.range_succ, List.flatMap_append, ih, Nat.succ_mul, List.range_add,
      List.map_append]
    congr 1
    simp only [List.flatMap_cons, List.flatMap_nil, List.append_nil, List.map_map]
    apply List.map_congr_left
    intro x hx
    have hx' : x < m := List.mem_range.mp hx
    simp only [Function.comp]
    rw [Nat.mul_comm n m, Nat.mul_add_div hm, Nat.mul_add_mod, Nat.div_eq_of_lt hx',
      Nat.mod_eq_of_lt hx', Nat.add_zero]

/-- Line `a` of `monitor.txt` is cell (x = a mod 256, y = a div 256). -/
theorem write_monitor_line (proc : Processor) (a : Nat) (ha : a < 65536) :
    (write_monitor proc)[a]? = some (proc.monitor_buffer (a / 256) (a % 256)) := by
  unfold write_monitor MONITOR_SIZE
  rw [rows_flat proc.monitor_buffer 256 (by decide) 256, List.getElem?_map,
    List.getElem?_range (by omega)]
  rfl

/-- The write of 1 to port 22 with monitoraddr below 65536. -/
theorem monitor_write_in_range (proc : Processor) (ha : proc.monitoraddr < 65536) :
    handle_io_write proc 22 1
      = { proc with monitor_buffer := fun y x =>
            if y = proc.monitoraddr / 256 ∧ x = proc.monitoraddr % 256 then
              proc.monitordata % 256
            else proc.monitor_buffer y x } := by
  have h : proc.monitoraddr % MONITOR_SIZE < MONITOR_SIZE
      ∧ proc.monitoraddr / MONITOR_SIZE < MONITOR_SIZE := by
    unfold MONITOR_SIZE
    omega
  simp only [handle_io_write, if_true, if_pos h]
  rfl

/-- A port write leaves monitordata a byte: port 21 stores `value & 0xFF` and no other
port stores to the field. -/
theorem handle_io_write_monitor_byte (proc : Processor) (port v : Nat)
    (hinv : monitor_byte proc) : monitor_byte (handle_io_write proc port v) := by
  have hb : v &&& 0xFF < 256 := by
    have := Nat.and_le_right (n := v) (m := 0xFF)
    omega
  unfold handle_io_write
  split
  all_goals first
    | exact hinv
    | exact hb
    | (split_ifs <;> exact hinv)

/-- The opcode switch leaves monitordata a byte. -/
theorem execute_opcode_monitor_byte (proc : Processor) (inst : Instruction) (q : Processor)
    (b : Bool) (h : execute_opcode proc inst = .ok (q, b)) (hinv : monitor_byte proc) :
    monitor_byte q := by
  revert h
  refine opcode_match_cases
    (fun r : Except Err (Processor × Bool) => r = .ok (q, b) → monitor_byte q)
    inst.opcode ?_ ?_ ?_ ?_ ?_ ?_ ?_ ?_ ?_ ?_ ?_ ?_ ?_ ?_ ?_ ?_ ?_ ?_ ?_ ?_ ?_ ?_ ?_
  case refine_21 =>
    intro _ h
    cases h
    exact handle_io_write_monitor_byte _ _ _ hinv
  all_goals
    intro _ h
    first
      | (split_ifs at h
         all_goals
           cases h
           try exact hinv)
      | (cases h
         exact hinv)

/-- An instruction leaves monitordata a byte. -/
theorem execute_instruction_monitor_byte (proc p : Processor) (inst : Instruction)
    (h : execute_instruction proc inst = .ok p) (hinv : monitor_byte proc) :
    monitor_byte p := by
  unfold execute_instruction at h
  split_ifs at h
  split at h
  · cases h
  · rename_i q b heq
    have hq := execute_opcode_monitor_byte _ inst q b heq hinv
    split_ifs at h <;>
    · simp only [Except.ok.injEq] at h
      subst h
      exact hq

/-- A call of `handle_disk` leaves monitordata as it is. -/
theorem handle_disk_monitordata (proc p : Processor) (h : handle_disk proc = .ok p) :
    p.monitordata = proc.monitordata := by
  unfold handle_disk at h
  split_ifs at h
  · split at h
    · cases h
    · cases h
      rfl
  · split at h
    · cases h
    · cases h
      rfl
  · cases h
    rfl
  · cases h
    rfl
  · cases h
    rfl

/-- The first half of a cycle leaves monitordata a byte. -/
theorem fetch_stage_monitor_byte (irq2 : List Nat) (proc p : Processor) (w : Nat)
    (h : fetch_stage irq2 proc = .ok (p, w)) (hinv : monitor_byte proc) :
    monitor_byte p := by
  have ht : monitor_byte (handle_timer proc) := by
    unfold handle_timer
    split_ifs <;> exact hinv
  unfold fetch_stage update_devices at h
  cases hd : handle_disk (handle_timer proc) with
  | error e => rw [hd] at h; cases h
  | ok p1 =>
    rw [hd] at h
    have h1 : monitor_byte p1 := by
      unfold monitor_byte
      rw [handle_disk_monitordata _ p1 hd]
      exact ht
    have h2 : monitor_byte (check_interrupts p1) := by
      unfold check_interrupts
      split_ifs <;> exact h1
    have h3 : monitor_byte (check_irq2 (check_interrupts p1) irq2) := by
      unfold check_irq2
      split_ifs <;> exact h2
    simp only at h
    split_ifs at h
    cases h
    exact h3

/-- One cycle leaves monitordata a byte. -/
theorem simulate_cycle_monitor_byte (irq2 : List Nat) (s s1 : Sim)
    (h : simulate_cycle irq2 s = .ok s1) (hinv : monitor_byte s.proc) :
    monitor_byte s1.proc := by
  unfold simulate_cycle at h
  cases hf : fetch_stage irq2 s.proc with
  | error e => rw [hf] at h; cases h
  | ok pw =>
    obtain ⟨p, w⟩ := pw
    have hp := fetch_stage_monitor_byte irq2 s.proc p w hf hinv
    rw [hf] at h
    simp only at h
    cases he : execute_instruction p (decode_instruction w) with
    | error e => rw [he] at h; cases h
    | ok p1 =>
      rw [he] at h
      have h1 := execute_instruction_monitor_byte p p1 _ he hp
      simp only at h
      cases hh : hw_trace p1 (decode_instruction w) with
      | error e => rw [hh] at h; cases h
      | ok hwl =>
        rw [hh] at h
        cases h
        exact h1

/-- Every state of a run has monitordata a byte when its first state has. -/
theorem simulate_loop_monitor_byte (irq2 : List Nat) :
    ∀ (n : Nat) (s r : Sim), simulate_loop irq2 n s = .ok r → monitor_byte s.proc →
      monitor_byte r.proc := by
  intro n
  induction n with
  | zero =>
    intro s r h hinv
    simp only [simulate_loop, Except.ok.injEq] at h
    rw [← h]
    exact hinv
  | succ n ih =>
    intro s r h hinv
    unfold simulate_loop at h
    by_cases hh : s.proc.halt = true
    · rw [if_pos hh] at h
      cases h
      exact hinv
    · rw [if_neg hh] at h
      cases hc : simulate_cycle irq2 s with
      | error e => rw [hc] at h; cases h
      | ok s1 =>
        rw [hc] at h
        exact ih s1 r h (simulate_cycle_monitor_byte irq2 s s1 hc hinv)

/-- C22: for every state a run of the simulator reaches (monitordata is a byte there:
the field starts at 0 and its only assignment, the write to port 21, stores
`value & 0xFF`), with a = monitoraddr, `handle_io_write` of 1 to port 22 sets
`monitor_buffer[a div 256][a mod 256]` to monitordata when a < 65536, changing no other
cell and no other field; when a >= 65536, or when the value written is not 1, the whole
state is unchanged.  After writing 0x7F to port 21, 65 to port 20 and 1 to port 22,
cell (x = 65, y = 0) and line 65 (from 0) of `monitor.txt` hold 0x7F.  The condition
holds in every state `simulate_loop` returns from the initial state, and the first half
of a cycle keeps it. -/
theorem monitor_pixel_write (proc : Processor) (v : Nat) (hmd : monitor_byte proc) :
    (proc.monitoraddr < 65536 →
        (handle_io_write proc 22 1).monitor_buffer (proc.monitoraddr / 256)
            (proc.monitoraddr % 256) = proc.monitordata
        ∧ (∀ y x, ¬ (y = proc.monitoraddr / 256 ∧ x = proc.monitoraddr % 256) →
            (handle_io_write proc 22 1).monitor_buffer y x = proc.monitor_buffer y x))
      ∧ { handle_io_write proc 22 1 with monitor_buffer := proc.monitor_buffer } = proc
      ∧ (65536 ≤ proc.monitoraddr → handle_io_write proc 22 1 = proc)
      ∧ (v ≠ 1 → handle_io_write proc 22 v = proc)
      ∧ (handle_io_write (handle_io_write (handle_io_write proc 21 0x7F) 20 65) 22 1
          ).monitor_buffer 0 65 = 0x7F
      ∧ (write_monitor
          (handle_io_write (handle_io_write (handle_io_write proc 21 0x7F) 20 65) 22 1))[65]?
          = some 0x7F
      ∧ (∀ (irq2 : List Nat) (n : Nat) (imem dmem disk : Nat → Nat) (s : Sim),
          simulate_loop irq2 n (sim_init imem dmem disk) = .ok s → monitor_byte s.proc)
      ∧ (∀ (irq2 : List Nat) (p : Processor) (w : Nat),
          fetch_stage irq2 proc = .ok (p, w) → monitor_byte p) := by
  have hsc : (handle_io_write (handle_io_write (handle_io_write proc 21 0x7F) 20 65) 22 1
      ).monitor_buffer 0 65 = 0x7F := by
    rw [monitor_write_in_range _ (by show 65 < 65536; decide)]
    show (if 0 = 65 / 256 ∧ 65 = 65 % 256 then (0x7F &&& 0xFF) % 256
      else proc.monitor_buffer 0 65) = 0x7F
    rw [if_pos (by decide)]
    decide
  refine ⟨?_, ?_, ?_, ?_, hsc, ?_, ?_, ?_⟩
  · intro ha
    rw [monitor_write_in_range proc ha]
    refine ⟨?_, ?_⟩
    · show (if _ then _ else _) = _
      rw [if_pos ⟨rfl, rfl⟩, Nat.mod_eq_of_lt hmd]
    · intro y x hyx
      show (if _ then _ else _) = _
      rw [if_neg hyx]
  · by_cases ha : proc.monitoraddr < 65536
    · rw [monitor_write_in_range proc ha]
    · have h : ¬ (proc.monitoraddr % MONITOR_SIZE < MONITOR_SIZE
          ∧ proc.monitoraddr / MONITOR_SIZE < MONITOR_SIZE) := by
        unfold MONITOR_SIZE
        omega
      simp only [handle_io_write, if_true, if_neg h]
  · intro ha
    have h : ¬ (proc.monitoraddr % MONITOR_SIZE < MONITOR_SIZE
        ∧ proc.monitoraddr / MONITOR_SIZE < MONITOR_SIZE) := by
      unfold MONITOR_SIZE
      omega
    simp only [handle_io_write, if_true, if_neg h]
  · intro hv
    simp only [handle_io_write, if_neg hv]
  · rw [write_monitor_line _ 65 (by decide)]
    exact congrArg some hsc
  · intro irq2 n imem dmem disk s hs
    exact simulate_loop_monitor_byte irq2 n _ s hs (by show (0 : Nat) < 256; decide)
  · intro irq2 p w hf
    exact fetch_stage_monitor_byte irq2 proc p w hf hmd

/-- C22 on the zero-initialised processor: after the three writes, line 65 of
`monitor.txt` holds 0x7F and any other value than 1 written to port 22 changes
nothing. -/
theorem monitor_pixel_write_witness :
    (write_monitor (handle_io_write (handle_io_write
        (handle_io_write init_processor 21 0x7F) 20 65) 22 1))[65]? = some 0x7F
      ∧ (handle_io_write (handle_io_write (handle_io_write init_processor 21 0x7F) 20 65) 22 2
          ).monitor_buffer 0 65 = 0 :=
  ⟨(monitor_pixel_write init_processor 2 (by show (0 : Nat) < 256; decide)).2.2.2.2.2.1,
   by rw [(monitor_pixel_write (handle_io_write (handle_io_write init_processor 21 0x7F) 20 65)
      2 (by show (0x7F &&& 0xFF : Nat) < 256; decide)).2.2.2.1 (by decide)]; rfl⟩

/-! ## Simulator: range of PC and of the array accesses (C23, C25) -/

/-- C23: PC leaves [0, 4096).  The assembler emits 090001FFF000 for
`beq $zero, $zero, $zero, $imm1, -1, 0`; with that word at address 0, the first cycle
from the zero-initialised processor takes the branch to R1 = 0xFFFFFFFF, so the state
after one cycle has PC = 0xFFFFFFFF with the halt flag clear, and the fetch
`imem[pc]` of the second cycle is outside the array. -/
theorem pc_leaves_range :
    process_instruction 64 [] (parse_operands "beq $zero, $zero, $zero, $imm1, -1, 0".toList)
        = .ok (some (hexFixed 12 0x090001FFF000))
      ∧ jump_imem 0 = 0x090001FFF000
      ∧ (∃ s, simulate_loop [] 1 (sim_init jump_imem (fun _ => 0) (fun _ => 0)) = .ok s
          ∧ s.proc.pc = 0xFFFFFFFF ∧ ¬ s.proc.pc < 4096 ∧ s.proc.halt = false)
      ∧ simulate_loop [] 2 (sim_init jump_imem (fun _ => 0) (fun _ => 0))
          = .error .undefined_behaviour :=
  ⟨by rfl, by rfl, ⟨_, rfl, by rfl, by decide, by rfl⟩, by rfl⟩

/-- The read loop of `handle_disk` on sector 128 indexes the disk at 16384 or more in
its first iteration. -/
theorem disk_read_loop_sector_128 (p : Processor) (hs : p.disksector = 128) :
    ∀ n, disk_read_loop p (n + 1) = .error .undefined_behaviour := by
  intro n
  induction n with
  | zero =>
    have h : ¬ (u32 (p.diskbuffer + 0) < MEMORY_SIZE
        ∧ u32 (p.disksector * 128 + 0) < DISK_SIZE) := by
      rw [hs]
      intro hc
      exact absurd hc.2 (by decide)
    simp only [disk_read_loop, if_neg h]
  | succ n ih =>
    rw [disk_read_loop, ih]

/-- A read transfer from sector 128 faults when the busy counter reaches 1024. -/
theorem handle_disk_sector_128 (p : Processor) (hst : p.diskstatus ≠ 0)
    (hc : p.disk_busy_cycles = 1023) (hcmd : p.diskcmd = 1) (hs : p.disksector = 128) :
    handle_disk p = .error .undefined_behaviour := by
  unfold handle_disk
  rw [if_pos hst, hc, if_pos (by decide), if_pos hcmd, disk_read_loop_sector_128 p hs 127]

/-- C25: the simulator makes out-of-range accesses.  (1) With
`out $zero, $imm1, $zero, $imm2, 100, 5` at address 0, the first cycle looks up
`io_register_names[100]` for the HW-register trace, outside the 23 names.  (2) After the
one cycle of `jump_imem` PC is 0xFFFFFFFF and the next fetch reads `imem[0xFFFFFFFF]`.
(3) After `out` of 128 to port 15 and of 1 to port 14 (two cycles of `sector_imem`),
the disk is busy with disksector = 128; the next 1023 calls of `handle_disk` only
count, and the 1024th reads `disk[16384]`. -/
theorem simulator_faults :
    process_instruction 64 [] (parse_operands "out $zero, $imm1, $zero, $imm2, 100, 5".toList)
        = .ok (some (hexFixed 12 0x140102064005))
      ∧ port_imem 0 = 0x140102064005
      ∧ (∃ p w p1, fetch_stage [] (sim_init port_imem (fun _ => 0) (fun _ => 0)).proc
            = .ok (p, w)
          ∧ execute_instruction p (decode_instruction w) = .ok p1
          ∧ (decode_instruction w).opcode = 20
          ∧ u32 (p1.registers (decode_instruction w).rs
              + p1.registers (decode_instruction w).rt) = 100
          ∧ io_register_names[100]? = none
          ∧ hw_trace p1 (decode_instruction w) = .error .undefined_behaviour)
      ∧ simulate_cycle [] (sim_init port_imem (fun _ => 0) (fun _ => 0))
          = .error .undefined_behaviour
      ∧ (∃ s, simulate_loop [] 1 (sim_init jump_imem (fun _ => 0) (fun _ => 0)) = .ok s
          ∧ s.proc.halt = false ∧ ¬ s.proc.pc < MEMORY_SIZE
          ∧ fetch_stage [] s.proc = .error .undefined_behaviour)
      ∧ simulate_loop [] 2 (sim_init sector_imem (fun _ => 0) (fun _ => 0)) = .ok sector_run
      ∧ sector_run.proc.halt = false ∧ sector_run.proc.disksector = 128
      ∧ sector_run.proc.diskstatus = 1 ∧ sector_run.proc.diskcmd = 1
      ∧ sector_run.proc.disk_busy_cycles = 0
      ∧ (∀ k, k ≤ 1023 →
          disk_ticks k sector_run.proc = .ok { sector_run.proc with disk_busy_cycles := k })
      ∧ disk_ticks 1024 sector_run.proc = .error .undefined_behaviour := by
  have hst : sector_run.proc.diskstatus = 1 := by rfl
  have hcnt := disk_ticks_count sector_run.proc (by rw [hst]; decide) (by rfl)
  refine ⟨by rfl, by rfl, ⟨_, _, _, rfl, rfl, by rfl, by rfl, by rfl, by rfl⟩, by rfl,
    ⟨_, rfl, by rfl, by decide, by rfl⟩, by rfl, by rfl, by rfl, hst, by rfl, by rfl, hcnt, ?_⟩
  rw [show (1024 : Nat) = 1023 + 1 from rfl, disk_ticks, hcnt 1023 (le_refl _)]
  exact handle_disk_sector_128 { sector_run.proc with disk_busy_cycles := 1023 }
    (by show sector_run.proc.diskstatus ≠ 0; rw [hst]; decide) rfl (by rfl) (by rfl)

/-! ## Simulator: the terminal flag and the HW-register trace (C26, C27) -/

/-- The whole effect of `halt`. -/
theorem execute_halt (proc : Processor) (inst : Instruction) (hv : valid_fields inst)
    (hop : inst.opcode = 21) :
    execute_instruction proc inst
      = .ok { proc with registers := upd (imm_regs proc inst) 0 0, halt := true } := by
  have h : execute_opcode { proc with registers := imm_regs proc inst } inst
      = .ok ({ proc with registers := imm_regs proc inst, halt := true }, false) := by
    unfold execute_opcode
    rw [hop]
  rw [execute_instruction_valid proc inst hv, h]
  rfl

/-- C26: the terminal flag does not depend on bits 47..40 alone.  `decode_instruction`
keeps six bits of the opcode field, so the word 550000000000, whose bits 47..40 are
0x55 = 85, decodes to opcode 21 and the cycle that fetches it sets the halt flag; the
word 407100005000, whose bits 47..40 are 0x40 = 64, runs as `add` and writes R7 = 5.  In
every state, a word whose decoded opcode is 21 sets the halt flag and leaves PC
unchanged. -/
theorem opcode_byte_0x55_halts :
    (0x550000000000 >>> 40) % 256 = 0x55
      ∧ (decode_instruction 0x550000000000).opcode = 21
      ∧ (∃ s, simulate_cycle [] (sim_init (fun _ => 0x550000000000) (fun _ => 0) (fun _ => 0))
            = .ok s ∧ s.proc.halt = true)
      ∧ (0x407100005000 >>> 40) % 256 = 0x40
      ∧ (decode_instruction 0x407100005000).opcode = 0
      ∧ (∃ s, simulate_cycle [] (sim_init (fun _ => 0x407100005000) (fun _ => 0) (fun _ => 0))
            = .ok s ∧ s.proc.registers 7 = 5 ∧ s.proc.halt = false)
      ∧ (∀ (proc : Processor) (w : Nat), (decode_instruction w).opcode = 21 →
          ∃ p, execute_instruction proc (decode_instruction w) = .ok p
            ∧ p.halt = true ∧ p.pc = proc.pc) := by
  refine ⟨by decide, by rfl, ⟨_, rfl, by rfl⟩, by decide, by rfl, ⟨_, rfl, by rfl, by rfl⟩, ?_⟩
  intro proc w hop
  have hv : valid_fields (decode_instruction w) := by
    unfold valid_fields decode_instruction
    have h15 : ∀ x : Nat, x &&& 0xF < 16 := fun x =>
      Nat.lt_of_le_of_lt Nat.and_le_right (by decide)
    exact ⟨h15 _, h15 _, h15 _, h15 _⟩
  exact ⟨_, execute_halt proc _ hv hop, rfl, rfl⟩

/-- C27: the HW-register trace of an `in` whose rd is also rs names another port.  In the
run of `in_alias_imem`, the third instruction `in $t0, $t0, $zero, $zero, 0, 0` executes
with R7 = 9 and leds = 5: it reads port 9 (`leds`), whose value 5 goes to R7, and the
trace line is written for port R7 + R0 = 5 computed after the execution: its name is
`irq2status`, not `leds`. -/
theorem hw_trace_names_another_port :
    in_alias_imem 2 = 0x137700000000
      ∧ (decode_instruction 0x137700000000).opcode = 19
      ∧ (decode_instruction 0x137700000000).rd = 7
      ∧ (decode_instruction 0x137700000000).rs = 7
      ∧ (decode_instruction 0x137700000000).rt = 0
      ∧ (∃ s, simulate_loop [] 2 (sim_init in_alias_imem (fun _ => 0) (fun _ => 0)) = .ok s
          ∧ s.proc.pc = 2 ∧ s.proc.registers 7 = 9 ∧ s.proc.registers 0 = 0
          ∧ s.proc.leds = 5 ∧ handle_io_read s.proc 9 = 5)
      ∧ io_register_names[9]? = some "leds"
      ∧ io_register_names[5]? = some "irq2status"
      ∧ (∃ s, simulate_loop [] 3 (sim_init in_alias_imem (fun _ => 0) (fun _ => 0)) = .ok s
          ∧ s.proc.registers 7 = 5
          ∧ s.hwregtrace
            = [{ cycle := 0, name := "leds", action := "WRITE", value := 5 },
               { cycle := 2, name := "irq2status", action := "READ", value := 5 }]) :=
  ⟨by rfl, by rfl, by rfl, by rfl, by rfl, ⟨_, rfl, by rfl, by rfl, by rfl, by rfl, by rfl⟩,
   by rfl, by rfl, ⟨_, rfl, by rfl, by rfl⟩⟩

/-! ## Simulator: the disk-busy invariant (C24) -/

/-- A write to a port other than 14 leaves diskstatus and diskcmd as they are. -/
theorem handle_io_write_disk_fields (proc : Processor) (port v : Nat) (hp : port ≠ 14) :
    (handle_io_write proc port v).diskstatus = proc.diskstatus
      ∧ (handle_io_write proc port v).diskcmd = proc.diskcmd := by
  unfold handle_io_write
  split
  all_goals first
    | exact ⟨rfl, rfl⟩
    | exact absurd rfl hp
    | (split_ifs <;> exact ⟨rfl, rfl⟩)

/-- A port write keeps the disk-busy invariant unless it stores a value other than 1 and
2 in diskcmd while the disk is busy. -/
theorem handle_io_write_disk_invariant (proc : Processor) (port v : Nat)
    (hinv : disk_invariant proc)
    (hw : ¬ (port = 14 ∧ proc.diskstatus = 1 ∧ ¬ (v = 1 ∨ v = 2))) :
    disk_invariant (handle_io_write proc port v) := by
  by_cases hp : port = 14
  · subst hp
    by_cases hv : v = 1 ∨ v = 2
    · rw [handle_io_write_diskcmd proc v hv]
      intro _
      exact hv
    · have h : handle_io_write proc 14 v = { proc with diskcmd := v } := by
        simp only [handle_io_write, if_neg hv]
      rw [h]
      intro hs
      exact absurd ⟨rfl, hs, hv⟩ hw
  · obtain ⟨h1, h2⟩ := handle_io_write_disk_fields proc port v hp
    unfold disk_invariant
    rw [h1, h2]
    exact hinv

/-- The opcode switch keeps the disk-busy invariant unless the instruction is such an
`out`. -/
theorem execute_opcode_disk_invariant (proc : Processor) (inst : Instruction) (q : Processor)
    (b : Bool) (h : execute_opcode proc inst = .ok (q, b)) (hinv : disk_invariant proc)
    (hw : ¬ (inst.opcode = 20 ∧ u32 (proc.registers inst.rs + proc.registers inst.rt) = 14
      ∧ proc.diskstatus = 1
      ∧ ¬ (proc.registers inst.rm = 1 ∨ proc.registers inst.rm = 2))) :
    disk_invariant q := by
  revert h
  refine opcode_match_cases
    (fun r : Except Err (Processor × Bool) => r = .ok (q, b) → disk_invariant q)
    inst.opcode ?_ ?_ ?_ ?_ ?_ ?_ ?_ ?_ ?_ ?_ ?_ ?_ ?_ ?_ ?_ ?_ ?_ ?_ ?_ ?_ ?_ ?_ ?_
  case refine_21 =>
    intro hk h
    cases h
    exact handle_io_write_disk_invariant _ _ _ hinv (fun hc => hw ⟨hk, hc.1, hc.2.1, hc.2.2⟩)
  all_goals
    intro _ h
    first
      | (split_ifs at h
         all_goals
           cases h
           try exact hinv)
      | (cases h
         exact hinv)

/-- An instruction keeps the disk-busy invariant unless it is such an `out`. -/
theorem execute_instruction_disk_invariant (proc p : Processor) (inst : Instruction)
    (h : execute_instruction proc inst = .ok p) (hinv : disk_invariant proc)
    (hw : overwrites_diskcmd proc inst = false) : disk_invariant p := by
  have hw' : ¬ (inst.opcode = 20
      ∧ u32 (imm_regs proc inst inst.rs + imm_regs proc inst inst.rt) = 14
      ∧ proc.diskstatus = 1
      ∧ ¬ (imm_regs proc inst inst.rm = 1 ∨ imm_regs proc inst inst.rm = 2)) := by
    intro hc
    unfold overwrites_diskcmd at hw
    rw [decide_eq_true hc.1, decide_eq_true hc.2.1, decide_eq_true hc.2.2.1] at hw
    have h1 : decide (imm_regs proc inst inst.rm = 1) = false :=
      decide_eq_false (fun e => hc.2.2.2 (Or.inl e))
    have h2 : decide (imm_regs proc inst inst.rm = 2) = false :=
      decide_eq_false (fun e => hc.2.2.2 (Or.inr e))
    rw [h1, h2] at hw
    exact Bool.noConfusion hw
  unfold execute_instruction at h
  split_ifs at h
  split at h
  · cases h
  · rename_i q b heq
    have hq := execute_opcode_disk_invariant _ inst q b heq hinv hw'
    split_ifs at h <;>
    · simp only [Except.ok.injEq] at h
      subst h
      exact hq

/-- A call of `handle_disk` keeps the disk-busy invariant. -/
theorem handle_disk_disk_invariant (proc p : Processor) (h : handle_disk proc = .ok p)
    (hinv : disk_invariant proc) : disk_invariant p := by
  have hdone : ∀ q : Processor, disk_invariant (disk_done q) := by
    intro q hs
    exact absurd hs (by show ¬ (0 : Nat) = 1; decide)
  unfold handle_disk at h
  split_ifs at h
  · split at h
    · cases h
    · cases h
      exact hdone _
  · split at h
    · cases h
    · cases h
      exact hdone _
  · cases h
    exact hdone _
  · cases h
    exact hinv
  · cases h
    exact hinv

/-- The first half of a cycle keeps the disk-busy invariant and the value of
diskstatus it leaves is the one the instruction executes with. -/
theorem fetch_stage_disk_invariant (irq2 : List Nat) (proc p : Processor) (w : Nat)
    (h : fetch_stage irq2 proc = .ok (p, w)) (hinv : disk_invariant proc) :
    disk_invariant p := by
  have ht : disk_invariant (handle_timer proc) := by
    unfold handle_timer
    split_ifs <;> exact hinv
  unfold fetch_stage update_devices at h
  cases hd : handle_disk (handle_timer proc) with
  | error e => rw [hd] at h; cases h
  | ok p1 =>
    rw [hd] at h
    have h1 := handle_disk_disk_invariant _ p1 hd ht
    have h2 : disk_invariant (check_interrupts p1) := by
      unfold check_interrupts
      split_ifs <;> exact h1
    have h3 : disk_invariant (check_irq2 (check_interrupts p1) irq2) := by
      unfold check_irq2
      split_ifs <;> exact h2
    simp only at h
    split_ifs at h
    cases h
    exact h3

/-- One cycle keeps the disk-busy invariant unless its instruction is such an `out`. -/
theorem simulate_cycle_disk_invariant (irq2 : List Nat) (s s1 : Sim) (p : Processor) (w : Nat)
    (hf : fetch_stage irq2 s.proc = .ok (p, w))
    (hw : overwrites_diskcmd p (decode_instruction w) = false)
    (h : simulate_cycle irq2 s = .ok s1) (hinv : disk_invariant s.proc) :
    disk_invariant s1.proc := by
  have hp := fetch_stage_disk_invariant irq2 s.proc p w hf hinv
  unfold simulate_cycle at h
  rw [hf] at h
  simp only at h
  cases he : execute_instruction p (decode_instruction w) with
  | error e => rw [he] at h; cases h
  | ok p1 =>
    rw [he] at h
    have h1 := execute_instruction_disk_invariant p p1 _ he hp hw
    simp only at h
    cases hh : hw_trace p1 (decode_instruction w) with
    | error e => rw [hh] at h; cases h
    | ok hwl =>
      rw [hh] at h
      cases h
      exact h1

/-- A run none of whose cycles is such an `out` keeps the disk-busy invariant. -/
theorem simulate_loop_disk_invariant (irq2 : List Nat) :
    ∀ (n : Nat) (s r : Sim), simulate_loop irq2 n s = .ok r →
      never_overwrites_diskcmd irq2 n s = true → disk_invariant s.proc →
      disk_invariant r.proc := by
  intro n
  induction n with
  | zero =>
    intro s r h _ hinv
    simp only [simulate_loop, Except.ok.injEq] at h
    rw [← h]
    exact hinv
  | succ n ih =>
    intro s r h hok hinv
    unfold simulate_loop at h
    unfold never_overwrites_diskcmd at hok
    by_cases hh : s.proc.halt = true
    · rw [if_pos hh] at h
      cases h
      exact hinv
    · rw [if_neg hh] at h hok
      cases hc : simulate_cycle irq2 s with
      | error e => rw [hc] at h; cases h
      | ok s1 =>
        rw [hc] at h hok
        cases hf : fetch_stage irq2 s.proc with
        | error e =>
          unfold simulate_cycle at hc
          rw [hf] at hc
          cases hc
        | ok pw =>
          obtain ⟨p, w⟩ := pw
          rw [hf] at hok
          simp only [Bool.and_eq_true, Bool.not_eq_true'] at hok
          exact ih s1 r h hok.2
            (simulate_cycle_disk_invariant irq2 s s1 p w hf hok.1 hc hinv)

/-- C24 (counterexample): the program `disk_cmd_imem` writes 1 and then 0 to port 14.
After its two `out` instructions the state has diskstatus = 1 and diskcmd = 0. -/
theorem diskcmd_cleared_while_busy :
    process_instruction 64 [] (parse_operands "out $zero, $imm1, $zero, $imm2, 14, 1".toList)
        = .ok (some (hexFixed 12 0x14010200E001))
      ∧ process_instruction 64 [] (parse_operands "out $zero, $imm1, $zero, $imm2, 14, 0".toList)
          = .ok (some (hexFixed 12 0x14010200E000))
      ∧ disk_cmd_imem 0 = 0x14010200E001 ∧ disk_cmd_imem 1 = 0x14010200E000
      ∧ ∃ s, simulate_loop [] 2 (sim_init disk_cmd_imem (fun _ => 0) (fun _ => 0)) = .ok s
          ∧ s.proc.diskstatus = 1 ∧ s.proc.diskcmd = 0 ∧ ¬ disk_invariant s.proc := by
  refine ⟨by rfl, by rfl, by rfl, by rfl, _, rfl, by rfl, by rfl, ?_⟩
  intro hc
  have := hc (by rfl)
  revert this
  decide

/-- C24 (amended): in every state the loop of `simulate` reaches from the zero-initialised
processor, for any memories and IRQ2 schedule, whenever diskstatus = 1 diskcmd is 1 or
2, provided no cycle so far executed an `out` to port 14 of a value other than 1 and 2
while diskstatus was 1. -/
theorem disk_busy_invariant (imem dmem disk : Nat → Nat) (irq2 : List Nat) (n : Nat)
    (r : Sim) (hrun : simulate_loop irq2 n (sim_init imem dmem disk) = .ok r)
    (hok : never_overwrites_diskcmd irq2 n (sim_init imem dmem disk) = true) :
    r.proc.diskstatus = 1 → r.proc.diskcmd = 1 ∨ r.proc.diskcmd = 2 :=
  simulate_loop_disk_invariant irq2 n (sim_init imem dmem disk) r hrun hok
    (fun h => absurd h (by show ¬ (0 : Nat) = 1; decide))

/-- C24 (amended) on the first two cycles of `sector_imem`, which end with the disk
busy: diskcmd is 1. -/
theorem disk_busy_invariant_witness :
    sector_run.proc.diskstatus = 1
      ∧ (sector_run.proc.diskcmd = 1 ∨ sector_run.proc.diskcmd = 2) :=
  ⟨by rfl, disk_busy_invariant sector_imem (fun _ => 0) (fun _ => 0) [] 2 sector_run
    (by rfl) (by rfl) (by rfl)⟩

/-! ## Simulator: the cycle on which an interrupt takes effect (C28) -/

/-- A bitwise or is zero only when both operands are. -/
theorem or_eq_zero_parts (a b : Nat) (h : a ||| b = 0) : a = 0 ∧ b = 0 := by
  constructor
  · apply Nat.eq_of_testBit_eq
    intro i
    have := congrArg (fun x => Nat.testBit x i) h
    simp only [Nat.testBit_or, Nat.zero_testBit, Bool.or_eq_false_iff] at this
    rw [this.1, Nat.zero_testBit]
  · apply Nat.eq_of_testBit_eq
    intro i
    have := congrArg (fun x => Nat.testBit x i) h
    simp only [Nat.testBit_or, Nat.zero_testBit, Bool.or_eq_false_iff] at this
    rw [this.2, Nat.zero_testBit]

/-- An enabled and asserted line makes the arbiter's expression non-zero. -/
theorem irq_pending_of_line (p : Processor)
    (h : (p.irq0enable = 1 ∧ p.irq0status = 1) ∨ (p.irq1enable = 1 ∧ p.irq1status = 1)
      ∨ (p.irq2enable = 1 ∧ p.irq2status = 1)) : irq_pending p ≠ 0 := by
  intro h0
  unfold irq_pending at h0
  obtain ⟨h01, h2⟩ := or_eq_zero_parts _ _ h0
  obtain ⟨h0', h1⟩ := or_eq_zero_parts _ _ h01
  rcases h with ⟨e, s⟩ | ⟨e, s⟩ | ⟨e, s⟩
  · rw [e, s] at h0'
    exact absurd h0' (by decide)
  · rw [e, s] at h1
    exact absurd h1 (by decide)
  · rw [e, s] at h2
    exact absurd h2 (by decide)

/-- Fields that `handle_timer` leaves as they are. -/
theorem handle_timer_frame (proc : Processor) :
    (handle_timer proc).pc = proc.pc ∧ (handle_timer proc).imem = proc.imem
      ∧ (handle_timer proc).irqhandler = proc.irqhandler
      ∧ (handle_timer proc).irqreturn = proc.irqreturn
      ∧ (handle_timer proc).in_interrupt = proc.in_interrupt
      ∧ (handle_timer proc).irq0enable = proc.irq0enable
      ∧ (handle_timer proc).irq1enable = proc.irq1enable
      ∧ (handle_timer proc).diskstatus = proc.diskstatus
      ∧ (handle_timer proc).disk_busy_cycles = proc.disk_busy_cycles := by
  unfold handle_timer
  split_ifs <;> exact ⟨rfl, rfl, rfl, rfl, rfl, rfl, rfl, rfl, rfl⟩

/-- Fields that `handle_disk` leaves as they are. -/
theorem handle_disk_frame (proc p : Processor) (h : handle_disk proc = .ok p) :
    p.pc = proc.pc ∧ p.imem = proc.imem ∧ p.irqhandler = proc.irqhandler
      ∧ p.irqreturn = proc.irqreturn ∧ p.in_interrupt = proc.in_interrupt
      ∧ p.irq0enable = proc.irq0enable ∧ p.irq1enable = proc.irq1enable
      ∧ p.irq0status = proc.irq0status := by
  unfold handle_disk at h
  split_ifs at h
  · split at h
    · cases h
    · cases h
      exact ⟨rfl, rfl, rfl, rfl, rfl, rfl, rfl, rfl⟩
  · split at h
    · cases h
    · cases h
      exact ⟨rfl, rfl, rfl, rfl, rfl, rfl, rfl, rfl⟩
  all_goals
    cases h
    exact ⟨rfl, rfl, rfl, rfl, rfl, rfl, rfl, rfl⟩

/-- A call of `handle_disk` that returns with the busy counter reaching 1024 asserts
irq1status. -/
theorem handle_disk_asserts (proc p : Processor) (h : handle_disk proc = .ok p)
    (hs : proc.diskstatus ≠ 0) (hc : 1024 ≤ (proc.disk_busy_cycles + 1) % 4294967296) :
    p.irq1status = 1 := by
  have hc' : u32 (proc.disk_busy_cycles + 1) ≥ DISK_BUSY_CYCLES := hc
  unfold handle_disk at h
  rw [if_pos hs, if_pos hc'] at h
  split_ifs at h
  · split at h
    · cases h
    · cases h
      rfl
  · split at h
    · cases h
    · cases h
      rfl
  · cases h
    rfl

/-- The first half of a cycle when the arbiter finds a line pending after the timer
and disk updates: the word fetched is `imem[irqhandler]` and irqreturn is the PC that
was about to execute. -/
theorem fetch_stage_enters_handler (irq2 : List Nat) (proc p1 : Processor)
    (hd : handle_disk (handle_timer proc) = .ok p1) (hin : proc.in_interrupt = false)
    (hpend : irq_pending p1 ≠ 0) (hh : proc.irqhandler < 4096) :
    ∃ p w, fetch_stage irq2 proc = .ok (p, w) ∧ p.pc = proc.irqhandler
      ∧ w = proc.imem proc.irqhandler ∧ p.irqreturn = proc.pc ∧ p.in_interrupt = true
      ∧ (write_trace p w).pc = proc.irqhandler := by
  obtain ⟨t1, t2, t3, _, t5, _⟩ := handle_timer_frame proc
  obtain ⟨d1, d2, d3, _, d5, _⟩ := handle_disk_frame _ p1 hd
  have hc : check_interrupts p1
      = { p1 with irqreturn := p1.pc, pc := p1.irqhandler, in_interrupt := true } := by
    unfold check_interrupts
    unfold irq_pending at hpend
    rw [d5, t5, hin]
    simp only [Bool.not_false, if_true]
    rw [if_pos hpend]
  have hpc : (check_irq2 (check_interrupts p1) irq2).pc = proc.irqhandler := by
    unfold check_irq2
    split_ifs <;> rw [hc] <;> exact d3.trans t3
  have him : (check_irq2 (check_interrupts p1) irq2).imem = proc.imem := by
    unfold check_irq2
    split_ifs <;> rw [hc] <;> exact d2.trans t2
  have hret : (check_irq2 (check_interrupts p1) irq2).irqreturn = proc.pc := by
    unfold check_irq2
    split_ifs <;> rw [hc] <;> exact d1.trans t1
  have hint : (check_irq2 (check_interrupts p1) irq2).in_interrupt = true := by
    unfold check_irq2
    split_ifs <;> rw [hc]
  unfold fetch_stage update_devices
  rw [hd]
  simp only
  rw [if_pos (by rw [hpc]; exact hh)]
  refine ⟨_, _, rfl, ?_, ?_, ?_, ?_, ?_⟩
  · exact hpc
  · rw [him, hpc]
  · exact hret
  · exact hint
  · exact hpc

/-- The first half of a cycle when the arbiter finds no line pending after the timer
and disk updates: the word fetched is `imem[pc]`, whatever `check_irq2` asserts
afterwards. -/
theorem fetch_stage_no_handler (irq2 : List Nat) (proc p1 : Processor)
    (hd : handle_disk (handle_timer proc) = .ok p1) (hpend : irq_pending p1 = 0)
    (hpc : proc.pc < 4096) :
    ∃ p w, fetch_stage irq2 proc = .ok (p, w) ∧ p.pc = proc.pc ∧ w = proc.imem proc.pc
      ∧ p.irqreturn = proc.irqreturn ∧ p.in_interrupt = proc.in_interrupt
      ∧ (proc.cycle_counter ∈ irq2 → p.irq2status = 1) := by
  obtain ⟨t1, t2, _, t4, t5, _⟩ := handle_timer_frame proc
  obtain ⟨d1, d2, _, d4, d5, _⟩ := handle_disk_frame _ p1 hd
  have hc : check_interrupts p1 = p1 := by
    unfold check_interrupts
    unfold irq_pending at hpend
    split_ifs with a b
    · exact absurd hpend b
    · rfl
    · rfl
  have hcc : p1.cycle_counter = proc.cycle_counter := by
    have a : (handle_timer proc).cycle_counter = proc.cycle_counter := by
      unfold handle_timer
      split_ifs <;> rfl
    rw [← a]
    unfold handle_disk at hd
    split_ifs at hd
    · split at hd
      · cases hd
      · cases hd
        rfl
    · split at hd
      · cases hd
      · cases hd
        rfl
    all_goals
      cases hd
      rfl
  have hpc' : (check_irq2 (check_interrupts p1) irq2).pc = proc.pc := by
    unfold check_irq2
    split_ifs <;> rw [hc] <;> exact d1.trans t1
  have him : (check_irq2 (check_interrupts p1) irq2).imem = proc.imem := by
    unfold check_irq2
    split_ifs <;> rw [hc] <;> exact d2.trans t2
  have hret : (check_irq2 (check_interrupts p1) irq2).irqreturn = proc.irqreturn := by
    unfold check_irq2
    split_ifs <;> rw [hc] <;> exact d4.trans t4
  have hint : (check_irq2 (check_interrupts p1) irq2).in_interrupt = proc.in_interrupt := by
    unfold check_irq2
    split_ifs <;> rw [hc] <;> exact d5.trans t5
  have hst : proc.cycle_counter ∈ irq2 →
      (check_irq2 (check_interrupts p1) irq2).irq2status = 1 := by
    intro hm
    unfold check_irq2
    rw [hc, hcc, if_pos hm]
  unfold fetch_stage update_devices
  rw [hd]
  simp only
  rw [if_pos (by rw [hpc']; exact hpc)]
  refine ⟨_, _, rfl, ?_, ?_, ?_, ?_, ?_⟩
  · exact hpc'
  · rw [him, hpc']
  · exact hret
  · exact hint
  · exact hst

/-- The two shapes of the state a call of `handle_disk` returns. -/
theorem handle_disk_cases (proc p : Processor) (h : handle_disk proc = .ok p) :
    (∃ c, p = { proc with disk_busy_cycles := c })
      ∨ (∃ d k, p = disk_done { proc with dmem := d, disk := k }) := by
  unfold handle_disk at h
  split_ifs at h
  · split at h
    · cases h
    · cases h
      exact Or.inr ⟨_, _, rfl⟩
  · split at h
    · cases h
    · cases h
      exact Or.inr ⟨_, _, rfl⟩
  · cases h
    exact Or.inr ⟨_, _, rfl⟩
  · cases h
    exact Or.inl ⟨_, rfl⟩
  · cases h
    exact Or.inl ⟨_, rfl⟩

/-- The timer and disk updates leave the enable and status bits of line 2 as they
are. -/
theorem devices_line2_frame (proc p1 : Processor)
    (hd : handle_disk (handle_timer proc) = .ok p1) :
    p1.irq2enable = proc.irq2enable ∧ p1.irq2status = proc.irq2status := by
  have ht : (handle_timer proc).irq2enable = proc.irq2enable
      ∧ (handle_timer proc).irq2status = proc.irq2status := by
    unfold handle_timer
    split_ifs <;> exact ⟨rfl, rfl⟩
  rcases handle_disk_cases _ p1 hd with ⟨c, e⟩ | ⟨d, k, e⟩
  · rw [e]
    exact ht
  · rw [e]
    exact ht

/-- The timer reaching timermax asserts irq0status. -/
theorem handle_timer_asserts (proc : Processor) (he : proc.timerenable ≠ 0)
    (hm : proc.timermax ≤ (proc.timercurrent + 1) % 4294967296) :
    (handle_timer proc).irq0status = 1 := by
  have hm' : u32 (proc.timercurrent + 1) ≥ proc.timermax := hm
  unfold handle_timer
  rw [if_pos he, if_pos hm']

/-- C28 (counterexample): in the run of `irq2_imem` with IRQ2 schedule [3], line 2 is
enabled, no line is pending and in_interrupt is false when cycle 3 starts.  The
instruction fetched and traced in cycle 3 is `imem[3]` at PC = 3, not `imem[irqhandler]`:
`check_irq2` asserts irq2status after the arbiter has run.  The handler at 0x100 is
fetched in cycle 4, with irqreturn = 4. -/
theorem irq2_takes_effect_a_cycle_later :
    (∃ s, simulate_loop [3] 3 (sim_init irq2_imem (fun _ => 0) (fun _ => 0)) = .ok s
        ∧ s.proc.cycle_counter = 3 ∧ s.proc.pc = 3 ∧ s.proc.irq2enable = 1
        ∧ s.proc.irqhandler = 0x100 ∧ s.proc.in_interrupt = false ∧ irq_pending s.proc = 0
        ∧ ∃ p w, fetch_stage [3] s.proc = .ok (p, w) ∧ p.irq2status = 1 ∧ p.pc = 3
            ∧ w = irq2_imem 3 ∧ w ≠ irq2_imem 0x100 ∧ p.irqreturn = 0)
      ∧ (∃ s, simulate_loop [3] 5 (sim_init irq2_imem (fun _ => 0) (fun _ => 0)) = .ok s
          ∧ s.trace.map (fun tl => tl.pc) = [0, 1, 2, 3, 0x100]
          ∧ s.proc.irqreturn = 4) :=
  ⟨⟨_, rfl, by rfl, by rfl, by rfl, by rfl, by rfl, by rfl, _, _, rfl, by rfl, by rfl, by rfl,
    by decide, by rfl⟩, ⟨_, rfl, by rfl, by rfl⟩⟩

/-- C28 (amended): in a state with in_interrupt false in which the timer and disk updates
of the cycle return, (1) if line 0 is enabled and the timer reaches timermax in this
cycle, or (2) if line 1 is enabled and the disk busy counter reaches 1024 in this cycle,
or (4) if line 2 is enabled and irq2status was asserted in an earlier cycle, then with
irqhandler below 4096 the instruction fetched and traced in this cycle is
`imem[irqhandler]` and irqreturn holds the PC that was about to execute; (3) if line 2 is
enabled, the cycle counter is in the IRQ2 schedule and no line is pending when the
arbiter runs, then irq2status is asserted in this cycle but the instruction fetched is
`imem[pc]` and irqreturn is unchanged: the interrupt is taken in the next cycle. -/
theorem irq_effect_cycle (irq2 : List Nat) (proc p1 : Processor)
    (hd : handle_disk (handle_timer proc) = .ok p1) (hin : proc.in_interrupt = false) :
    (proc.irq0enable = 1 → proc.timerenable ≠ 0 →
        proc.timermax ≤ (proc.timercurrent + 1) % 4294967296 → proc.irqhandler < 4096 →
        ∃ p w, fetch_stage irq2 proc = .ok (p, w) ∧ p.pc = proc.irqhandler
          ∧ w = proc.imem proc.irqhandler ∧ p.irqreturn = proc.pc ∧ p.in_interrupt = true
          ∧ (write_trace p w).pc = proc.irqhandler)
      ∧ (proc.irq1enable = 1 → proc.diskstatus ≠ 0 →
          1024 ≤ (proc.disk_busy_cycles + 1) % 4294967296 → proc.irqhandler < 4096 →
          ∃ p w, fetch_stage irq2 proc = .ok (p, w) ∧ p.pc = proc.irqhandler
            ∧ w = proc.imem proc.irqhandler ∧ p.irqreturn = proc.pc ∧ p.in_interrupt = true
            ∧ (write_trace p w).pc = proc.irqhandler)
      ∧ (proc.irq2enable = 1 → proc.cycle_counter ∈ irq2 → irq_pending p1 = 0 →
          proc.pc < 4096 →
          ∃ p w, fetch_stage irq2 proc = .ok (p, w) ∧ p.pc = proc.pc ∧ w = proc.imem proc.pc
            ∧ p.irqreturn = proc.irqreturn ∧ p.in_interrupt = false ∧ p.irq2status = 1)
      ∧ (proc.irq2enable = 1 → proc.irq2status = 1 → proc.irqhandler < 4096 →
          ∃ p w, fetch_stage irq2 proc = .ok (p, w) ∧ p.pc = proc.irqhandler
            ∧ w = proc.imem proc.irqhandler ∧ p.irqreturn = proc.pc ∧ p.in_interrupt = true
            ∧ (write_trace p w).pc = proc.irqhandler) := by
  obtain ⟨_, _, _, _, _, t6, t7, t8, t9⟩ := handle_timer_frame proc
  obtain ⟨_, _, _, _, _, d6, d7, d8⟩ := handle_disk_frame _ p1 hd
  obtain ⟨l1, l2⟩ := devices_line2_frame proc p1 hd
  refine ⟨?_, ?_, ?_, ?_⟩
  · intro he hte hm hh
    exact fetch_stage_enters_handler irq2 proc p1 hd hin
      (irq_pending_of_line p1 (Or.inl ⟨d6.trans (t6.trans he),
        d8.trans (handle_timer_asserts proc hte hm)⟩)) hh
  · intro he hs hc hh
    exact fetch_stage_enters_handler irq2 proc p1 hd hin
      (irq_pending_of_line p1 (Or.inr (Or.inl ⟨d7.trans (t7.trans he),
        handle_disk_asserts _ p1 hd (by rw [t8]; exact hs) (by rw [t9]; exact hc)⟩))) hh
  · intro _ hm hp hpc
    obtain ⟨p, w, e, a1, a2, a3, a4, a5⟩ := fetch_stage_no_handler irq2 proc p1 hd hp hpc
    exact ⟨p, w, e, a1, a2, a3, a4.trans hin, a5 hm⟩
  · intro he hs hh
    exact fetch_stage_enters_handler irq2 proc p1 hd hin
      (irq_pending_of_line p1 (Or.inr (Or.inr ⟨l1.trans he, l2.trans hs⟩))) hh

/-- C28 (amended) on `timer_scenario` (PC = 5, irqhandler = 0x100, timercurrent = 9,
timermax = 10, `imem[a] = a`): the cycle fetches `imem[0x100]` and irqreturn is 5. -/
theorem irq_effect_cycle_witness :
    ∃ p w, fetch_stage [] timer_scenario = .ok (p, w) ∧ p.pc = 0x100 ∧ w = 0x100
      ∧ p.irqreturn = 5 := by
  obtain ⟨p, w, e, a1, a2, a3, _⟩ := (irq_effect_cycle [] timer_scenario
    { timer_scenario with irq0status := 1, timercurrent := 0 } (by rfl) (by rfl)).1
    (by rfl) (by decide) (by decide) (by decide)
  exact ⟨p, w, e, a1, a2, a3⟩

/-! ## Simulator: shifts -/

/-- The selection of `execute_opcode` at opcode 6. -/
theorem opcode_match_6 {α : Type}
    {a0 a1 a2 a3 a4 a5 a6 a7 a8 a9 a10 a11 a12 a13 a14 a15 a16 a17 a18 a19 a20 a21 : Unit → α}
    {ad : Nat → α} {k : Nat} (hk : k = 6) :
    execute_opcode.match_1 (fun _ => α) k a0 a1 a2 a3 a4 a5 a6 a7 a8 a9 a10 a11 a12 a13 a14
      a15 a16 a17 a18 a19 a20 a21 ad = a6 () := by
  subst hk
  rfl

/-- The selection of `execute_opcode` at opcode 7. -/
theorem opcode_match_7 {α : Type}
    {a0 a1 a2 a3 a4 a5 a6 a7 a8 a9 a10 a11 a12 a13 a14 a15 a16 a17 a18 a19 a20 a21 : Unit → α}
    {ad : Nat → α} {k : Nat} (hk : k = 7) :
    execute_opcode.match_1 (fun _ => α) k a0 a1 a2 a3 a4 a5 a6 a7 a8 a9 a10 a11 a12 a13 a14
      a15 a16 a17 a18 a19 a20 a21 ad = a7 () := by
  subst hk
  rfl

/-- The selection of `execute_opcode` at opcode 8. -/
theorem opcode_match_8 {α : Type}
    {a0 a1 a2 a3 a4 a5 a6 a7 a8 a9 a10 a11 a12 a13 a14 a15 a16 a17 a18 a19 a20 a21 : Unit → α}
    {ad : Nat → α} {k : Nat} (hk : k = 8) :
    execute_opcode.match_1 (fun _ => α) k a0 a1 a2 a3 a4 a5 a6 a7 a8 a9 a10 a11 a12 a13 a14
      a15 a16 a17 a18 a19 a20 a21 ad = a8 () := by
  subst hk
  rfl

/-- An opcode whose effect is undefined makes the whole instruction undefined. -/
theorem execute_undefined (proc : Processor) (inst : Instruction) (hv : valid_fields inst)
    (h : execute_opcode { proc with registers := imm_regs proc inst } inst
      = .error .undefined_behaviour) :
    execute_instruction proc inst = .error .undefined_behaviour := by
  rw [execute_instruction_valid proc inst hv, h]

/-- The three shift opcodes with a count of 32 or more. -/
theorem shift_count_undefined (proc : Processor) (inst : Instruction) (hv : valid_fields inst)
    (hop : inst.opcode = 6 ∨ inst.opcode = 7 ∨ inst.opcode = 8)
    (hn : 32 ≤ imm_regs proc inst inst.rt) :
    execute_instruction proc inst = .error .undefined_behaviour := by
  apply execute_undefined proc inst hv
  rcases hop with h | h | h
  · exact (opcode_match_6 h).trans (if_pos hn)
  · exact (opcode_match_7 h).trans (if_pos hn)
  · exact (opcode_match_8 h).trans (if_pos hn)

/-- The three shift opcodes with a count below 32. -/
theorem shift_count_defined (proc : Processor) (inst : Instruction) (hv : valid_fields inst)
    (hh : proc.halt = false) (hrd : inst.rd ≠ 0)
    (hop : inst.opcode = 6 ∨ inst.opcode = 7 ∨ inst.opcode = 8)
    (hn : imm_regs proc inst inst.rt < 32) :
    ∃ p, execute_instruction proc inst = .ok p
      ∧ (inst.opcode = 6 → p.registers inst.rd
          = (imm_regs proc inst inst.rs * 2 ^ imm_regs proc inst inst.rt) % 4294967296)
      ∧ (inst.opcode = 8 → p.registers inst.rd
          = imm_regs proc inst inst.rs / 2 ^ imm_regs proc inst inst.rt)
      ∧ (inst.opcode = 7 → ((p.registers inst.rd : Nat) : Int)
          = (toInt32 (imm_regs proc inst inst.rs) / 2 ^ imm_regs proc inst inst.rt)
              % 4294967296) := by
  have hn' : ¬ 32 ≤ imm_regs proc inst inst.rt := by omega
  rcases hop with h | h | h
  · obtain ⟨p, e, _, hr, _⟩ := execute_write_rd proc inst hv hh _
      ((opcode_match_6 h).trans (if_neg hn'))
    refine ⟨p, e, ?_, ?_, ?_⟩
    · intro _
      rw [hr hrd]
      show (imm_regs proc inst inst.rs <<< imm_regs proc inst inst.rt) % 4294967296 = _
      rw [Nat.shiftLeft_eq]
    · intro h'; omega
    · intro h'; omega
  · obtain ⟨p, e, _, hr, _⟩ := execute_write_rd proc inst hv hh _
      ((opcode_match_7 h).trans (if_neg hn'))
    refine ⟨p, e, ?_, ?_, ?_⟩
    · intro h'; omega
    · intro h'; omega
    · intro _
      rw [hr hrd]
      exact toU32_cast _
  · obtain ⟨p, e, _, hr, _⟩ := execute_write_rd proc inst hv hh _
      ((opcode_match_8 h).trans (if_neg hn'))
    refine ⟨p, e, ?_, ?_, ?_⟩
    · intro h'; omega
    · intro _
      rw [hr hrd]
      exact Nat.shiftRight_eq_div_pow _ _
    · intro h'; omega

/-! ## Assembler: agreement of the two passes (C30) -/

/-- C30: the two passes count differently a line that holds only separators.  On the
three lines `,` / `L:` / `beq $zero, $zero, $zero, $imm1, L, 0` of `separator_source`
the assembler succeeds; `first_pass` counts the line `,` (non-empty, no `.word`) and
records L at address 1, while `second_pass` finds no token on that line, emits nothing
and has emitted 0 words when it reaches the line of L.  The image has one word, at
index 0, and its immediate L is encoded as 001: the label denotes an index at which
there is no instruction. -/
theorem passes_disagree_on_separator_line :
    fgets_lines MAX_LINE_LENGTH separator_source
        = [",\n".toList, "L:\n".toList, "beq $zero, $zero, $zero, $imm1, L, 0\n".toList]
      ∧ first_pass separator_source = .ok [{ name := "L".toList, address := 1 }]
      ∧ (∃ st, second_pass_loop 64 [{ name := "L".toList, address := 1 }] pass2_init
            [",\n".toList] = .ok st
          ∧ st.imemin = [] ∧ st.current_address = 0)
      ∧ (∃ dat, assemble 64 separator_source = .ok ([hexFixed 12 0x090001001000], dat))
      ∧ (decode_instruction 0x090001001000).immediate1 = 1 :=
  ⟨by rfl, by rfl, ⟨_, rfl, by rfl, by rfl⟩, ⟨_, rfl⟩, by rfl⟩

end SIMP
